import Mathlib

/-!
# Verification of the localLLM parallel generation engine

A shallow embedding of the continuous-batching inference scheduler in
`src/custom_files/localllm_capi.cpp` (`localllm_generate`,
`localllm_generate_parallel` and their helper lambdas), together with
theorems settling the specification claims.

Modelling conventions:
* byte strings are `List Char` (`Str`), with each `Char` standing for one byte;
* tokens are `Int` (`llama_token` is a 32-bit signed integer; the values that
  occur are tiny, so no wrap-around modelling is needed);
* the tensor runtime is abstracted: the vocabulary is a `Vocab` record
  (`llama_vocab_is_eog`, `llama_vocab_eos`, `common_token_to_piece`),
  per-prompt sampler output is a stream `Nat → Nat → Int`
  (`common_sampler_sample` for prompt `g` at its `j`-th sampling step — one
  sampler per slot, seeded identically, so its output is a function of the
  slot's own history only), and `llama_decode` return codes are an oracle
  `Nat → Int` indexed by the global decode-call counter;
* the KV memory is `Nat → Nat`, mapping a seq-id to its number of rows.
-/

namespace LocalLLM

abbrev Str := List Char
abbrev Tok := Int

/-! ## Byte-string helpers (std::string operations used by the engine) -/

/-- `std::string::find(pat)` on a suffix-free representation: the first index
`i` such that `pat` occurs in `text` starting at `i`. -/
def findIdx? (text pat : Str) : Option Nat :=
  match text with
  | [] => if pat = [] then some 0 else none
  | c :: rest =>
      if pat.isPrefixOf (c :: rest) then some 0
      else (findIdx? rest pat).map (· + 1)

/-- `text.find(pat) != std::string::npos`. -/
def containsSub (text pat : Str) : Bool :=
  (findIdx? text pat).isSome

/-! ## The output cleaner (`clean_response_text`, localllm_capi.cpp:570-606) -/

/-- The `stop_markers` table (localllm_capi.cpp:571-575). -/
def stopMarkers : List Str :=
  ["<|im_end|>".data, "<|im_start|>".data, "<end_of_turn>".data,
   "<start_of_turn>".data, "</s>".data, "<s>".data, "<|endoftext|>".data,
   "<|end|>".data, "<|start|>".data, "<eos>".data, "<bos>".data,
   "\n<|im_end|>".data, "\n<end_of_turn>".data, "\n</s>".data]

/-- The inner `while ((pos = text.find(marker, pos)) != npos)` loop
(localllm_capi.cpp:583-587): repeatedly erase the marker, resuming the search
at the erase position.  Each erase shortens the text, so `text.length + 1`
fuel (supplied by `removeMarker`) always suffices. -/
def removeMarkerLoop (pat : Str) : Nat → Str → Nat → Bool → Str × Bool
  | 0, text, _, found => (text, found)
  | fuel + 1, text, pos, found =>
      match findIdx? (text.drop pos) pat with
      | none => (text, found)
      | some i =>
          removeMarkerLoop pat fuel
            (text.take (pos + i) ++ text.drop (pos + i + pat.length))
            (pos + i) true

def removeMarker (text : Str) (pat : Str) : Str × Bool :=
  removeMarkerLoop pat (text.length + 1) text 0 false

/-- One pass of the `for (marker : stop_markers)` loop
(localllm_capi.cpp:582-588), accumulating the `found_marker` flag. -/
def markersPass (text : Str) : Str × Bool :=
  stopMarkers.foldl
    (fun acc pat =>
      let r := removeMarker acc.1 pat
      (r.1, acc.2 || r.2))
    (text, false)

/-- The `while (found_marker && cleanup_rounds < 5)` driver
(localllm_capi.cpp:577-589); entered with `found_marker = true`, so the first
pass always runs. -/
def cleanRounds : Nat → Str → Str
  | 0, text => text
  | rounds + 1, text =>
      let r := markersPass text
      if r.2 then cleanRounds rounds r.1 else r.1

/-- `text.front() == '?' || text.front() < 32 || text.front() > 126` on a
(signed) `char`: bytes 128-255 are negative, hence `< 32`. -/
def frontBad (c : Char) : Bool :=
  c = '?' || c.toNat < 32 || c.toNat > 126

/-- C `isspace` on the default locale. -/
def isSpaceByte (c : Char) : Bool :=
  c = ' ' || c.toNat = 9 || c.toNat = 10 || c.toNat = 11 ||
  c.toNat = 12 || c.toNat = 13

/-- `while (!text.empty() && (front == '?' || front < 32 || front > 126))
text = text.substr(1)` (localllm_capi.cpp:591-593). -/
def stripLeadingBad (text : Str) : Str := text.dropWhile frontBad

/-- `while (!text.empty() && isspace(text.back())) text.pop_back()`
(localllm_capi.cpp:594-596). -/
def stripTrailingSpace (text : Str) : Str :=
  (text.reverse.dropWhile isSpaceByte).reverse

/-- `while (!text.empty() && isspace(text.front())) text = text.substr(1)`
(localllm_capi.cpp:597-599). -/
def stripLeadingSpace (text : Str) : Str := text.dropWhile isSpaceByte

def userMarker : Str := "\n\nUser:".data

def humanMarker : Str := "\n\nHuman:".data

/-- `pos = text.find("\n\nUser:"); if (pos != npos) text = text.substr(0, pos)`
(localllm_capi.cpp:601-604). -/
def truncAtUser (text : Str) : Str :=
  match findIdx? text userMarker with
  | some p => text.take p
  | none => text

/-- The full output cleaner `clean_response_text` (localllm_capi.cpp:570-606). -/
def cleanResponseText (text : Str) : Str :=
  truncAtUser (stripLeadingSpace (stripTrailingSpace (stripLeadingBad (cleanRounds 5 text))))

/-! ## Prefix analyser (localllm_capi.cpp:489-504)

The loop sets `shared = len(tokens_0)` for `i = 0` and, for each later `i`,
rescans from position 0 up to `limit = min(shared, len(tokens_i))`, stopping at
the first mismatch against `tokens_0`.  That is exactly
`min shared (commonPrefixCount tokens_0 tokens_i)`. -/

def commonPrefixCount : List Tok → List Tok → Nat
  | x :: xs, y :: ys => if x = y then commonPrefixCount xs ys + 1 else 0
  | _, _ => 0

def computeSharedLen : List (List Tok) → Nat
  | [] => 0
  | t0 :: rest =>
      rest.foldl (fun shared ti => min shared (commonPrefixCount t0 ti)) t0.length

/-! ## Vocabulary and the per-token acceptance step -/

/-- The vocabulary operations the engine consumes (`llama_vocab_is_eog`,
`llama_vocab_eos`, `common_token_to_piece`). -/
structure Vocab where
  is_eog : Tok → Bool
  eos : Tok
  piece : Tok → Str

/-- Per-slot generation state: `response`, `n_decoded` and whether the current
step decided to stop. -/
structure GenState where
  response : Str
  n_decoded : Nat
  stopped : Bool
  deriving DecidableEq

/-- The per-token acceptance step of the parallel engine
(localllm_capi.cpp:891-913): single-token EOG / `eos` check, the
`max_tokens > 0 && n_decoded >= max_tokens` limit, the append, and the
conversation-marker heuristic.  Note there is no sliding token window here. -/
def slotAccept (V : Vocab) (maxTokens : Int) (t : Tok) (st : GenState) : GenState :=
  let shouldStop := decide (t = V.eos) || V.is_eog t ||
    (decide (0 < maxTokens) && decide (maxTokens ≤ (st.n_decoded : Int)))
  if shouldStop then
    { response := st.response, n_decoded := st.n_decoded + 1, stopped := true }
  else
    let resp := st.response ++ V.piece t
    let stop := decide (5 < st.n_decoded) &&
      (containsSub resp userMarker || containsSub resp humanMarker)
    { response := resp, n_decoded := st.n_decoded + 1, stopped := stop }

/-- The state of one slot's generation after `k` accepted tokens, when driven
by the sampler stream `s` (once stopped, the state is frozen). -/
def genIter (V : Vocab) (maxTokens : Int) (s : Nat → Tok) : Nat → GenState
  | 0 => ⟨[], 0, false⟩
  | k + 1 =>
      let st := genIter V maxTokens s k
      if st.stopped then st else slotAccept V maxTokens (s st.n_decoded) st

/-! ## Single-prompt generation (`localllm_generate`, localllm_capi.cpp:333-453) -/

/-- The `<|eot_id|>` token sequence (localllm_capi.cpp:391). -/
def eotSeq : List Tok := [27, 91, 68, 354, 851, 91, 29]

/-- The `<|end_header_id|>` token sequence (localllm_capi.cpp:416). -/
def endHeaderSeq : List Tok := [27, 91, 408, 8932, 851, 91, 29]

/-- `recent_tokens.push_back(t); if (size > 7) erase(begin())`
(localllm_capi.cpp:383-386). -/
def pushRecent (recent : List Tok) (t : Tok) : List Tok :=
  let r := recent ++ [t]
  if 7 < r.length then r.tail else r

/-- Retract the first six tokens of the matched seven-token window from the
generated text if it ends with their concatenated pieces
(localllm_capi.cpp:401-411). -/
def stripSeqTail (V : Vocab) (recent : List Tok) (text : Str) : Str :=
  let toRemove :=
    ((recent.drop (recent.length - 7)).take 6).foldl
      (fun acc tok => acc ++ V.piece tok) []
  if toRemove.length ≤ text.length ∧
      text.drop (text.length - toRemove.length) = toRemove then
    text.take (text.length - toRemove.length)
  else text

/-- The generation loop of `localllm_generate` (localllm_capi.cpp:371-449):
`for (i = 0; i < max_tokens; ++i)` with single-token EOG detection, the
seven-token sliding window with retraction, the append, and the per-token
decode call. -/
def genSingleLoop (V : Vocab) (dec : Nat → Int) (s : Nat → Tok) :
    Nat → Nat → Str → List Tok → Nat → Except Str Str
  | 0, _, text, _, _ => .ok text
  | fuel + 1, i, text, recent, calls =>
      let t := s i
      if V.is_eog t then .ok text
      else
        let recent1 := pushRecent recent t
        if 7 ≤ recent1.length ∧ recent1.drop (recent1.length - 7) = eotSeq then
          .ok (stripSeqTail V recent1 text)
        else if 7 ≤ recent1.length ∧ recent1.drop (recent1.length - 7) = endHeaderSeq then
          .ok (stripSeqTail V recent1 text)
        else
          let text1 := text ++ V.piece t
          if dec calls ≠ 0 then .error ("Failed to decode generated token.".data)
          else genSingleLoop V dec s fuel (i + 1) text1 recent1 (calls + 1)

/-- `localllm_generate` (localllm_capi.cpp:333-453).  The prompt tokens only
reach the runtime through the initial decode call (modelled by `dec 0`); the
KV clear at entry and the sampler construction are external calls with no
observable effect in this model.  Note: no output cleaning is applied. -/
def localllm_generate (V : Vocab) (dec : Nat → Int) (s : Nat → Tok)
    (tokens : List Tok) (maxTokens : Int) : Except Str Str :=
  if dec 0 ≠ 0 then .error ("Failed to decode input tokens.".data)
  else
    let _ := tokens
    genSingleLoop V dec s maxTokens.toNat 0 [] [] 1

/-! ## The parallel engine (`localllm_generate_parallel`, localllm_capi.cpp:456-990) -/

/-- Engine configuration: the context quantities, the caller's parameters and
the abstracted runtime (prompts arrive already tokenised by
`helper_tokenize`). -/
structure Cfg where
  vocab : Vocab
  n_ctx : Nat
  n_batch : Nat
  seq_cap_raw : Int
  max_tokens : Int
  prompts : List (List Tok)
  streams : Nat → Nat → Tok
  dec : Nat → Int

/-- `seq_capacity = std::max(1, seq_cap_raw > 0 ? seq_cap_raw : 1)`
(localllm_capi.cpp:474). -/
def seqCapacity (c : Cfg) : Nat :=
  max 1 (if 0 < c.seq_cap_raw then c.seq_cap_raw.toNat else 1)

/-- `batch_cap_init = std::max(1, std::min(512, llama_n_batch(ctx)))`
(localllm_capi.cpp:475). -/
def batchCapInit (c : Cfg) : Nat := max 1 (min 512 c.n_batch)

/-! ### KV memory (row counts per seq-id) -/

def memClear : Nat → Nat := fun _ => 0

def memSet (m : Nat → Nat) (s v : Nat) : Nat → Nat :=
  fun q => if q = s then v else m q

def memAdd (m : Nat → Nat) (s n : Nat) : Nat → Nat := memSet m s (m s + n)

/-- `llama_kv_self_seq_rm(ctx, s, 0, -1)`. -/
def seqRm (m : Nat → Nat) (s : Nat) : Nat → Nat := memSet m s 0

/-- `llama_kv_self_seq_cp(ctx, src, dst, -1, -1)`. -/
def seqCp (m : Nat → Nat) (src dst : Nat) : Nat → Nat := memSet m dst (m src)

/-! ### Slot state (localllm_capi.cpp:551-568); `release_slot` resets to the
defaults (localllm_capi.cpp:608-628), so a released slot is `{}`.  The
`smpl` flag models sampler non-nullness. -/

structure Slot where
  active : Bool := false
  finished : Bool := false
  failed : Bool := false
  seq_id : Nat := 0
  global_index : Int := -1
  full_tokens : List Tok := []
  suffix_tokens : List Tok := []
  prefix_len : Nat := 0
  n_past : Nat := 0
  n_prompt : Nat := 0
  n_decoded : Nat := 0
  i_batch : Int := -1
  sampled : Tok := 0
  smpl : Bool := false
  response : Str := []
  error_msg : Str := []

structure Engine where
  mem : Nat → Nat
  final_responses : List Str
  slots : List Slot
  next_prompt_idx : Nat
  active_clients : Nat
  pending : List Nat
  calls : Nat
  miss : Nat
  n_total_prompt : Nat
  n_total_gen : Nat
  prefix_ready : Bool
  shared_len : Nat

def getSlot (e : Engine) (i : Nat) : Slot := e.slots.getD i {}

def setSlotE (e : Engine) (i : Nat) (s : Slot) : Engine :=
  { e with slots := e.slots.set i s }

/-! ### The chunked batch driver -/

structure SubmitResult where
  ok : Bool
  progress : Nat
  calls : Nat
  miss : Nat
  trace : List (Nat × Int)

/-- The chunk-halving submit loop used for the shared prefix
(localllm_capi.cpp:516-541) and for per-slot suffix decode
(localllm_capi.cpp:656-685): walk `[start, total)` in windows of
`min(cap, total - start)` tokens; a positive decode return halves the cap
(floored at 1) and retries, a success advances, anything else fails the
submission.  `trace` records `(cap, ret)` per decode call.  Every call site
passes `cap ≥ 1` and fuel `total + cap + 1`, which always suffices; the
`max 1 cap` in the window size only differs from the source at the
unreachable `cap = 0`. -/
def submitChunks (dec : Nat → Int) :
    Nat → Nat → Nat → Nat → Nat → Nat → SubmitResult
  | 0, _total, start, _cap, calls, miss =>
      { ok := false, progress := start, calls := calls, miss := miss, trace := [] }
  | fuel + 1, total, start, cap, calls, miss =>
      if start < total then
        let n := min (max 1 cap) (total - start)
        let ret := dec calls
        if ret = 0 then
          let r := submitChunks dec fuel total (start + n) cap (calls + 1) miss
          { r with trace := (cap, ret) :: r.trace }
        else if 0 < ret ∧ 1 < cap then
          let r := submitChunks dec fuel total start (max 1 (cap / 2)) (calls + 1) (miss + 1)
          { r with trace := (cap, ret) :: r.trace }
        else
          { ok := false, progress := start, calls := calls + 1, miss := miss,
            trace := [(cap, ret)] }
      else { ok := true, progress := start, calls := calls, miss := miss, trace := [] }

/-! ### Slot finalisation (localllm_capi.cpp:698-741) -/

def finalizeSlot (c : Cfg) (e : Engine) (idx : Nat) (success : Bool) : Engine :=
  let slot := getSlot e idx
  if ¬slot.active then setSlotE e idx {}
  else
    let m1 := if 0 < slot.seq_id then seqRm e.mem slot.seq_id else e.mem
    let g := slot.global_index.toNat
    let entry :=
      if success then cleanResponseText slot.response
      else "[ERROR] ".data ++
        (if slot.error_msg = [] then "Unknown error".data else slot.error_msg)
    let needs := e.next_prompt_idx < c.prompts.length
    -- the progress-bar output (localllm_capi.cpp:720-737) is purely
    -- observational and is not modelled
    let e1 :=
      { e with
        mem := m1
        final_responses := e.final_responses.set g entry
        n_total_gen := if success then e.n_total_gen + slot.n_decoded else e.n_total_gen
        active_clients := e.active_clients - 1
        slots := e.slots.set idx {} }
    if needs then { e1 with pending := e1.pending ++ [idx] } else e1

/-! ### Prompt admission (localllm_capi.cpp:638-690 and 743-818) -/

/-- `decode_prompt_tokens` (localllm_capi.cpp:638-690): feed the slot's suffix
through the chunked driver; rows appear under the slot's seq-id as windows
succeed. -/
def decodePromptTokens (c : Cfg) (e : Engine) (slot : Slot) :
    Bool × Engine × Slot :=
  if slot.n_prompt = 0 then
    (false, e, { slot with
                 failed := true
                 error_msg := "Prompt resulted in zero tokens".data })
  else if slot.suffix_tokens = [] then
    (true, e, { slot with n_past := slot.n_prompt })
  else
    let total := slot.suffix_tokens.length
    let cap := batchCapInit c
    let r := submitChunks c.dec (total + cap + 1) total 0 cap e.calls e.miss
    let e1 := { e with
                mem := memAdd e.mem slot.seq_id r.progress
                calls := r.calls
                miss := r.miss }
    if r.ok then (true, e1, { slot with n_past := slot.n_prompt })
    else (false, e1, { slot with
                       failed := true
                       error_msg := "Failed to decode prompt tokens".data })

/-- `assign_next_prompt` (localllm_capi.cpp:743-810): pop prompts off the
queue until one is admitted or the queue empties.  `common_sampler_init` is an
external call modelled as always succeeding (`smpl := true`); fuel is the
remaining queue length plus one, which always suffices. -/
def assignAux (c : Cfg) : Nat → Engine → Nat → Bool × Engine
  | 0, e, _idx => (false, e)
  | fuel + 1, e, idx =>
      if e.next_prompt_idx < c.prompts.length then
        let g := e.next_prompt_idx
        let e0 := { e with next_prompt_idx := g + 1 }
        let toks := c.prompts.getD g []
        let pl : Nat := if e.prefix_ready then min e.shared_len toks.length else 0
        let slot0 : Slot :=
          { active := false, finished := false, failed := false,
            seq_id := idx + 1, global_index := (g : Int),
            full_tokens := toks, n_prompt := toks.length, prefix_len := pl,
            suffix_tokens := if pl < toks.length then toks.drop pl else [],
            n_past := pl, n_decoded := 0, i_batch := -1, sampled := 0,
            smpl := true, response := [], error_msg := [] }
        if (toks.length : Int) > (c.n_ctx : Int) - 64 then
          assignAux c fuel
            { e0 with final_responses :=
                e0.final_responses.set g ("[ERROR] Prompt too long for context size".data) }
            idx
        else if toks.length = 0 then
          assignAux c fuel
            { e0 with final_responses :=
                e0.final_responses.set g ("[ERROR] Prompt resulted in zero tokens".data) }
            idx
        else
          let e1 := { e0 with n_total_prompt := e0.n_total_prompt + toks.length }
          let e2 :=
            if e1.prefix_ready ∧ 0 < pl then
              { e1 with mem := seqCp e1.mem 0 slot0.seq_id }
            else e1
          let r := decodePromptTokens c e2 slot0
          if r.1 then
            let slot1 :=
              { r.2.2 with
                sampled := if toks = [] then 0 else toks.getLastD 0
                active := true }
            (true, { setSlotE r.2.1 idx slot1 with
              active_clients := r.2.1.active_clients + 1 })
          else
            let e3 :=
              { r.2.1 with mem :=
                  if 0 < slot0.seq_id then seqRm r.2.1.mem slot0.seq_id
                  else r.2.1.mem }
            assignAux c fuel
              { e3 with final_responses :=
                  e3.final_responses.set g ("[ERROR] ".data ++ r.2.2.error_msg) }
              idx
      else (false, setSlotE e idx {})

def assignNextPrompt (c : Cfg) (e : Engine) (idx : Nat) : Bool × Engine :=
  assignAux c (c.prompts.length + 1 - e.next_prompt_idx) e idx

/-- `ensure_slots_filled` (localllm_capi.cpp:812-818). -/
def ensureAux (c : Cfg) : Nat → Nat → Engine → Engine
  | 0, _, e => e
  | k + 1, i, e =>
      if e.next_prompt_idx < c.prompts.length then
        let e1 := if ¬(getSlot e i).active then (assignNextPrompt c e i).2 else e
        ensureAux c k (i + 1) e1
      else e

def ensureSlotsFilled (c : Cfg) (e : Engine) : Engine :=
  ensureAux c (seqCapacity c) 0 e

/-! ### The main generation loop (localllm_capi.cpp:820-943) -/

/-- One row of the generation batch as recorded by `common_batch_add`
(localllm_capi.cpp:842). -/
structure BatchRow where
  token : Tok
  pos : Nat
  seq : Nat

/-- Batch assembly (localllm_capi.cpp:830-844). -/
def assembleAux (c : Cfg) :
    Nat → Nat → Engine → List BatchRow → List Nat →
    Engine × List BatchRow × List Nat
  | 0, _, e, rows, bs => (e, rows, bs)
  | k + 1, i, e, rows, bs =>
      let slot := getSlot e i
      if slot.active ∧ ¬slot.failed then
        let slot1 :=
          if slot.n_decoded = 0 ∧ slot.full_tokens ≠ [] then
            { slot with sampled := slot.full_tokens.getLastD 0 }
          else slot
        let slot2 := { slot1 with i_batch := (rows.length : Int) }
        let row : BatchRow :=
          { token := slot2.sampled, pos := slot2.n_past + slot2.n_decoded,
            seq := slot2.seq_id }
        assembleAux c k (i + 1) (setSlotE e i slot2) (rows ++ [row]) (bs ++ [i])
      else assembleAux c k (i + 1) e rows bs

def assembleBatch (c : Cfg) (e : Engine) : Engine × List BatchRow × List Nat :=
  assembleAux c (seqCapacity c) 0 e [] []

/-- A successful decode of the window `[start, start + n)` appends one KV row
per row of the window, under that row's seq-id. -/
def memAddRows (m : Nat → Nat) (rows : List BatchRow) (start n : Nat) : Nat → Nat :=
  ((rows.drop start).take n).foldl (fun acc row => memAdd acc row.seq 1) m

/-- Sampling for one slot whose batch row lies in the decoded window
(localllm_capi.cpp:876-926); the C++ try/catch around sampling is not
modelled (the abstract sampler is total). -/
def processSlotSample (c : Cfg) (start n : Nat) (e : Engine) (idx : Nat) : Engine :=
  let slot := getSlot e idx
  if ¬slot.active ∨ slot.failed then e
  else if slot.i_batch < (start : Int) ∨ ((start : Int) + (n : Int)) ≤ slot.i_batch then e
  else
    let g := slot.global_index.toNat
    let t := c.streams g slot.n_decoded
    let st := slotAccept c.vocab c.max_tokens t ⟨slot.response, slot.n_decoded, false⟩
    let slot1 := { slot with
                   response := st.response
                   sampled := t
                   n_decoded := st.n_decoded
                   i_batch := -1 }
    let e1 := setSlotE e idx slot1
    if st.stopped then finalizeSlot c e1 idx true else e1

/-- The generation-batch chunk loop (localllm_capi.cpp:851-929), with the
same halving discipline as `submitChunks`, sampling the slots of each window
as it succeeds. -/
def genChunkLoop (c : Cfg) (rows : List BatchRow) (bs : List Nat) :
    Nat → Nat → Nat → Engine → Bool × Engine × List (Nat × Int)
  | 0, _start, _cap, e => (false, e, [])
  | fuel + 1, start, cap, e =>
      if start < rows.length then
        let n := min (max 1 cap) (rows.length - start)
        let ret := c.dec e.calls
        let e1 := { e with calls := e.calls + 1 }
        if ret = 0 then
          let e2 := { e1 with mem := memAddRows e1.mem rows start n }
          let e3 := bs.foldl (processSlotSample c start n) e2
          let r := genChunkLoop c rows bs fuel (start + n) cap e3
          (r.1, r.2.1, (cap, ret) :: r.2.2)
        else if 0 < ret ∧ 1 < cap then
          let e2 := { e1 with miss := e1.miss + 1 }
          let r := genChunkLoop c rows bs fuel start (max 1 (cap / 2)) e2
          (r.1, r.2.1, (cap, ret) :: r.2.2)
        else (false, e1, [(cap, ret)])
      else (true, e, [])

/-- Reassignment of slots finalised during the iteration
(localllm_capi.cpp:933-938). -/
def processPending (c : Cfg) (e : Engine) : Engine :=
  let e1 := e.pending.foldl (fun acc idx => (assignNextPrompt c acc idx).2) e
  { e1 with pending := [] }

inductive LoopExit where
  | cont : LoopExit
  | brk : LoopExit
  | fatal : LoopExit

/-- One iteration of the `while (active_clients > 0)` body
(localllm_capi.cpp:823-942). -/
def mainIter (c : Cfg) (e : Engine) : Engine × LoopExit :=
  let e1 := ensureSlotsFilled c e
  let a := assembleBatch c e1
  let e2 := a.1
  let rows := a.2.1
  let bs := a.2.2
  if rows.length = 0 then (e2, .brk)
  else
    let cap := batchCapInit c
    let r := genChunkLoop c rows bs (rows.length + cap + 1) 0 cap e2
    let e3 := processPending c r.2.1
    if r.1 then (e3, .cont) else (e3, .fatal)

/-- The main loop; `none` means the supplied fuel ran out before the loop
exited (the source loop can run unboundedly when `max_tokens <= 0`).  The
returned flag records whether the iteration threw the fatal decode error. -/
def mainLoop (c : Cfg) : Nat → Engine → Option (Engine × Bool)
  | 0, _ => none
  | fuel + 1, e =>
      if 0 < e.active_clients then
        let r := mainIter c e
        match r.2 with
        | .cont => mainLoop c fuel r.1
        | .brk => some (r.1, false)
        | .fatal => some (r.1, true)
      else some (e, false)

/-- `localllm_generate_parallel` (localllm_capi.cpp:456-990).  Takes the KV
memory the context currently holds and returns the memory at return time plus
either the result vector (`results_out`) or the error message
(`error_message`). -/
def localllm_generate_parallel (c : Cfg) (fuel : Nat) (mem0 : Nat → Nat) :
    Option ((Nat → Nat) × Except Str (List Str)) :=
  if c.prompts.length = 0 then
    -- localllm_capi.cpp:464-467: the argument check fails before any KV access
    some (mem0, .error ("Invalid parameters: null pointers or invalid prompt count".data))
  else
    let L := computeSharedLen c.prompts
    let e0 : Engine :=
      { mem := memClear, final_responses := List.replicate c.prompts.length [],
        slots := List.replicate (seqCapacity c) {}, next_prompt_idx := 0,
        active_clients := 0, pending := [], calls := 0, miss := 0,
        n_total_prompt := 0, n_total_gen := 0, prefix_ready := false,
        shared_len := L }
    let e1 :=
      if 0 < L then
        let cap := batchCapInit c
        let r := submitChunks c.dec (L + cap + 1) L 0 cap e0.calls e0.miss
        if r.ok then
          { e0 with
            mem := memAdd e0.mem 0 r.progress
            calls := r.calls
            miss := r.miss
            prefix_ready := true }
        else
          -- partial prefix rows are wiped by the clear (localllm_capi.cpp:545)
          { e0 with mem := memClear, calls := r.calls, miss := r.miss }
      else e0
    let e2 := ensureSlotsFilled c e1
    match mainLoop c fuel e2 with
    | none => none
    | some (e3, fatal) =>
        if fatal then
          some (memClear,
            .error ("Parallel generation failed: Fatal decode error during generation batch".data))
        else
          -- release_slot on every slot has no KV effect; then seq 0 is removed
          -- when the prefix was loaded (localllm_capi.cpp:953-959)
          let m := if e3.prefix_ready then seqRm e3.mem 0 else e3.mem
          some (m, .ok e3.final_responses)

/-! ## Lemmas about the output cleaner -/

theorem head?_dropWhile_not (p : Char → Bool) :
    ∀ (l : Str) (c : Char), (l.dropWhile p).head? = some c → p c = false := by
  intro l
  induction l with
  | nil => intro c h; simp [List.dropWhile] at h
  | cons a as ih =>
      intro c h
      by_cases hp : p a
      · rw [List.dropWhile_cons_of_pos hp] at h
        exact ih c h
      · rw [List.dropWhile_cons_of_neg hp] at h
        simp only [List.head?] at h
        cases h
        simpa using hp

theorem truncAtUser_head (text : Str) :
    truncAtUser text = [] ∨ (truncAtUser text).head? = text.head? := by
  unfold truncAtUser
  cases h : findIdx? text userMarker with
  | none => right; rfl
  | some p =>
      cases p with
      | zero => left; simp
      | succ q =>
          cases text with
          | nil => left; simp
          | cons c r => right; simp [List.take]

/-- After the leading-whitespace strip, a nonempty cleaned text cannot start
with a whitespace byte, and the final truncation preserves the first byte of a
nonempty result. -/
theorem cleanResponseText_head_not_space (text : Str) :
    cleanResponseText text = [] ∨
      ∃ c rest, cleanResponseText text = c :: rest ∧ isSpaceByte c = false := by
  unfold cleanResponseText
  rcases truncAtUser_head
      (stripLeadingSpace (stripTrailingSpace (stripLeadingBad (cleanRounds 5 text)))) with
    h | h
  · left; exact h
  · cases hc : (truncAtUser
        (stripLeadingSpace (stripTrailingSpace (stripLeadingBad (cleanRounds 5 text))))).head? with
    | none => left; exact List.head?_eq_none_iff.mp hc
    | some c =>
        right
        have hcs : (stripLeadingSpace
            (stripTrailingSpace (stripLeadingBad (cleanRounds 5 text)))).head? = some c :=
          h ▸ hc
        have hns : isSpaceByte c = false :=
          head?_dropWhile_not isSpaceByte _ c hcs
        rcases List.head?_eq_some_iff.mp hc with ⟨rest, hrest⟩
        exact ⟨c, rest, hrest, hns⟩

/-! ## Lemmas about the prefix analyser -/

theorem commonPrefixCount_le_right :
    ∀ a b : List Tok, commonPrefixCount a b ≤ b.length := by
  intro a
  induction a with
  | nil => intro b; cases b <;> simp [commonPrefixCount]
  | cons x xs ih =>
      intro b
      cases b with
      | nil => simp [commonPrefixCount]
      | cons y ys =>
          by_cases hxy : x = y
          · simpa [commonPrefixCount, hxy] using ih ys
          · simp [commonPrefixCount, hxy]

theorem take_eq_of_le_commonPrefixCount :
    ∀ (a b : List Tok) (L : Nat), L ≤ commonPrefixCount a b →
      b.take L = a.take L := by
  intro a
  induction a with
  | nil => intro b L h; cases b <;> simp_all [commonPrefixCount]
  | cons x xs ih =>
      intro b L h
      cases b with
      | nil => simp_all [commonPrefixCount]
      | cons y ys =>
          by_cases hxy : x = y
          · cases L with
            | zero => simp
            | succ M =>
                simp only [commonPrefixCount, hxy, if_pos] at h
                simp [List.take, hxy, ih ys M (Nat.le_of_succ_le_succ (by simpa using h))]
          · simp [commonPrefixCount, hxy] at h
            simp [h]

theorem le_commonPrefixCount_of_take_eq :
    ∀ (a b : List Tok) (L : Nat), L ≤ b.length → b.take L = a.take L →
      L ≤ commonPrefixCount a b := by
  intro a
  induction a with
  | nil =>
      intro b L hL ht
      have : b.take L = [] := by simpa using ht
      have := List.take_eq_nil_iff.mp this
      rcases this with h | h
      · simp [h]
      · subst h
        simp only [List.length_nil, Nat.le_zero] at hL
        simp [hL]
  | cons x xs ih =>
      intro b L hL ht
      cases b with
      | nil => simp at hL; simp [hL]
      | cons y ys =>
          cases L with
          | zero => exact Nat.zero_le _
          | succ M =>
              simp only [List.take] at ht
              have hy : y = x := by exact List.head_eq_of_cons_eq ht
              have hts : ys.take M = xs.take M := List.tail_eq_of_cons_eq ht
              have hM : M ≤ ys.length := by simpa using hL
              have := ih ys M hM hts
              simp [commonPrefixCount, hy.symm, Nat.succ_le_succ this]

theorem foldl_min_le_init (f : List Tok → Nat) :
    ∀ (l : List (List Tok)) (a : Nat),
      l.foldl (fun s ti => min s (f ti)) a ≤ a := by
  intro l
  induction l with
  | nil => intro a; simp
  | cons t ts ih =>
      intro a
      calc ts.foldl (fun s ti => min s (f ti)) (min a (f t)) ≤ min a (f t) := ih _
        _ ≤ a := Nat.min_le_left _ _

theorem foldl_min_le_mem (f : List Tok → Nat) :
    ∀ (l : List (List Tok)) (a : Nat) (ti : List Tok), ti ∈ l →
      l.foldl (fun s tj => min s (f tj)) a ≤ f ti := by
  intro l
  induction l with
  | nil => intro a ti h; cases h
  | cons t ts ih =>
      intro a ti h
      rcases List.mem_cons.mp h with rfl | h
      · calc ts.foldl (fun s tj => min s (f tj)) (min a (f ti)) ≤ min a (f ti) :=
            foldl_min_le_init f ts _
          _ ≤ f ti := Nat.min_le_right _ _
      · exact ih _ ti h

theorem le_foldl_min (f : List Tok → Nat) :
    ∀ (l : List (List Tok)) (a L : Nat), L ≤ a → (∀ ti ∈ l, L ≤ f ti) →
      L ≤ l.foldl (fun s tj => min s (f tj)) a := by
  intro l
  induction l with
  | nil => intro a L hL _; simpa using hL
  | cons t ts ih =>
      intro a L hL hmem
      refine ih _ L (le_min hL (hmem t (List.mem_cons_self t ts))) ?_
      intro ti h
      exact hmem ti (List.mem_cons_of_mem t h)

/-! ## Claim C8: the prefix analyser -/

/-- C8: for a non-empty family of tokenised prompts the analyser returns the
greatest `L` such that every prompt's first `L` tokens agree with prompt 0's
(in particular every prompt has at least `L` tokens); for a single prompt it
returns that prompt's full length, and for two or more prompts the result can
be `0`. -/
theorem C8_shared_prefix_analyser (t0 : List Tok) (rest : List (List Tok)) :
    (∀ ti ∈ t0 :: rest,
        computeSharedLen (t0 :: rest) ≤ ti.length ∧
        ti.take (computeSharedLen (t0 :: rest)) =
          t0.take (computeSharedLen (t0 :: rest))) ∧
    (∀ L, (∀ ti ∈ t0 :: rest, L ≤ ti.length ∧ ti.take L = t0.take L) →
        L ≤ computeSharedLen (t0 :: rest)) ∧
    (rest = [] → computeSharedLen (t0 :: rest) = t0.length) ∧
    computeSharedLen [[1], [2]] = 0 := by
  have hinit : computeSharedLen (t0 :: rest) ≤ t0.length :=
    foldl_min_le_init (fun ti => commonPrefixCount t0 ti) rest t0.length
  refine ⟨?_, ?_, ?_, by decide⟩
  · intro ti hti
    rcases List.mem_cons.mp hti with rfl | hmem
    · exact ⟨hinit, rfl⟩
    · have hcc : computeSharedLen (t0 :: rest) ≤ commonPrefixCount t0 ti :=
        foldl_min_le_mem (fun tj => commonPrefixCount t0 tj) rest t0.length ti hmem
      exact ⟨hcc.trans (commonPrefixCount_le_right t0 ti),
        take_eq_of_le_commonPrefixCount t0 ti _ hcc⟩
  · intro L hL
    refine le_foldl_min (fun tj => commonPrefixCount t0 tj) rest t0.length L
      ((hL t0 (List.mem_cons_self t0 rest)).1) ?_
    intro ti hmem
    have h := hL ti (List.mem_cons_of_mem t0 hmem)
    exact le_commonPrefixCount_of_take_eq t0 ti L h.1 h.2
  · intro h
    subst h
    rfl

theorem C8_witness :
    computeSharedLen [[1, 2, 3], [1, 2]] ≤ 2 ∧
      ([1, 2] : List Tok).take (computeSharedLen [[1, 2, 3], [1, 2]]) =
        ([1, 2, 3] : List Tok).take (computeSharedLen [[1, 2, 3], [1, 2]]) := by
  have h := C8_shared_prefix_analyser [1, 2, 3] [[1, 2]]
  have h2 := h.1 [1, 2] (by simp)
  exact ⟨by simpa using h2.1, h2.2⟩

/-! ## Claim C10: the output cleaner's first byte -/

/-- C10 (counterexample): on input `" ?x"` the cleaner returns `"?x"`, which
begins with `'?'` — a byte the claim says can never lead the result.  The
`'?'`/non-printable strip runs before the leading-whitespace strip, so a `'?'`
hidden behind whitespace survives. -/
theorem C10_counterexample :
    cleanResponseText (" ?x".data) = "?x".data ∧
      ("?x".data).head? = some '?' ∧ frontBad '?' = true := by
  decide

/-- C10 (amended): the cleaner's result, when non-empty, never begins with a
whitespace byte; the stronger original claim (never `'?'`, nor any byte
outside 32-126) fails, as witnessed by `C10_counterexample`. -/
theorem C10_clean_head_not_whitespace (text : Str) :
    cleanResponseText text = [] ∨
      ∃ c rest, cleanResponseText text = c :: rest ∧ isSpaceByte c = false :=
  cleanResponseText_head_not_space text

/-! ## Concrete instantiations used by counterexamples and witnesses -/

/-- The result component of a run (discarding the final KV memory, whose
function type has no decidable equality). -/
def runResult (c : Cfg) (fuel : Nat) : Option (Except Str (List Str)) :=
  (localllm_generate_parallel c fuel memClear).map Prod.snd

/-- The final KV memory of a run, read at seq-id `s`. -/
def runMemAt (c : Cfg) (fuel : Nat) (s : Nat) : Option Nat :=
  (localllm_generate_parallel c fuel memClear).map (fun r => r.1 s)

def testPiece (t : Tok) : Str :=
  if t = 27 then "<".data
  else if t = 91 then "|".data
  else if t = 68 then "e".data
  else if t = 354 then "ot".data
  else if t = 851 then "_id".data
  else if t = 29 then ">".data
  else if t = 5 then "A".data
  else if t = 6 then " hi".data
  else if t = 7 then "\n\nHuman:".data
  else if t = 999 then []
  else "a".data

/-- A concrete vocabulary: token 999 is the sole EOG token and also `eos`. -/
def testVocab : Vocab :=
  { is_eog := fun t => decide (t = 999), eos := 999, piece := testPiece }

/-- C1 scenario: the sampler emits exactly the `<|eot_id|>` seven-token
sequence, then EOG. -/
def cfgC1 : Cfg :=
  { vocab := testVocab, n_ctx := 256, n_batch := 32, seq_cap_raw := 2,
    max_tokens := 0, prompts := [[5]],
    streams := fun _ j => eotSeq.getD j 999,
    dec := fun _ => 0 }

/-- C2 scenario: `max_tokens = 0`, one non-EOG token then EOG. -/
def cfgC2 : Cfg :=
  { vocab := testVocab, n_ctx := 256, n_batch := 32, seq_cap_raw := 2,
    max_tokens := 0, prompts := [[5]],
    streams := fun _ j => if j = 0 then 5 else 999,
    dec := fun _ => 0 }

/-- C9 scenario: six plain tokens, then a token whose piece is the
`"\n\nHuman:"` conversation marker. -/
def cfgC9 : Cfg :=
  { vocab := testVocab, n_ctx := 256, n_batch := 32, seq_cap_raw := 2,
    max_tokens := 100, prompts := [[5]],
    streams := fun _ j => if j < 6 then 5 else if j = 6 then 7 else 999,
    dec := fun _ => 0 }

/-- C7 scenario: `n_ctx = 64`, so the context-overflow budget `n_ctx - 64`
is zero and the single one-token prompt overflows it. -/
def cfgC7 : Cfg :=
  { vocab := testVocab, n_ctx := 64, n_batch := 32, seq_cap_raw := 2,
    max_tokens := 4, prompts := [[5]],
    streams := fun _ j => if j = 0 then 5 else 999,
    dec := fun _ => 0 }

/-- C3 scenario: one generated token whose piece `" hi"` starts with a space,
then EOG; the parallel path trims it, the single-prompt path does not. -/
def cfgC3 : Cfg :=
  { vocab := testVocab, n_ctx := 256, n_batch := 32, seq_cap_raw := 2,
    max_tokens := 2, prompts := [[5]],
    streams := fun _ j => if j = 0 then 6 else 999,
    dec := fun _ => 0 }

/-! ## Helper lemmas for the single-prompt seven-token window -/

/-- When the generated text ends with the concatenated pieces of the first six
tokens of the matched window, the retraction removes exactly that suffix. -/
theorem stripSeqTail_append (V : Vocab) (recent : List Tok) (text : Str)
    (h : recent.length = 7) :
    stripSeqTail V recent
        (text ++ (recent.take 6).foldl (fun acc tok => acc ++ V.piece tok) []) =
      text := by
  unfold stripSeqTail
  rw [h]
  simp only [Nat.sub_self, List.drop_zero]
  have hlen : (text ++ (recent.take 6).foldl (fun acc tok => acc ++ V.piece tok) []).length
      = text.length + ((recent.take 6).foldl (fun acc tok => acc ++ V.piece tok) []).length :=
    List.length_append _ _
  rw [if_pos]
  · rw [hlen, Nat.add_sub_cancel, List.take_left]
  · constructor
    · rw [hlen]; omega
    · rw [hlen, Nat.add_sub_cancel, List.drop_left]

/-- Feeding the `<|eot_id|>` seven-token sequence into the single-prompt loop
(with a fresh window) terminates the loop and leaves the text unchanged: the
six appended pieces are retracted and the seventh token is never appended. -/
theorem genSingleLoop_eot_net (V : Vocab) (dec : Nat → Int) (s : Nat → Tok)
    (fuel i calls : Nat) (text : Str)
    (hdec : ∀ k, dec k = 0)
    (h0 : s i = 27) (h1 : s (i + 1) = 91) (h2 : s (i + 2) = 68)
    (h3 : s (i + 3) = 354) (h4 : s (i + 4) = 851) (h5 : s (i + 5) = 91)
    (h6 : s (i + 6) = 29)
    (he : ∀ j, j < 7 → V.is_eog (s (i + j)) = false)
    (hfuel : 7 ≤ fuel) :
    genSingleLoop V dec s fuel i text [] calls = .ok text := by
  obtain ⟨f, rfl⟩ : ∃ f, fuel = f + 7 := ⟨fuel - 7, by omega⟩
  have e0 : V.is_eog 27 = false := by have := he 0 (by omega); rwa [Nat.add_zero, h0] at this
  have e1 : V.is_eog 91 = false := by have := he 1 (by omega); rwa [h1] at this
  have e2 : V.is_eog 68 = false := by have := he 2 (by omega); rwa [h2] at this
  have e3 : V.is_eog 354 = false := by have := he 3 (by omega); rwa [h3] at this
  have e4 : V.is_eog 851 = false := by have := he 4 (by omega); rwa [h4] at this
  have e6 : V.is_eog 29 = false := by have := he 6 (by omega); rwa [h6] at this
  have hs := stripSeqTail_append V eotSeq text rfl
  simp only [eotSeq, List.take, List.foldl] at hs
  simp only [genSingleLoop, h0, h1, h2, h3, h4, h5, h6, e0, e1, e2, e3, e4, e6,
    hdec, pushRecent, eotSeq, endHeaderSeq]
  norm_num
  simp only [List.nil_append, List.append_assoc] at hs
  exact hs

/-! ## Helper lemmas for the conversation markers and the cleaner -/

theorem findIdx?_take_none :
    ∀ (text pat : Str), pat ≠ [] → ∀ p, findIdx? text pat = some p →
      findIdx? (text.take p) pat = none := by
  intro text
  induction text with
  | nil =>
      intro pat hpat p h
      simp [findIdx?, hpat] at h
  | cons c rest ih =>
      intro pat hpat p h
      by_cases hpre : pat.isPrefixOf (c :: rest)
      · simp only [findIdx?, if_pos hpre] at h
        cases h
        simp [findIdx?, hpat]
      · simp only [findIdx?, if_neg hpre] at h
        rcases Option.map_eq_some'.mp h with ⟨q, hq, rfl⟩
        have hpre2 : ¬ pat.isPrefixOf (c :: rest.take q) := by
          intro habs
          apply hpre
          have h1 : pat <+: c :: rest.take q := List.isPrefixOf_iff_prefix.mp habs
          have h2 : (c :: rest.take q) <+: (c :: rest) :=
            ⟨rest.drop q, by simp [List.take_append_drop]⟩
          exact List.isPrefixOf_iff_prefix.mpr (h1.trans h2)
        simp only [List.take, findIdx?, if_neg hpre2, ih pat hpat q hq, Option.map_none']

/-- The cleaner's output never contains the `"\n\nUser:"` marker: the final
truncation cuts at its first occurrence. -/
theorem cleanResponseText_no_user (text : Str) :
    containsSub (cleanResponseText text) userMarker = false := by
  unfold cleanResponseText truncAtUser containsSub
  cases h : findIdx? (stripLeadingSpace (stripTrailingSpace (stripLeadingBad
      (cleanRounds 5 text)))) userMarker with
  | none => simp [h]
  | some p =>
      have := findIdx?_take_none _ userMarker (by decide) p h
      simp [this]

/-! ## Claim C1: the seven-token sliding window -/

/-- C1 (counterexample): in the parallel engine a slot fed exactly the tracked
`<|eot_id|>` seven-token sequence does *not* terminate at the seventh token
and nothing is retracted: all seven pieces reach the response, and the slot
only stops at the following EOG token, returning `"<|eot_id|>"` instead of the
empty string the claim demands. -/
theorem C1_counterexample :
    runResult cfgC1 12 = some (.ok ["<|eot_id|>".data]) ∧
      ("<|eot_id|>".data : Str) ≠ [] := by
  exact ⟨rfl, by decide⟩

/-- C1 (amended): only the single-prompt engine maintains the seven-token
sliding window.  In the parallel engine a slot's response only ever grows (no
retraction is possible), while `localllm_generate`, fed the tracked
`<|eot_id|>` sequence from a fresh window, terminates without the seventh
token and retracts the six appended pieces, returning the empty string. -/
theorem C1_amended :
    (∀ (V : Vocab) (mt : Int) (t : Tok) (st : GenState),
        (slotAccept V mt t st).response = st.response ∨
        (slotAccept V mt t st).response = st.response ++ V.piece t) ∧
    (∀ (V : Vocab) (dec : Nat → Int) (s : Nat → Tok) (toks : List Tok) (mt : Int),
        (∀ k, dec k = 0) →
        s 0 = 27 → s 1 = 91 → s 2 = 68 → s 3 = 354 → s 4 = 851 → s 5 = 91 →
        s 6 = 29 → (∀ j, j < 7 → V.is_eog (s j) = false) → 7 ≤ mt.toNat →
        localllm_generate V dec s toks mt = .ok []) := by
  constructor
  · intro V mt t st
    simp only [slotAccept]
    split
    · left; rfl
    · right; rfl
  · intro V dec s toks mt hdec h0 h1 h2 h3 h4 h5 h6 he hmt
    unfold localllm_generate
    rw [if_neg (by simp [hdec 0])]
    exact genSingleLoop_eot_net V dec s mt.toNat 0 1 [] hdec h0 h1 h2 h3 h4 h5 h6
      (fun j hj => by rw [Nat.zero_add]; exact he j hj) hmt

theorem C1_witness :
    localllm_generate testVocab (fun _ => 0) (fun j => eotSeq.getD j 999) [5] 7 =
      .ok [] := by
  refine C1_amended.2 testVocab (fun _ => 0) (fun j => eotSeq.getD j 999) [5] 7
    (fun k => rfl) rfl rfl rfl rfl rfl rfl rfl ?_ (by decide)
  decide

/-! ## Claim C2: `max_tokens == 0` -/

/-- C2 (counterexample): with `max_tokens = 0` the parallel engine still
samples — the limit check is guarded by `max_tokens > 0` — so a slot whose
first sampled token is an ordinary token returns `"A"`, not the empty
string. -/
theorem C2_counterexample :
    runResult cfgC2 12 = some (.ok ["A".data]) ∧ ("A".data : Str) ≠ [] := by
  exact ⟨rfl, by decide⟩

/-- C2 (amended): the parallel engine's token-limit stop fires only when
`max_tokens > 0`; at `max_tokens = 0` a non-EOG token is always sampled and
appended, so the response need not be empty.  The single-prompt
`localllm_generate`, whose loop runs `max_tokens` times, does return the empty
string at `max_tokens = 0`. -/
theorem C2_amended :
    (∀ (V : Vocab) (t : Tok) (st : GenState),
        t ≠ V.eos → V.is_eog t = false →
        (slotAccept V 0 t st).response = st.response ++ V.piece t) ∧
    (∀ (V : Vocab) (dec : Nat → Int) (s : Nat → Tok) (toks : List Tok),
        dec 0 = 0 → localllm_generate V dec s toks 0 = .ok []) := by
  constructor
  · intro V t st ht he
    unfold slotAccept
    rw [if_neg]
    simp [ht, he]
  · intro V dec s toks h0
    unfold localllm_generate
    rw [if_neg (by simp [h0])]
    rfl

theorem C2_witness :
    (slotAccept testVocab 0 5 ⟨[], 0, false⟩).response = "A".data ∧
      localllm_generate testVocab (fun _ => 0) (fun _ => 5) [5] 0 = .ok [] := by
  constructor
  · have := C2_amended.1 testVocab 5 ⟨[], 0, false⟩ (by decide) (by decide)
    simpa using this
  · exact C2_amended.2 testVocab (fun _ => 0) (fun _ => 5) [5] rfl

/-! ## Claim C9: conversation-marker stop -/

/-- C9 (counterexample): a slot that stops on the `"\n\nHuman:"` marker keeps
the marker in its response, and the output cleaner does *not* remove it — the
cleaner truncates only at `"\n\nUser:"` — so the final result still contains
`"\n\nHuman:"`, contradicting "removed only by the output cleaner". -/
theorem C9_counterexample :
    runResult cfgC9 12 = some (.ok ["AAAAAA\n\nHuman:".data]) ∧
      containsSub ("AAAAAA\n\nHuman:".data) humanMarker = true := by
  exact ⟨rfl, by decide⟩

/-- C9 (amended): once more than five tokens have been generated, a sampled
non-stopping token whose appended response contains `"\n\nUser:"` or
`"\n\nHuman:"` terminates the slot with the marker kept in the response; the
output cleaner then removes any `"\n\nUser:"` marker (its output never
contains one), but a `"\n\nHuman:"` marker survives cleaning. -/
theorem C9_amended :
    (∀ (V : Vocab) (mt : Int) (t : Tok) (st : GenState),
        t ≠ V.eos → V.is_eog t = false → ¬(0 < mt ∧ mt ≤ (st.n_decoded : Int)) →
        5 < st.n_decoded →
        (containsSub (st.response ++ V.piece t) userMarker ||
          containsSub (st.response ++ V.piece t) humanMarker) = true →
        (slotAccept V mt t st).stopped = true ∧
        (slotAccept V mt t st).response = st.response ++ V.piece t) ∧
    (∀ text : Str, containsSub (cleanResponseText text) userMarker = false) ∧
    containsSub (cleanResponseText ("AAAAAA\n\nHuman:".data)) humanMarker = true := by
  refine ⟨?_, cleanResponseText_no_user, by decide⟩
  intro V mt t st ht he hmt hn hm
  have hb : (decide (t = V.eos) || V.is_eog t ||
      (decide (0 < mt) && decide (mt ≤ (st.n_decoded : Int)))) = false := by
    have d3 : (decide (0 < mt) && decide (mt ≤ (st.n_decoded : Int))) = false := by
      by_cases h1 : 0 < mt
      · by_cases h2 : mt ≤ (st.n_decoded : Int)
        · exact absurd ⟨h1, h2⟩ hmt
        · simp [h2]
      · simp [h1]
    rw [decide_eq_false ht, he, d3]
    rfl
  unfold slotAccept
  simp only [hb, Bool.false_eq_true, if_false]
  exact ⟨by simp [hn, hm], by simp⟩

/-! ## Claim C6: the chunk-halving batch driver -/

/-- The cap discipline along a decode trace: after a positive return the next
call's cap is the halved (floored at 1) cap, otherwise it is unchanged. -/
def capsGood : List (Nat × Int) → Prop
  | [] => True
  | [_] => True
  | (c1, r1) :: (c2, r2) :: rest =>
      (c2 = if 0 < r1 then max 1 (c1 / 2) else c1) ∧ capsGood ((c2, r2) :: rest)

/-- `capsGood` is preserved by prepending an entry whose successor (if any)
follows the halving discipline. -/
theorem capsGood_cons (x : Nat × Int) (t : List (Nat × Int))
    (hhead : ∀ p ∈ t.head?, p.1 = (if 0 < x.2 then max 1 (x.1 / 2) else x.1))
    (ht : capsGood t) : capsGood (x :: t) := by
  cases x with
  | mk x1 x2 =>
      cases t with
      | nil => trivial
      | cons q qs =>
          cases q with
          | mk q1 q2 =>
              refine ⟨?_, ht⟩
              have := hhead (q1, q2) (by simp)
              simpa using this

theorem getLast?_cons_some {α : Type} (x p : α) (t : List α)
    (h : t.getLast? = some p) : (x :: t).getLast? = some p := by
  cases t with
  | nil => simp at h
  | cons a l => rw [List.getLast?_cons_cons]; exact h

/-- Full characterization of the generation-batch chunk loop's decode trace:
the first call uses the initial cap, every cap is positive and never exceeds
the initial cap, consecutive caps follow the halving discipline, and a failed
submission ends with a call that returned a negative code or refused at
cap 1. -/
theorem genChunkLoop_trace (c : Cfg) (rows : List BatchRow) (bs : List Nat) :
    ∀ (fuel start cap : Nat) (e : Engine), 1 ≤ cap →
      rows.length - start + cap ≤ fuel →
      (∀ p ∈ (genChunkLoop c rows bs fuel start cap e).2.2.head?, p.1 = cap) ∧
      (∀ p ∈ (genChunkLoop c rows bs fuel start cap e).2.2, 1 ≤ p.1 ∧ p.1 ≤ cap) ∧
      capsGood (genChunkLoop c rows bs fuel start cap e).2.2 ∧
      ((genChunkLoop c rows bs fuel start cap e).1 = false →
        ∃ p, (genChunkLoop c rows bs fuel start cap e).2.2.getLast? = some p ∧
          (p.2 < 0 ∨ (0 < p.2 ∧ p.1 = 1))) := by
  intro fuel
  induction fuel with
  | zero => intro start cap e hcap hfuel; omega
  | succ f ih =>
      intro start cap e hcap hfuel
      have hn1 : 1 ≤ min (max 1 cap) (rows.length - start) ∨ ¬ start < rows.length := by
        by_cases h : start < rows.length
        · left
          have : 1 ≤ max 1 cap := le_max_left 1 cap
          omega
        · right; exact h
      by_cases hlt : start < rows.length
      · have hn : 1 ≤ min (max 1 cap) (rows.length - start) := hn1.resolve_right (by simpa using hlt)
        simp only [genChunkLoop, if_pos hlt]
        by_cases hret : c.dec e.calls = 0
        · rw [if_pos hret, hret]
          refine ⟨by intro p hp; simp at hp; subst hp; rfl, ?_, ?_, ?_⟩
          · intro p hp
            rcases List.mem_cons.mp hp with rfl | hp
            · exact ⟨hcap, le_refl cap⟩
            · exact (ih (start + min (max 1 cap) (rows.length - start)) cap _ hcap
                (by omega)).2.1 p hp
          · refine capsGood_cons _ _ ?_
              ((ih (start + min (max 1 cap) (rows.length - start)) cap _ hcap
                (by omega)).2.2.1)
            intro p hp
            have := (ih (start + min (max 1 cap) (rows.length - start)) cap _ hcap
              (by omega)).1 p hp
            simpa using this
          · intro hfail
            obtain ⟨p, hpl, hpp⟩ := (ih (start + min (max 1 cap) (rows.length - start))
              cap _ hcap (by omega)).2.2.2 hfail
            exact ⟨p, getLast?_cons_some _ p _ hpl, hpp⟩
        · rw [if_neg hret]
          by_cases hpos : 0 < c.dec e.calls ∧ 1 < cap
          · rw [if_pos hpos]
            have hc2 : 1 ≤ max 1 (cap / 2) := le_max_left _ _
            have hle : max 1 (cap / 2) ≤ cap := by omega
            refine ⟨by intro p hp; simp at hp; subst hp; rfl, ?_, ?_, ?_⟩
            · intro p hp
              rcases List.mem_cons.mp hp with rfl | hp
              · exact ⟨hcap, le_refl cap⟩
              · have := (ih start (max 1 (cap / 2)) _ hc2 (by omega)).2.1 p hp
                exact ⟨this.1, this.2.trans hle⟩
            · refine capsGood_cons _ _ ?_
                ((ih start (max 1 (cap / 2)) _ hc2 (by omega)).2.2.1)
              intro p hp
              have := (ih start (max 1 (cap / 2)) _ hc2 (by omega)).1 p hp
              simpa [hpos.1] using this
            · intro hfail
              obtain ⟨p, hpl, hpp⟩ := (ih start (max 1 (cap / 2)) _ hc2
                (by omega)).2.2.2 hfail
              exact ⟨p, getLast?_cons_some _ p _ hpl, hpp⟩
          · rw [if_neg hpos]
            refine ⟨by intro p hp; simp at hp; subst hp; rfl, ?_, trivial, ?_⟩
            · intro p hp
              simp at hp
              simp [hp, hcap]
            · intro _
              refine ⟨(cap, c.dec e.calls), by simp [List.getLast?], ?_⟩
              rcases lt_trichotomy (c.dec e.calls) 0 with h | h | h
              · exact Or.inl h
              · exact absurd h hret
              · right
                refine ⟨h, ?_⟩
                have : ¬ 1 < cap := fun hc => hpos ⟨h, hc⟩
                omega
      · simp only [genChunkLoop, if_neg hlt]
        refine ⟨by simp, by simp, trivial, by simp⟩

/-- C6 scenario (fatal): both prompts admit, then every generation decode is
refused; the cap halves 4 → 2 → 1 and the submission fails, aborting the whole
call. -/
def cfgC6fatal : Cfg :=
  { vocab := testVocab, n_ctx := 256, n_batch := 4, seq_cap_raw := 2,
    max_tokens := 1, prompts := [[1], [2]],
    streams := fun _ _ => 5,
    dec := fun k => if k < 2 then 0 else 1 }

/-- C6 scenario (soft, per-slot): the first prompt's suffix decode is refused
down to cap 1, failing only that slot; the second prompt then runs to
completion. -/
def cfgC6soft : Cfg :=
  { vocab := testVocab, n_ctx := 256, n_batch := 4, seq_cap_raw := 2,
    max_tokens := 1, prompts := [[1, 2], [3]],
    streams := fun _ _ => 5,
    dec := fun k => if k < 3 then 1 else 0 }

/-- C6 (counterexample): when the generation-batch driver halves to cap 1 and
the runtime still refuses, the remaining slots do *not* continue — the whole
call aborts with the fatal decode error and returns no per-slot results. -/
theorem C6_counterexample :
    runResult cfgC6fatal 10 =
      some (.error
        ("Parallel generation failed: Fatal decode error during generation batch".data)) := by
  rfl

/-- C6 (amended): the chunk cap starts at `max(1, min(512, n_batch))`; within
a submission each positive decode return halves the cap (floored at 1), the
cap is never restored, and a refusal at cap 1 (or a negative return) fails the
submission.  A failed per-slot suffix submission fails only the owning slot —
the remaining slots continue — but a failed shared generation batch aborts the
whole call with an error. -/
theorem C6_amended :
    (∀ c : Cfg, batchCapInit c = max 1 (min 512 c.n_batch)) ∧
    (∀ (c : Cfg) (rows : List BatchRow) (bs : List Nat) (fuel start cap : Nat)
        (e : Engine), 1 ≤ cap → rows.length - start + cap ≤ fuel →
        (∀ p ∈ (genChunkLoop c rows bs fuel start cap e).2.2.head?, p.1 = cap) ∧
        (∀ p ∈ (genChunkLoop c rows bs fuel start cap e).2.2, 1 ≤ p.1 ∧ p.1 ≤ cap) ∧
        capsGood (genChunkLoop c rows bs fuel start cap e).2.2 ∧
        ((genChunkLoop c rows bs fuel start cap e).1 = false →
          ∃ p, (genChunkLoop c rows bs fuel start cap e).2.2.getLast? = some p ∧
            (p.2 < 0 ∨ (0 < p.2 ∧ p.1 = 1)))) ∧
    runResult cfgC6soft 14 =
      some (.ok ["[ERROR] Failed to decode prompt tokens".data, "A".data]) := by
  exact ⟨fun _ => rfl, genChunkLoop_trace, rfl⟩

theorem C6_witness :
    capsGood (genChunkLoop cfgC6fatal
      [⟨1, 1, 1⟩, ⟨2, 1, 2⟩] [0, 1] 7 0 4
      { mem := memClear, final_responses := [[], []], slots := [{}, {}],
        next_prompt_idx := 2, active_clients := 2, pending := [], calls := 2,
        miss := 0, n_total_prompt := 2, n_total_gen := 0, prefix_ready := false,
        shared_len := 0 }).2.2 := by
  exact (C6_amended.2.1 cfgC6fatal [⟨1, 1, 1⟩, ⟨2, 1, 2⟩] [0, 1] 7 0 4 _
    (by decide) (by decide)).2.2.1

/-! ## Engine well-formedness and the KV-memory invariant (towards C4) -/

theorem getSlot_set_same (e : Engine) (i : Nat) (s : Slot) (h : i < e.slots.length) :
    getSlot (setSlotE e i s) i = s := by
  simp [getSlot, setSlotE, List.getD, List.getElem?_set_self, h]

theorem getSlot_set_other (e : Engine) (i j : Nat) (s : Slot) (h : j ≠ i) :
    getSlot (setSlotE e i s) j = getSlot e j := by
  simp [getSlot, setSlotE, List.getD, List.getElem?_set_ne (Ne.symm h)]

def countActive (l : List Slot) : Nat := (l.filter (fun s => s.active)).length

theorem countActive_set (l : List Slot) :
    ∀ (i : Nat) (s : Slot), i < l.length →
      countActive (l.set i s) + (if (l.getD i {}).active then 1 else 0) =
        countActive l + (if s.active then 1 else 0) := by
  induction l with
  | nil => intro i s h; simp at h
  | cons a as ih =>
      intro i s h
      cases i with
      | zero =>
          by_cases ha : a.active <;> by_cases hs : s.active <;>
            simp [countActive, List.filter, ha, hs, List.getD]
      | succ j =>
          have hj := ih j s (by simpa using h)
          by_cases ha : a.active <;>
            simp only [countActive, List.set, List.filter, ha, List.getD,
              List.getElem?_cons_succ, if_true, if_false] at hj ⊢ <;>
            simp [countActive, List.getD] at hj ⊢ <;> omega

theorem countActive_zero (l : List Slot) (h : countActive l = 0) :
    ∀ x ∈ l, x.active = false := by
  intro x hx
  by_contra hact
  have : x ∈ l.filter (fun s => s.active) :=
    List.mem_filter.mpr ⟨hx, by simpa using hact⟩
  have := List.length_pos_of_mem this
  unfold countActive at h
  omega

theorem countActive_replicate (n : Nat) : countActive (List.replicate n {}) = 0 := by
  induction n with
  | zero => rfl
  | succ k ih => simpa [countActive, List.replicate, List.filter] using ih

theorem memSet_self (m : Nat → Nat) (s v : Nat) : memSet m s v s = v := if_pos rfl

theorem memSet_ne (m : Nat → Nat) (s v q : Nat) (h : q ≠ s) : memSet m s v q = m q :=
  if_neg h

/-- The core engine invariant: slot-table shape, the active-client count, the
per-slot facts (an active slot is unfailed and owns seq-id `i + 1`), and the
KV-memory invariant — every non-empty seq-id is either the shared prefix
(present only when `prefix_ready`) or owned by an active slot. -/
def EngCore (c : Cfg) (e : Engine) : Prop :=
  e.slots.length = seqCapacity c ∧
  e.active_clients = countActive e.slots ∧
  (∀ i, i < seqCapacity c → (getSlot e i).active = true →
      (getSlot e i).failed = false ∧ (getSlot e i).seq_id = i + 1) ∧
  (∀ s, e.mem s ≠ 0 →
      (s = 0 ∧ e.prefix_ready = true) ∨
      (∃ i, i < seqCapacity c ∧ (getSlot e i).active = true ∧
        (getSlot e i).seq_id = s))

/-- Slots queued for reassignment are in range, pairwise distinct, and
inactive. -/
def PendingOK (c : Cfg) (e : Engine) : Prop :=
  e.pending.Nodup ∧
  ∀ idx ∈ e.pending, idx < seqCapacity c ∧ (getSlot e idx).active = false

/-- The members of an explicit list of slot indices are in range and
inactive; `PendingOK` is `Nodup` plus this for the engine's own queue. -/
def PendingSetOK (c : Cfg) (e : Engine) (P : List Nat) : Prop :=
  ∀ m ∈ P, m < seqCapacity c ∧ (getSlot e m).active = false

theorem countActive_pos (l : List Slot) (i : Nat) (h : i < l.length)
    (hact : (l.getD i {}).active = true) : 1 ≤ countActive l := by
  have hmem : l.getD i {} ∈ l := by
    have : l.getD i {} = l.get ⟨i, h⟩ := by
      simp [List.getD, List.getElem?_eq_getElem h]
    rw [this]
    exact List.get_mem l i h
  have : l.getD i {} ∈ l.filter (fun s => s.active) :=
    List.mem_filter.mpr ⟨hmem, by simpa using hact⟩
  have := List.length_pos_of_mem this
  unfold countActive
  omega

theorem finalizeSlot_inv (c : Cfg) (e : Engine) (idx : Nat) (success : Bool)
    (hcore : EngCore c e) (hpend : PendingOK c e) (hidx : idx < seqCapacity c) :
    EngCore c (finalizeSlot c e idx success) ∧
    PendingOK c (finalizeSlot c e idx success) ∧
    (finalizeSlot c e idx success).prefix_ready = e.prefix_ready ∧
    (∀ j, j ≠ idx → getSlot (finalizeSlot c e idx success) j = getSlot e j) ∧
    (getSlot (finalizeSlot c e idx success) idx).active = false ∧
    (finalizeSlot c e idx success).next_prompt_idx = e.next_prompt_idx ∧
    (finalizeSlot c e idx success).calls = e.calls ∧
    (finalizeSlot c e idx success).final_responses.length = e.final_responses.length := by
  obtain ⟨hlen, hcount, hslots, hmem⟩ := hcore
  obtain ⟨hnodup, hpends⟩ := hpend
  have hidx' : idx < e.slots.length := by rw [hlen]; exact hidx
  have hgetj : ∀ j, j ≠ idx → (e.slots.set idx {}).getD j {} = getSlot e j := by
    intro j hj
    simp [getSlot, List.getD, List.getElem?_set_ne (Ne.symm hj)]
  have hgeti : (e.slots.set idx {}).getD idx {} = ({} : Slot) := by
    simp [List.getD, List.getElem?_set_self, hidx']
  have hlen2 : (e.slots.set idx {}).length = seqCapacity c := by simp [hlen]
  unfold finalizeSlot
  by_cases hact : (getSlot e idx).active = true
  · rw [if_neg (by simp [hact])]
    have hseq : (getSlot e idx).seq_id = idx + 1 := (hslots idx hidx hact).2
    have hnotpend : idx ∉ e.pending := by
      intro habs
      have h2 := (hpends idx habs).2
      rw [hact] at h2
      cases h2
    have hcset := countActive_set e.slots idx {} hidx'
    have hact2 : (e.slots.getD idx ({} : Slot)).active = true := hact
    have hcpos := countActive_pos e.slots idx hidx' hact2
    rw [if_pos hact2, if_neg (by decide : ¬ (({} : Slot)).active = true)] at hcset
    have hcount2 : e.active_clients - 1 = countActive (e.slots.set idx {}) := by omega
    have hmem2 : ∀ s, (if 0 < (getSlot e idx).seq_id then seqRm e.mem (getSlot e idx).seq_id
        else e.mem) s ≠ 0 →
        (s = 0 ∧ e.prefix_ready = true) ∨
        (∃ i, i < seqCapacity c ∧ ((e.slots.set idx {}).getD i {}).active = true ∧
          ((e.slots.set idx {}).getD i {}).seq_id = s) := by
      intro s hs
      rw [hseq, if_pos (by omega)] at hs
      have hsne : s ≠ idx + 1 := by
        intro habs
        rw [habs] at hs
        exact hs (memSet_self _ _ _)
      rw [seqRm, memSet_ne _ _ _ _ hsne] at hs
      rcases hmem s hs with h0 | ⟨i, hiS, hia, his⟩
      · exact Or.inl h0
      · have hine : i ≠ idx := by
          intro habs
          rw [habs, hseq] at his
          exact hsne his.symm
        exact Or.inr ⟨i, hiS, by rw [hgetj i hine]; exact hia, by rw [hgetj i hine]; exact his⟩
    have hslots2 : ∀ i, i < seqCapacity c →
        ((e.slots.set idx {}).getD i {}).active = true →
        ((e.slots.set idx {}).getD i {}).failed = false ∧
        ((e.slots.set idx {}).getD i {}).seq_id = i + 1 := by
      intro i hiS hia
      by_cases hie : i = idx
      · rw [hie, hgeti] at hia
        cases hia
      · rw [hgetj i hie] at hia ⊢
        exact hslots i hiS hia
    by_cases hneed : e.next_prompt_idx < c.prompts.length
    · rw [if_pos hneed]
      refine ⟨⟨hlen2, hcount2, hslots2, hmem2⟩, ?_, rfl, ?_, ?_, rfl, rfl, by simp⟩
      · refine ⟨?_, ?_⟩
        · refine List.Nodup.append hnodup (List.nodup_singleton idx) ?_
          intro x hx hx2
          have hxe : x = idx := by simpa using hx2
          subst hxe
          exact hnotpend hx
        · intro m hm
          rcases List.mem_append.mp hm with hm | hm
          · have hmne : m ≠ idx := by
              intro habs
              subst habs
              exact hnotpend hm
            refine ⟨(hpends m hm).1, ?_⟩
            simp only [getSlot]
            rw [hgetj m hmne]
            exact (hpends m hm).2
          · have hme : m = idx := by simpa using hm
            subst hme
            exact ⟨hidx, by simp only [getSlot]; rw [hgeti]⟩
      · intro j hj
        exact hgetj j hj
      · simp only [getSlot]
        rw [hgeti]
    · rw [if_neg hneed]
      refine ⟨⟨hlen2, hcount2, hslots2, hmem2⟩, ?_, rfl, ?_, ?_, rfl, rfl, by simp⟩
      · refine ⟨hnodup, ?_⟩
        intro m hm
        have hmne : m ≠ idx := by
          intro habs
          subst habs
          exact hnotpend hm
        refine ⟨(hpends m hm).1, ?_⟩
        simp only [getSlot]
        rw [hgetj m hmne]
        exact (hpends m hm).2
      · intro j hj
        exact hgetj j hj
      · simp only [getSlot]
        rw [hgeti]
  · rw [if_pos (by simpa using hact)]
    have hact0 : (e.slots.getD idx ({} : Slot)).active = false := by
      simpa [getSlot] using hact
    have hcset := countActive_set e.slots idx {} hidx'
    rw [if_neg (by simpa [getSlot] using hact), if_neg (by decide : ¬ (({} : Slot)).active = true)] at hcset
    have hcount2 : e.active_clients = countActive (e.slots.set idx {}) := by omega
    refine ⟨⟨by simp [setSlotE, hlen], by simpa [setSlotE] using hcount2, ?_, ?_⟩,
      ⟨hnodup, ?_⟩, rfl, ?_, ?_, rfl, rfl, rfl⟩
    · intro i hiS hia
      by_cases hie : i = idx
      · rw [hie] at hia
        rw [getSlot_set_same e idx {} hidx'] at hia
        cases hia
      · rw [getSlot_set_other e idx i {} hie] at hia ⊢
        exact hslots i hiS hia
    · intro s hs
      rcases hmem s hs with h0 | ⟨i, hiS, hia, his⟩
      · exact Or.inl h0
      · have hine : i ≠ idx := by
          intro habs
          rw [habs] at hia
          exact absurd hia hact
        exact Or.inr ⟨i, hiS, by rw [getSlot_set_other e idx i {} hine]; exact hia,
          by rw [getSlot_set_other e idx i {} hine]; exact his⟩
    · intro m hm
      refine ⟨(hpends m hm).1, ?_⟩
      by_cases hme : m = idx
      · rw [hme, getSlot_set_same e idx {} hidx']
      · rw [getSlot_set_other e idx m {} hme]
        exact (hpends m hm).2
    · intro j hj
      exact getSlot_set_other e idx j {} hj
    · rw [getSlot_set_same e idx {} hidx']

/-- Replacing a slot by one that agrees on `active`, `failed` and `seq_id`
preserves the core invariant and the pending-queue facts. -/
theorem setSlot_preserve (c : Cfg) (e : Engine) (idx : Nat) (s : Slot)
    (hcore : EngCore c e) (hpend : PendingOK c e) (hidx' : idx < e.slots.length)
    (hagree : s.active = (getSlot e idx).active ∧ s.failed = (getSlot e idx).failed ∧
      s.seq_id = (getSlot e idx).seq_id) :
    EngCore c (setSlotE e idx s) ∧ PendingOK c (setSlotE e idx s) := by
  obtain ⟨hlen, hcount, hslots, hmem⟩ := hcore
  obtain ⟨hnodup, hpends⟩ := hpend
  have hcset := countActive_set e.slots idx s hidx'
  have hiff : (if (e.slots.getD idx ({} : Slot)).active = true then 1 else 0) =
      (if s.active = true then 1 else 0) := by
    rw [hagree.1]
    rfl
  refine ⟨⟨by simp [setSlotE, hlen], ?_, ?_, ?_⟩, ⟨hnodup, ?_⟩⟩
  · show e.active_clients = countActive (e.slots.set idx s)
    omega
  · intro i hiS hia
    by_cases hie : i = idx
    · subst hie
      rw [getSlot_set_same e i s hidx'] at hia ⊢
      rw [hagree.1] at hia
      rw [hagree.2.1, hagree.2.2]
      exact hslots i hiS hia
    · rw [getSlot_set_other e idx i s hie] at hia ⊢
      exact hslots i hiS hia
  · intro q hq
    rcases hmem q hq with h0 | ⟨i, hiS, hia, his⟩
    · exact Or.inl h0
    · by_cases hie : i = idx
      · subst hie
        refine Or.inr ⟨i, hiS, ?_, ?_⟩
        · rw [getSlot_set_same e i s hidx', hagree.1]; exact hia
        · rw [getSlot_set_same e i s hidx', hagree.2.2]; exact his
      · exact Or.inr ⟨i, hiS, by rw [getSlot_set_other e idx i s hie]; exact hia,
          by rw [getSlot_set_other e idx i s hie]; exact his⟩
  · intro m hm
    refine ⟨(hpends m hm).1, ?_⟩
    by_cases hme : m = idx
    · subst hme
      rw [getSlot_set_same e m s hidx', hagree.1]
      exact (hpends m hm).2
    · rw [getSlot_set_other e idx m s hme]
      exact (hpends m hm).2

theorem processSlotSample_inv (c : Cfg) (start n : Nat) (e : Engine) (idx : Nat)
    (hcore : EngCore c e) (hpend : PendingOK c e) :
    EngCore c (processSlotSample c start n e idx) ∧
    PendingOK c (processSlotSample c start n e idx) ∧
    (processSlotSample c start n e idx).prefix_ready = e.prefix_ready ∧
    (processSlotSample c start n e idx).next_prompt_idx = e.next_prompt_idx ∧
    (processSlotSample c start n e idx).calls = e.calls ∧
    (processSlotSample c start n e idx).final_responses.length =
      e.final_responses.length := by
  unfold processSlotSample
  by_cases h1 : ¬(getSlot e idx).active = true ∨ (getSlot e idx).failed = true
  · rw [if_pos h1]
    exact ⟨hcore, hpend, rfl, rfl, rfl, rfl⟩
  · rw [if_neg h1]
    by_cases h2 : (getSlot e idx).i_batch < (start : Int) ∨
        ((start : Int) + (n : Int)) ≤ (getSlot e idx).i_batch
    · rw [if_pos h2]
      exact ⟨hcore, hpend, rfl, rfl, rfl, rfl⟩
    · rw [if_neg h2]
      push_neg at h1
      obtain ⟨hact, hfail⟩ := h1
      have hidx' : idx < e.slots.length := by
        by_contra hge
        have hnone : e.slots[idx]? = none := List.getElem?_eq_none (by omega)
        have : getSlot e idx = {} := by simp [getSlot, List.getD, hnone]
        rw [this] at hact
        cases hact
      have hidxS : idx < seqCapacity c := by rw [← hcore.1]; exact hidx'
      have hsp := setSlot_preserve c e idx
        { getSlot e idx with
          response := (slotAccept c.vocab c.max_tokens
            (c.streams (getSlot e idx).global_index.toNat (getSlot e idx).n_decoded)
            ⟨(getSlot e idx).response, (getSlot e idx).n_decoded, false⟩).response
          sampled := c.streams (getSlot e idx).global_index.toNat (getSlot e idx).n_decoded
          n_decoded := (slotAccept c.vocab c.max_tokens
            (c.streams (getSlot e idx).global_index.toNat (getSlot e idx).n_decoded)
            ⟨(getSlot e idx).response, (getSlot e idx).n_decoded, false⟩).n_decoded
          i_batch := -1 }
        hcore hpend hidx' ⟨rfl, rfl, rfl⟩
      by_cases hst : (slotAccept c.vocab c.max_tokens
          (c.streams (getSlot e idx).global_index.toNat (getSlot e idx).n_decoded)
          ⟨(getSlot e idx).response, (getSlot e idx).n_decoded, false⟩).stopped = true
      · rw [if_pos hst]
        have hf := finalizeSlot_inv c _ idx true hsp.1 hsp.2 hidxS
        exact ⟨hf.1, hf.2.1, hf.2.2.1, hf.2.2.2.2.2.1, hf.2.2.2.2.2.2.1,
          hf.2.2.2.2.2.2.2⟩
      · rw [if_neg hst]
        exact ⟨hsp.1, hsp.2, rfl, rfl, rfl, rfl⟩

theorem foldProcess_inv (c : Cfg) (start n : Nat) :
    ∀ (ws : List Nat) (e : Engine), EngCore c e → PendingOK c e →
      EngCore c (ws.foldl (processSlotSample c start n) e) ∧
      PendingOK c (ws.foldl (processSlotSample c start n) e) ∧
      (ws.foldl (processSlotSample c start n) e).prefix_ready = e.prefix_ready ∧
      (ws.foldl (processSlotSample c start n) e).next_prompt_idx = e.next_prompt_idx ∧
      (ws.foldl (processSlotSample c start n) e).calls = e.calls ∧
      (ws.foldl (processSlotSample c start n) e).final_responses.length =
        e.final_responses.length := by
  intro ws
  induction ws with
  | nil => intro e h1 h2; exact ⟨h1, h2, rfl, rfl, rfl, rfl⟩
  | cons w ws ih =>
      intro e h1 h2
      have hp := processSlotSample_inv c start n e w h1 h2
      have hr := ih (processSlotSample c start n e w) hp.1 hp.2.1
      simp only [List.foldl]
      exact ⟨hr.1, hr.2.1, hr.2.2.1.trans hp.2.2.1, hr.2.2.2.1.trans hp.2.2.2.1,
        hr.2.2.2.2.1.trans hp.2.2.2.2.1, hr.2.2.2.2.2.trans hp.2.2.2.2.2⟩

/-- Replacing an inactive slot by another inactive slot preserves the
invariants. -/
theorem setSlot_inactive_preserve (c : Cfg) (e : Engine) (idx : Nat) (s : Slot)
    (hcore : EngCore c e)
    (hold : (getSlot e idx).active = false) (hnew : s.active = false) :
    EngCore c (setSlotE e idx s) := by
  obtain ⟨hlen, hcount, hslots, hmem⟩ := hcore
  by_cases hidx' : idx < e.slots.length
  case neg =>
    have : e.slots.set idx s = e.slots := List.set_eq_of_length_le (by omega)
    refine ⟨?_, ?_, ?_, ?_⟩ <;>
      simp only [setSlotE, getSlot, this] <;> first
        | exact hlen
        | exact hcount
        | exact hslots
        | exact hmem
  case pos =>
    have hcset := countActive_set e.slots idx s hidx'
    rw [if_neg (by simpa [getSlot] using hold : ¬ (e.slots.getD idx ({} : Slot)).active = true),
      if_neg (by simp [hnew] : ¬ s.active = true)] at hcset
    refine ⟨by simp [setSlotE, hlen], by show e.active_clients = countActive (e.slots.set idx s); omega,
      ?_, ?_⟩
    · intro i hiS hia
      by_cases hie : i = idx
      · subst hie
        rw [getSlot_set_same e i s hidx'] at hia
        rw [hnew] at hia
        cases hia
      · rw [getSlot_set_other e idx i s hie] at hia ⊢
        exact hslots i hiS hia
    · intro q hq
      rcases hmem q hq with h0 | ⟨i, hiS, hia, his⟩
      · exact Or.inl h0
      · have hine : i ≠ idx := by
          intro habs
          rw [habs, hold] at hia
          cases hia
        exact Or.inr ⟨i, hiS, by rw [getSlot_set_other e idx i s hine]; exact hia,
          by rw [getSlot_set_other e idx i s hine]; exact his⟩

/-- Overwriting a slot with an inactive slot keeps a pending set valid. -/
theorem pendingSetOK_set_inactive (c : Cfg) (e : Engine) (idx : Nat) (s : Slot)
    (P : List Nat) (hidx : idx < e.slots.length)
    (hpend : PendingSetOK c e P) (hnew : s.active = false) :
    PendingSetOK c (setSlotE e idx s) P := by
  intro m hm
  refine ⟨(hpend m hm).1, ?_⟩
  by_cases hme : m = idx
  · subst hme
    rw [getSlot_set_same e m s hidx]
    exact hnew
  · rw [getSlot_set_other e idx m s hme]
    exact (hpend m hm).2

/-- What `decode_prompt_tokens` does to the engine and the slot: only the KV
rows under the slot's seq-id, the call counter and the miss counter change;
the returned slot agrees with the input except for `n_past`, `failed` and
`error_msg`, and on success `failed` is the input's. -/
theorem decodePromptTokens_spec (c : Cfg) (e : Engine) (slot : Slot) :
    (∀ q, q ≠ slot.seq_id → (decodePromptTokens c e slot).2.1.mem q = e.mem q) ∧
    (decodePromptTokens c e slot).2.1.slots = e.slots ∧
    (decodePromptTokens c e slot).2.1.pending = e.pending ∧
    (decodePromptTokens c e slot).2.1.next_prompt_idx = e.next_prompt_idx ∧
    (decodePromptTokens c e slot).2.1.active_clients = e.active_clients ∧
    (decodePromptTokens c e slot).2.1.prefix_ready = e.prefix_ready ∧
    (decodePromptTokens c e slot).2.1.final_responses = e.final_responses ∧
    (decodePromptTokens c e slot).2.2.active = slot.active ∧
    (decodePromptTokens c e slot).2.2.seq_id = slot.seq_id ∧
    ((decodePromptTokens c e slot).1 = true →
      (decodePromptTokens c e slot).2.2.failed = slot.failed) := by
  unfold decodePromptTokens
  by_cases h0 : slot.n_prompt = 0
  · rw [if_pos h0]
    refine ⟨fun q _ => rfl, rfl, rfl, rfl, rfl, rfl, rfl, rfl, rfl, ?_⟩
    intro h
    cases h
  · rw [if_neg h0]
    by_cases h1 : slot.suffix_tokens = []
    · rw [if_pos h1]
      exact ⟨fun q _ => rfl, rfl, rfl, rfl, rfl, rfl, rfl, rfl, rfl, fun _ => rfl⟩
    · rw [if_neg h1]
      by_cases h2 : (submitChunks c.dec (slot.suffix_tokens.length + batchCapInit c + 1)
          slot.suffix_tokens.length 0 (batchCapInit c) e.calls e.miss).ok = true
      · rw [if_pos h2]
        exact ⟨fun q hq => memSet_ne _ _ _ _ hq, rfl, rfl, rfl, rfl, rfl, rfl, rfl,
          rfl, fun _ => rfl⟩
      · rw [if_neg h2]
        refine ⟨fun q hq => memSet_ne _ _ _ _ hq, rfl, rfl, rfl, rfl, rfl, rfl, rfl,
          rfl, ?_⟩
        intro h
        cases h

/-- Every write to `final_responses` is either the cleaner's output for a
finished slot or an `"[ERROR] "`-prefixed sentinel; untouched entries keep the
initial empty string. -/
def errPrefix : Str := "[ERROR] ".data

abbrev RespEntryOK (entry : Str) : Prop :=
  entry = [] ∨ (∃ t, entry = cleanResponseText t) ∨ errPrefix.isPrefixOf entry = true

abbrev RespOK (e : Engine) : Prop :=
  ∀ k, RespEntryOK (e.final_responses.getD k [])

theorem respEntry_set (l : List Str) (g : Nat) (v : Str)
    (hl : ∀ k, RespEntryOK (l.getD k [])) (hv : RespEntryOK v) :
    ∀ k, RespEntryOK ((l.set g v).getD k []) := by
  intro k
  by_cases hkg : k = g
  · subst hkg
    by_cases hk : k < l.length
    · rw [List.getD, List.get?_eq_getElem?, List.getElem?_set_self hk]
      exact hv
    · rw [List.set_eq_of_length_le (by omega)]
      exact hl k
  · rw [List.getD, List.get?_eq_getElem?, List.getElem?_set_ne (Ne.symm hkg),
      ← List.get?_eq_getElem?]
    exact hl k

theorem respEntry_err (msg : Str) : RespEntryOK (errPrefix ++ msg) :=
  Or.inr (Or.inr (List.isPrefixOf_iff_prefix.mpr (List.prefix_append _ _)))

theorem getD_set_ne2 {α : Type} (l : List α) (i j : Nat) (v d : α) (h : j ≠ i) :
    (l.set i v).getD j d = l.getD j d := by
  rw [List.getD, List.get?_eq_getElem?, List.getElem?_set_ne (Ne.symm h),
    ← List.get?_eq_getElem?]
  rfl

theorem getD_set_self2 {α : Type} (l : List α) (i : Nat) (v d : α)
    (h : i < l.length) : (l.set i v).getD i d = v := by
  rw [List.getD, List.get?_eq_getElem?, List.getElem?_set_self h]
  rfl

/-- The context-overflow sentinel written by `assign_next_prompt`
(localllm_capi.cpp:762). -/
def ovSentinel : Str := "[ERROR] Prompt too long for context size".data

/-- Overflow bookkeeping: every active slot's prompt index lies below the
queue cursor and is not an overflowing prompt, and every overflowing prompt
already passed by the cursor carries the context-size sentinel. -/
abbrev OvState (c : Cfg) (e : Engine) : Prop :=
  (∀ i, i < seqCapacity c → (getSlot e i).active = true →
    (getSlot e i).global_index.toNat < e.next_prompt_idx ∧
    ¬(((c.prompts.getD (getSlot e i).global_index.toNat []).length : Int) >
      (c.n_ctx : Int) - 64)) ∧
  (∀ g, g < e.next_prompt_idx →
    ((c.prompts.getD g []).length : Int) > (c.n_ctx : Int) - 64 →
    e.final_responses.getD g [] = ovSentinel)

theorem decodePromptTokens_gi (c : Cfg) (e : Engine) (slot : Slot) :
    (decodePromptTokens c e slot).2.2.global_index = slot.global_index := by
  simp only [decodePromptTokens]
  split
  · rfl
  · split
    · rfl
    · split <;> rfl

/-- The facts about an engine `r` produced from `e` by an assignment step:
invariants hold, the pending queue and prefix flag are untouched, other slots
are untouched, and the result table keeps its length. -/
abbrev AssignOutcome (c : Cfg) (e : Engine) (idx : Nat) (P : List Nat)
    (r : Engine) : Prop :=
  EngCore c r ∧ PendingSetOK c r P ∧ r.pending = e.pending ∧
  r.prefix_ready = e.prefix_ready ∧
  (∀ j, j ≠ idx → getSlot r j = getSlot e j) ∧
  r.final_responses.length = e.final_responses.length ∧
  (RespOK e → RespOK r) ∧
  e.next_prompt_idx ≤ r.next_prompt_idx ∧
  e.active_clients ≤ r.active_clients ∧
  (OvState c e → OvState c r)

/-- An engine state from which `assign_next_prompt` may continue looking for
the next prompt on slot `idx`. -/
abbrev ReadyForAssign (c : Cfg) (e : Engine) (idx : Nat) (P : List Nat)
    (e3 : Engine) : Prop :=
  EngCore c e3 ∧ PendingSetOK c e3 P ∧ e3.pending = e.pending ∧
  e3.prefix_ready = e.prefix_ready ∧ (getSlot e3 idx).active = false ∧
  idx ∉ P ∧ (∀ j, j ≠ idx → getSlot e3 j = getSlot e j) ∧
  e3.final_responses.length = e.final_responses.length ∧
  (RespOK e → RespOK e3) ∧
  e.next_prompt_idx ≤ e3.next_prompt_idx ∧
  e.active_clients ≤ e3.active_clients ∧
  (OvState c e → OvState c e3)

/-- The engine after a failed `decode_prompt_tokens`: the slot's seq-id is
removed and the error sentinel recorded; the state is ready for the next
attempt. -/
theorem assign_fail_step (c : Cfg) (e e2 : Engine) (slot0 : Slot)
    (idx gidx : Nat) (msg : Str) {P : List Nat}
    (hcore : EngCore c e) (hpend : PendingSetOK c e P) (hidxS : idx < seqCapacity c)
    (hold : (getSlot e idx).active = false) (hpen : idx ∉ P)
    (h2slots : e2.slots = e.slots) (h2pend : e2.pending = e.pending)
    (h2pfx : e2.prefix_ready = e.prefix_ready)
    (h2mem : ∀ q, q ≠ idx + 1 → e2.mem q = e.mem q)
    (h2act : e2.active_clients = e.active_clients)
    (h2fr : e2.final_responses = e.final_responses)
    (hseq : slot0.seq_id = idx + 1) (hmsg : RespEntryOK msg)
    (h2next : e2.next_prompt_idx = e.next_prompt_idx + 1)
    (hgidx : gidx = e.next_prompt_idx)
    (hnov : ¬(((c.prompts.getD e.next_prompt_idx []).length : Int) >
      (c.n_ctx : Int) - 64)) :
    ReadyForAssign c e idx P
      { (decodePromptTokens c e2 slot0).2.1 with
        mem := if 0 < slot0.seq_id then
            seqRm (decodePromptTokens c e2 slot0).2.1.mem slot0.seq_id
          else (decodePromptTokens c e2 slot0).2.1.mem
        final_responses :=
          (decodePromptTokens c e2 slot0).2.1.final_responses.set gidx msg } := by
  have spec := decodePromptTokens_spec c e2 slot0
  have hDslots : (decodePromptTokens c e2 slot0).2.1.slots = e.slots :=
    spec.2.1.trans h2slots
  have hDpend : (decodePromptTokens c e2 slot0).2.1.pending = e.pending :=
    spec.2.2.1.trans h2pend
  have hDpfx : (decodePromptTokens c e2 slot0).2.1.prefix_ready = e.prefix_ready :=
    spec.2.2.2.2.2.1.trans h2pfx
  have hDact : (decodePromptTokens c e2 slot0).2.1.active_clients = e.active_clients :=
    spec.2.2.2.2.1.trans h2act
  have hDfr : (decodePromptTokens c e2 slot0).2.1.final_responses = e.final_responses :=
    spec.2.2.2.2.2.2.1.trans h2fr
  have hDmem : ∀ q, q ≠ idx + 1 → (decodePromptTokens c e2 slot0).2.1.mem q = e.mem q := by
    intro q hq
    exact (spec.1 q (by rw [hseq]; exact hq)).trans (h2mem q hq)
  have hgetAll : ∀ j, getSlot
      { (decodePromptTokens c e2 slot0).2.1 with
        mem := if 0 < slot0.seq_id then
            seqRm (decodePromptTokens c e2 slot0).2.1.mem slot0.seq_id
          else (decodePromptTokens c e2 slot0).2.1.mem
        final_responses :=
          (decodePromptTokens c e2 slot0).2.1.final_responses.set gidx msg } j =
      getSlot e j := by
    intro j
    simp only [getSlot]
    rw [hDslots]
  have hmemchar : ∀ q, q ≠ idx + 1 →
      (if 0 < slot0.seq_id then
          seqRm (decodePromptTokens c e2 slot0).2.1.mem slot0.seq_id
        else (decodePromptTokens c e2 slot0).2.1.mem) q = e.mem q := by
    intro q hq
    rw [hseq, if_pos (by omega)]
    rw [seqRm, memSet_ne _ _ _ _ hq]
    exact hDmem q hq
  have hDnext : (decodePromptTokens c e2 slot0).2.1.next_prompt_idx =
      e.next_prompt_idx + 1 := spec.2.2.2.1.trans h2next
  refine ⟨⟨?_, ?_, ?_, ?_⟩, ?_, hDpend, hDpfx, ?_, hpen, fun j _ => hgetAll j,
    ?_, ?_, ?_, ?_, ?_⟩
  · show ((decodePromptTokens c e2 slot0).2.1.slots).length = seqCapacity c
    rw [hDslots]
    exact hcore.1
  · show (decodePromptTokens c e2 slot0).2.1.active_clients =
      countActive ((decodePromptTokens c e2 slot0).2.1.slots)
    rw [hDslots, hDact]
    exact hcore.2.1
  · intro i hiS hia
    rw [hgetAll i] at hia ⊢
    exact hcore.2.2.1 i hiS hia
  · intro q hqne
    by_cases hq : q = idx + 1
    · exfalso
      apply hqne
      show (if 0 < slot0.seq_id then
          seqRm (decodePromptTokens c e2 slot0).2.1.mem slot0.seq_id
        else (decodePromptTokens c e2 slot0).2.1.mem) q = 0
      rw [hseq, if_pos (by omega : 0 < idx + 1), hq]
      exact memSet_self _ _ _
    · have hqne2 : (if 0 < slot0.seq_id then
          seqRm (decodePromptTokens c e2 slot0).2.1.mem slot0.seq_id
        else (decodePromptTokens c e2 slot0).2.1.mem) q ≠ 0 := hqne
      rw [hmemchar q hq] at hqne2
      rcases hcore.2.2.2 q hqne2 with h0 | ⟨i, hiS, hia, his⟩
      · left
        show q = 0 ∧ (decodePromptTokens c e2 slot0).2.1.prefix_ready = true
        rw [hDpfx]
        exact h0
      · right
        refine ⟨i, hiS, ?_, ?_⟩ <;> rw [hgetAll i]
        · exact hia
        · exact his
  · intro m hm
    refine ⟨(hpend m hm).1, ?_⟩
    rw [hgetAll m]
    exact (hpend m hm).2
  · rw [hgetAll idx]
    exact hold
  · show ((decodePromptTokens c e2 slot0).2.1.final_responses.set gidx msg).length =
      e.final_responses.length
    rw [List.length_set, hDfr]
  · intro hresp k
    show RespEntryOK
      (((decodePromptTokens c e2 slot0).2.1.final_responses.set gidx msg).getD k [])
    rw [hDfr]
    exact respEntry_set e.final_responses gidx msg hresp hmsg k
  · show e.next_prompt_idx ≤ (decodePromptTokens c e2 slot0).2.1.next_prompt_idx
    rw [hDnext]
    omega
  · show e.active_clients ≤ (decodePromptTokens c e2 slot0).2.1.active_clients
    rw [hDact]
  · intro hov
    obtain ⟨hc1, hc2⟩ := hov
    constructor
    · intro i hiS hact
      rw [hgetAll i] at hact ⊢
      refine ⟨?_, (hc1 i hiS hact).2⟩
      show (getSlot e i).global_index.toNat <
        (decodePromptTokens c e2 slot0).2.1.next_prompt_idx
      rw [hDnext]
      exact Nat.lt_succ_of_lt (hc1 i hiS hact).1
    · intro g hg hovg
      have hg2 : g < e.next_prompt_idx + 1 := by
        have h0 : g < (decodePromptTokens c e2 slot0).2.1.next_prompt_idx := hg
        rw [hDnext] at h0
        exact h0
      by_cases hge : g = e.next_prompt_idx
      · subst hge
        exact absurd hovg hnov
      · show ((decodePromptTokens c e2 slot0).2.1.final_responses.set
          gidx msg).getD g [] = ovSentinel
        rw [getD_set_ne2 _ _ _ _ _ (by omega : g ≠ gidx), hDfr]
        exact hc2 g (by omega) hovg

/-- The engine after a successful admission: the slot becomes active with
seq-id `idx + 1` and the invariants are re-established. -/
theorem assign_success_step (c : Cfg) (e e2 : Engine) (slot0 : Slot)
    (idx : Nat) (samp : Tok) {P : List Nat}
    (hcore : EngCore c e) (hpend : PendingSetOK c e P) (hidxS : idx < seqCapacity c)
    (hold : (getSlot e idx).active = false) (hpen : idx ∉ P)
    (h2slots : e2.slots = e.slots) (h2pend : e2.pending = e.pending)
    (h2pfx : e2.prefix_ready = e.prefix_ready)
    (h2mem : ∀ q, q ≠ idx + 1 → e2.mem q = e.mem q)
    (h2act : e2.active_clients = e.active_clients)
    (h2fr : e2.final_responses = e.final_responses)
    (hseq : slot0.seq_id = idx + 1) (hfail : slot0.failed = false)
    (hr1 : (decodePromptTokens c e2 slot0).1 = true)
    (h2next : e2.next_prompt_idx = e.next_prompt_idx + 1)
    (hgi0 : slot0.global_index = (e.next_prompt_idx : Int))
    (hnov : ¬(((c.prompts.getD e.next_prompt_idx []).length : Int) >
      (c.n_ctx : Int) - 64)) :
    AssignOutcome c e idx P
      { setSlotE (decodePromptTokens c e2 slot0).2.1 idx
          { (decodePromptTokens c e2 slot0).2.2 with
            sampled := samp
            active := true } with
        active_clients := (decodePromptTokens c e2 slot0).2.1.active_clients + 1 } := by
  have spec := decodePromptTokens_spec c e2 slot0
  have hDslots : (decodePromptTokens c e2 slot0).2.1.slots = e.slots :=
    spec.2.1.trans h2slots
  have hDslotsLen : (decodePromptTokens c e2 slot0).2.1.slots.length = e.slots.length := by
    rw [hDslots]
  have hidx' : idx < e.slots.length := by rw [hcore.1]; exact hidxS
  have hidxD : idx < (decodePromptTokens c e2 slot0).2.1.slots.length := by
    rw [hDslotsLen]; exact hidx'
  have hDpend : (decodePromptTokens c e2 slot0).2.1.pending = e.pending :=
    spec.2.2.1.trans h2pend
  have hDpfx : (decodePromptTokens c e2 slot0).2.1.prefix_ready = e.prefix_ready :=
    spec.2.2.2.2.2.1.trans h2pfx
  have hDact : (decodePromptTokens c e2 slot0).2.1.active_clients = e.active_clients :=
    spec.2.2.2.2.1.trans h2act
  have hDfr : (decodePromptTokens c e2 slot0).2.1.final_responses = e.final_responses :=
    spec.2.2.2.2.2.2.1.trans h2fr
  have hDmem : ∀ q, q ≠ idx + 1 → (decodePromptTokens c e2 slot0).2.1.mem q = e.mem q := by
    intro q hq
    exact (spec.1 q (by rw [hseq]; exact hq)).trans (h2mem q hq)
  have hs1seq : ((decodePromptTokens c e2 slot0).2.2).seq_id = idx + 1 :=
    spec.2.2.2.2.2.2.2.2.1.trans hseq
  have hs1fail : ((decodePromptTokens c e2 slot0).2.2).failed = false :=
    (spec.2.2.2.2.2.2.2.2.2 hr1).trans hfail
  have hgetidx : ∀ j, getSlot
      { setSlotE (decodePromptTokens c e2 slot0).2.1 idx
          { (decodePromptTokens c e2 slot0).2.2 with
            sampled := samp
            active := true } with
        active_clients := (decodePromptTokens c e2 slot0).2.1.active_clients + 1 } j =
      ((decodePromptTokens c e2 slot0).2.1.slots.set idx
        { (decodePromptTokens c e2 slot0).2.2 with
          sampled := samp
          active := true }).getD j {} := by
    intro j
    rfl
  have hgetj : ∀ j, j ≠ idx →
      ((decodePromptTokens c e2 slot0).2.1.slots.set idx
        { (decodePromptTokens c e2 slot0).2.2 with
          sampled := samp
          active := true }).getD j {} = getSlot e j := by
    intro j hj
    show _ = e.slots.getD j {}
    rw [← hDslots]
    simp [List.getD, List.getElem?_set_ne (Ne.symm hj)]
  have hgeti :
      ((decodePromptTokens c e2 slot0).2.1.slots.set idx
        { (decodePromptTokens c e2 slot0).2.2 with
          sampled := samp
          active := true }).getD idx {} =
      { (decodePromptTokens c e2 slot0).2.2 with
        sampled := samp
        active := true } := by
    simp [List.getD, List.getElem?_set_self, hidxD]
  have hcnt : countActive ((decodePromptTokens c e2 slot0).2.1.slots.set idx
      { (decodePromptTokens c e2 slot0).2.2 with
        sampled := samp
        active := true }) = countActive e.slots + 1 := by
    have h1 := countActive_set e.slots idx
      { (decodePromptTokens c e2 slot0).2.2 with
        sampled := samp
        active := true } hidx'
    rw [if_neg (by simpa [getSlot] using hold : ¬ (e.slots.getD idx ({} : Slot)).active = true),
      if_pos (rfl : ({ (decodePromptTokens c e2 slot0).2.2 with
        sampled := samp
        active := true } : Slot).active = true)] at h1
    rw [hDslots]
    omega
  have hDnext : (decodePromptTokens c e2 slot0).2.1.next_prompt_idx =
      e.next_prompt_idx + 1 := spec.2.2.2.1.trans h2next
  refine ⟨⟨?_, ?_, ?_, ?_⟩, ?_, hDpend, hDpfx, ?_, ?_, ?_, ?_, ?_, ?_⟩
  · show ((decodePromptTokens c e2 slot0).2.1.slots.set idx _).length = seqCapacity c
    rw [List.length_set, hDslots]
    exact hcore.1
  · show (decodePromptTokens c e2 slot0).2.1.active_clients + 1 =
      countActive ((decodePromptTokens c e2 slot0).2.1.slots.set idx
        { (decodePromptTokens c e2 slot0).2.2 with sampled := samp, active := true })
    rw [hcnt, hDact, hcore.2.1]
  · intro i hiS hia
    rw [hgetidx i] at hia ⊢
    by_cases hie : i = idx
    · subst hie
      rw [hgeti]
      exact ⟨hs1fail, hs1seq⟩
    · rw [hgetj i hie] at hia ⊢
      exact hcore.2.2.1 i hiS hia
  · intro q hq
    by_cases hqi : q = idx + 1
    · subst hqi
      right
      refine ⟨idx, hidxS, ?_, ?_⟩ <;> rw [hgetidx idx, hgeti] <;>
        first
        | rfl
        | exact hs1seq
    · have : e.mem q ≠ 0 := by
        show e.mem q ≠ 0
        rw [← hDmem q hqi]
        exact hq
      rcases hcore.2.2.2 q this with h0 | ⟨i, hiS, hia, his⟩
      · left
        show q = 0 ∧ (decodePromptTokens c e2 slot0).2.1.prefix_ready = true
        rw [hDpfx]
        exact h0
      · right
        have hine : i ≠ idx := by
          intro habs
          rw [habs, hold] at hia
          cases hia
        refine ⟨i, hiS, ?_, ?_⟩ <;> rw [hgetidx i, hgetj i hine]
        · exact hia
        · exact his
  · intro m hm
    have hmne : m ≠ idx := by
      intro habs
      subst habs
      exact hpen hm
    refine ⟨(hpend m hm).1, ?_⟩
    rw [hgetidx m, hgetj m hmne]
    exact (hpend m hm).2
  · intro j hj
    rw [hgetidx j, hgetj j hj]
  · show (decodePromptTokens c e2 slot0).2.1.final_responses.length =
      e.final_responses.length
    rw [hDfr]
  · intro hresp k
    show RespEntryOK ((decodePromptTokens c e2 slot0).2.1.final_responses.getD k [])
    rw [hDfr]
    exact hresp k
  · show e.next_prompt_idx ≤ (decodePromptTokens c e2 slot0).2.1.next_prompt_idx
    rw [hDnext]
    omega
  · show e.active_clients ≤ (decodePromptTokens c e2 slot0).2.1.active_clients + 1
    rw [hDact]
    omega
  · intro hov
    obtain ⟨hc1, hc2⟩ := hov
    constructor
    · intro i hiS hact
      by_cases hie : i = idx
      · subst hie
        rw [hgetidx i, hgeti]
        constructor
        · show ((decodePromptTokens c e2 slot0).2.2.global_index).toNat <
            (decodePromptTokens c e2 slot0).2.1.next_prompt_idx
          rw [decodePromptTokens_gi c e2 slot0, hgi0, hDnext, Int.toNat_natCast]
          omega
        · show ¬(((c.prompts.getD
            ((decodePromptTokens c e2 slot0).2.2.global_index).toNat []).length :
              Int) > (c.n_ctx : Int) - 64)
          rw [decodePromptTokens_gi c e2 slot0, hgi0, Int.toNat_natCast]
          exact hnov
      · rw [hgetidx i, hgetj i hie] at hact ⊢
        refine ⟨?_, (hc1 i hiS hact).2⟩
        show (getSlot e i).global_index.toNat <
          (decodePromptTokens c e2 slot0).2.1.next_prompt_idx
        rw [hDnext]
        exact Nat.lt_succ_of_lt (hc1 i hiS hact).1
    · intro g hg hovg
      have hg2 : g < e.next_prompt_idx + 1 := by
        have h0 : g < (decodePromptTokens c e2 slot0).2.1.next_prompt_idx := hg
        rw [hDnext] at h0
        exact h0
      by_cases hge : g = e.next_prompt_idx
      · subst hge
        exact absurd hovg hnov
      · show (decodePromptTokens c e2 slot0).2.1.final_responses.getD g [] =
          ovSentinel
        rw [hDfr]
        exact hc2 g (by omega) hovg

set_option maxHeartbeats 1000000 in
theorem assignAux_inv (c : Cfg) :
    ∀ (fuel : Nat) (e : Engine) (idx : Nat) (P : List Nat),
      EngCore c e → PendingSetOK c e P → idx < seqCapacity c →
      (getSlot e idx).active = false → idx ∉ P →
      e.final_responses.length = c.prompts.length →
      AssignOutcome c e idx P (assignAux c fuel e idx).2 := by
  intro fuel
  induction fuel with
  | zero =>
      intro e idx P hcore hpend hidxS hold hpen hflen
      exact ⟨hcore, hpend, rfl, rfl, fun j _ => rfl, rfl, fun h => h,
        Nat.le_refl _, Nat.le_refl _, fun h => h⟩
  | succ fuel ih =>
      intro e idx P hcore hpend hidxS hold hpen hflen
      have hidx' : idx < e.slots.length := by rw [hcore.1]; exact hidxS
      have follow : ∀ e3 : Engine, ReadyForAssign c e idx P e3 →
          AssignOutcome c e idx P (assignAux c fuel e3 idx).2 := by
        intro e3 h
        obtain ⟨h1, h2, h3, h4, h5, h6, h7, h8, h9, h10, h11, h12⟩ := h
        have hrec := ih e3 idx P h1 h2 hidxS h5 h6 (h8.trans hflen)
        exact ⟨hrec.1, hrec.2.1, hrec.2.2.1.trans h3, hrec.2.2.2.1.trans h4,
          fun j hj => (hrec.2.2.2.2.1 j hj).trans (h7 j hj),
          hrec.2.2.2.2.2.1.trans h8, fun hr => hrec.2.2.2.2.2.2.1 (h9 hr),
          le_trans h10 hrec.2.2.2.2.2.2.2.1,
          le_trans h11 hrec.2.2.2.2.2.2.2.2.1,
          fun hp => hrec.2.2.2.2.2.2.2.2.2 (h12 hp)⟩
      simp only [assignAux]
      split
      case isFalse hq =>
        refine ⟨setSlot_inactive_preserve c e idx {} hcore hold rfl,
          pendingSetOK_set_inactive c e idx {} P hidx' hpend rfl, rfl, rfl,
          fun j hj => getSlot_set_other e idx j {} hj, rfl, fun h => h,
          Nat.le_refl _, Nat.le_refl _, ?_⟩
        intro hov
        obtain ⟨hc1, hc2⟩ := hov
        constructor
        · intro i hiS hact
          by_cases hie : i = idx
          · subst hie
            rw [getSlot_set_same e i {} hidx'] at hact
            cases hact
          · rw [getSlot_set_other e idx i {} hie] at hact ⊢
            exact hc1 i hiS hact
        · intro g hg hovg
          exact hc2 g hg hovg
      case isTrue hq =>
        split
        case isTrue hov =>
          apply follow
          refine ⟨hcore, hpend, rfl, rfl, hold, hpen, fun j _ => rfl,
            List.length_set _ _ _,
            fun hresp => respEntry_set e.final_responses e.next_prompt_idx _ hresp
              (Or.inr (Or.inr (by decide))),
            Nat.le_succ _, Nat.le_refl _, ?_⟩
          intro hovs
          obtain ⟨hc1, hc2⟩ := hovs
          constructor
          · intro i hiS hact
            exact ⟨Nat.lt_succ_of_lt (hc1 i hiS hact).1, (hc1 i hiS hact).2⟩
          · intro g hg hovg
            have hg2 : g < e.next_prompt_idx + 1 := hg
            by_cases hge : g = e.next_prompt_idx
            · subst hge
              show (e.final_responses.set e.next_prompt_idx
                ("[ERROR] Prompt too long for context size".data)).getD
                  e.next_prompt_idx [] = ovSentinel
              rw [getD_set_self2 _ _ _ _ (by rw [hflen]; exact hq)]
              rfl
            · show (e.final_responses.set e.next_prompt_idx
                ("[ERROR] Prompt too long for context size".data)).getD g [] =
                  ovSentinel
              rw [getD_set_ne2 _ _ _ _ _ hge]
              exact hc2 g (by omega) hovg
        case isFalse hov =>
          split
          case isTrue hz =>
            apply follow
            refine ⟨hcore, hpend, rfl, rfl, hold, hpen, fun j _ => rfl,
              List.length_set _ _ _,
              fun hresp => respEntry_set e.final_responses e.next_prompt_idx _ hresp
                (Or.inr (Or.inr (by decide))),
              Nat.le_succ _, Nat.le_refl _, ?_⟩
            intro hovs
            obtain ⟨hc1, hc2⟩ := hovs
            constructor
            · intro i hiS hact
              exact ⟨Nat.lt_succ_of_lt (hc1 i hiS hact).1, (hc1 i hiS hact).2⟩
            · intro g hg hovg
              have hg2 : g < e.next_prompt_idx + 1 := hg
              by_cases hge : g = e.next_prompt_idx
              · subst hge
                exact absurd hovg hov
              · show (e.final_responses.set e.next_prompt_idx
                  ("[ERROR] Prompt resulted in zero tokens".data)).getD g [] =
                    ovSentinel
                rw [getD_set_ne2 _ _ _ _ _ hge]
                exact hc2 g (by omega) hovg
          case isFalse hz =>
            split <;> (try split) <;> (try split) <;> (try split) <;>
              first
              | (refine assign_success_step c e _ _ idx _ hcore hpend hidxS hold hpen
                  ?_ ?_ ?_ ?_ ?_ ?_ ?_ ?_ ?_ ?_ ?_ ?_ <;>
                  first
                  | rfl
                  | assumption
                  | (intro q hq; exact memSet_ne _ _ _ _ hq)
                  | (intro q hq; rfl))
              | (apply follow;
                 refine assign_fail_step c e _ _ idx _ _ hcore hpend hidxS hold hpen
                   ?_ ?_ ?_ ?_ ?_ ?_ ?_ ?_ ?_ ?_ ?_ <;>
                  first
                  | rfl
                  | assumption
                  | exact respEntry_err _
                  | (intro q hq; exact memSet_ne _ _ _ _ hq)
                  | (intro q hq; rfl))

/-! ## Invariant preservation through slot refilling (towards C4/C5) -/

theorem assignNextPrompt_inv (c : Cfg) (e : Engine) (idx : Nat) (P : List Nat)
    (hcore : EngCore c e) (hpend : PendingSetOK c e P) (hidxS : idx < seqCapacity c)
    (hold : (getSlot e idx).active = false) (hpen : idx ∉ P)
    (hflen : e.final_responses.length = c.prompts.length) :
    AssignOutcome c e idx P (assignNextPrompt c e idx).2 :=
  assignAux_inv c _ e idx P hcore hpend hidxS hold hpen hflen

theorem seqCapacity_pos (c : Cfg) : 0 < seqCapacity c :=
  Nat.lt_of_lt_of_le Nat.zero_lt_one (Nat.le_max_left _ _)

theorem getSlot_setE_active (e1 : Engine) (idx : Nat) (s : Slot) (ac : Nat)
    (hidx : idx < e1.slots.length) (hs : s.active = true) :
    (getSlot { setSlotE e1 idx s with active_clients := ac } idx).active = true := by
  show ((e1.slots.set idx s).getD idx {}).active = true
  rw [getD_set_self2 _ _ _ _ hidx]
  exact hs

set_option maxHeartbeats 1000000 in
theorem assignAux_flags (c : Cfg) :
    ∀ (fuel : Nat) (e : Engine) (idx : Nat),
      idx < e.slots.length →
      ((assignAux c fuel e idx).1 = true →
        (getSlot (assignAux c fuel e idx).2 idx).active = true) ∧
      (c.prompts.length ≤ e.next_prompt_idx + fuel →
        (assignAux c fuel e idx).1 = false →
        c.prompts.length ≤ (assignAux c fuel e idx).2.next_prompt_idx) := by
  intro fuel
  induction fuel with
  | zero =>
      intro e idx _
      constructor
      · intro h
        cases h
      · intro hb _
        simpa using hb
  | succ fuel ih =>
      intro e idx hlen
      have follow : ∀ e3 : Engine, idx < e3.slots.length →
          e3.next_prompt_idx = e.next_prompt_idx + 1 →
          ((assignAux c fuel e3 idx).1 = true →
            (getSlot (assignAux c fuel e3 idx).2 idx).active = true) ∧
          (c.prompts.length ≤ e.next_prompt_idx + (fuel + 1) →
            (assignAux c fuel e3 idx).1 = false →
            c.prompts.length ≤ (assignAux c fuel e3 idx).2.next_prompt_idx) := by
        intro e3 hl3 hn3
        refine ⟨(ih e3 idx hl3).1, ?_⟩
        intro hb hf
        exact (ih e3 idx hl3).2 (by omega) hf
      simp only [assignAux]
      split
      case isFalse hq =>
        constructor
        · intro h
          cases h
        · intro _ _
          show c.prompts.length ≤ e.next_prompt_idx
          omega
      case isTrue hq =>
        split
        case isTrue hov =>
          apply follow <;>
            first
            | exact hlen
            | rfl
        case isFalse hov =>
          split
          case isTrue hz =>
            apply follow <;>
              first
              | exact hlen
              | rfl
          case isFalse hz =>
            split <;> (try split) <;> (try split) <;> (try split) <;>
              first
              | (refine ⟨fun _ => getSlot_setE_active _ idx _ _ ?_ rfl,
                  fun _ hf => absurd hf (by simp)⟩
                 rw [(decodePromptTokens_spec c _ _).2.1]
                 exact hlen)
              | (apply follow <;>
                  first
                  | (rw [(decodePromptTokens_spec c _ _).2.1]; exact hlen)
                  | (rw [(decodePromptTokens_spec c _ _).2.2.2.1]))

/-! ## Overflow bookkeeping through sampling and finalisation (towards C7) -/

theorem assignNextPrompt_flags (c : Cfg) (e : Engine) (idx : Nat)
    (hlen : idx < e.slots.length) :
    ((assignNextPrompt c e idx).1 = true →
      (getSlot (assignNextPrompt c e idx).2 idx).active = true) ∧
    ((assignNextPrompt c e idx).1 = false →
      c.prompts.length ≤ (assignNextPrompt c e idx).2.next_prompt_idx) := by
  have h := assignAux_flags c (c.prompts.length + 1 - e.next_prompt_idx) e idx hlen
  exact ⟨h.1, h.2 (by omega)⟩

theorem ensureAux_inv (c : Cfg) :
    ∀ (k i : Nat) (e : Engine), EngCore c e → e.pending = [] →
      i + k ≤ seqCapacity c → e.final_responses.length = c.prompts.length →
      EngCore c (ensureAux c k i e) ∧ (ensureAux c k i e).pending = [] ∧
      (ensureAux c k i e).prefix_ready = e.prefix_ready ∧
      (ensureAux c k i e).final_responses.length = e.final_responses.length ∧
      (RespOK e → RespOK (ensureAux c k i e)) ∧
      e.next_prompt_idx ≤ (ensureAux c k i e).next_prompt_idx ∧
      e.active_clients ≤ (ensureAux c k i e).active_clients ∧
      (OvState c e → OvState c (ensureAux c k i e)) ∧
      (0 < k →
        0 < (ensureAux c k i e).active_clients ∨
        ¬((ensureAux c k i e).next_prompt_idx < c.prompts.length)) := by
  intro k
  induction k with
  | zero =>
      intro i e h1 h2 _ _
      exact ⟨h1, h2, rfl, rfl, fun h => h, Nat.le_refl _, Nat.le_refl _,
        fun h => h, fun h0 => absurd h0 (by omega)⟩
  | succ k ih =>
      intro i e h1 h2 hik hflen
      simp only [ensureAux]
      split
      case isFalse hq =>
        exact ⟨h1, h2, rfl, rfl, fun h => h, Nat.le_refl _, Nat.le_refl _,
          fun h => h, fun _ => Or.inr hq⟩
      case isTrue hq =>
        split
        case isTrue hact =>
          have ha := assignNextPrompt_inv c e i [] h1
            (fun m hm => absurd hm (List.not_mem_nil m))
            (by omega) (by simpa using hact) (List.not_mem_nil i) hflen
          have hr := ih (i + 1) _ ha.1 (ha.2.2.1.trans h2) (by omega)
            (ha.2.2.2.2.2.1.trans hflen)
          have hleni : i < e.slots.length := by rw [h1.1]; omega
          refine ⟨hr.1, hr.2.1, hr.2.2.1.trans ha.2.2.2.1,
            hr.2.2.2.1.trans ha.2.2.2.2.2.1,
            fun hresp => hr.2.2.2.2.1 (ha.2.2.2.2.2.2.1 hresp),
            le_trans ha.2.2.2.2.2.2.2.1 hr.2.2.2.2.2.1,
            le_trans ha.2.2.2.2.2.2.2.2.1 hr.2.2.2.2.2.2.1,
            fun hov => hr.2.2.2.2.2.2.2.1 (ha.2.2.2.2.2.2.2.2.2 hov), ?_⟩
          intro _
          rcases Bool.eq_false_or_eq_true (assignNextPrompt c e i).1 with hb | hb
          · left
            have hactp := (assignNextPrompt_flags c e i hleni).1 hb
            have hpos : 0 < (assignNextPrompt c e i).2.active_clients := by
              rw [ha.1.2.1]
              exact countActive_pos _ i (by rw [ha.1.1]; omega) hactp
            exact lt_of_lt_of_le hpos hr.2.2.2.2.2.2.1
          · right
            have hnext := (assignNextPrompt_flags c e i hleni).2 hb
            exact Nat.not_lt.mpr (le_trans hnext hr.2.2.2.2.2.1)
        case isFalse hact =>
          have hr := ih (i + 1) e h1 h2 (by omega) hflen
          refine ⟨hr.1, hr.2.1, hr.2.2.1, hr.2.2.2.1, hr.2.2.2.2.1,
            hr.2.2.2.2.2.1, hr.2.2.2.2.2.2.1, hr.2.2.2.2.2.2.2.1, ?_⟩
          intro _
          left
          have hpos : 0 < e.active_clients := by
            rw [h1.2.1]
            exact countActive_pos _ i (by rw [h1.1]; omega) (not_not.mp hact)
          exact lt_of_lt_of_le hpos hr.2.2.2.2.2.2.1

theorem ensureSlotsFilled_inv (c : Cfg) (e : Engine)
    (h1 : EngCore c e) (h2 : e.pending = [])
    (hflen : e.final_responses.length = c.prompts.length) :
    EngCore c (ensureSlotsFilled c e) ∧ (ensureSlotsFilled c e).pending = [] ∧
    (ensureSlotsFilled c e).prefix_ready = e.prefix_ready ∧
    (ensureSlotsFilled c e).final_responses.length = e.final_responses.length ∧
    (RespOK e → RespOK (ensureSlotsFilled c e)) ∧
    e.next_prompt_idx ≤ (ensureSlotsFilled c e).next_prompt_idx ∧
    e.active_clients ≤ (ensureSlotsFilled c e).active_clients ∧
    (OvState c e → OvState c (ensureSlotsFilled c e)) ∧
    (0 < (ensureSlotsFilled c e).active_clients ∨
      ¬((ensureSlotsFilled c e).next_prompt_idx < c.prompts.length)) := by
  have h := ensureAux_inv c (seqCapacity c) 0 e h1 h2 (by omega) hflen
  exact ⟨h.1, h.2.1, h.2.2.1, h.2.2.2.1, h.2.2.2.2.1, h.2.2.2.2.2.1,
    h.2.2.2.2.2.2.1, h.2.2.2.2.2.2.2.1,
    h.2.2.2.2.2.2.2.2 (seqCapacity_pos c)⟩

/-! ## Extra facts about slot finalisation and sampling -/

theorem finalizeSlot_getSlot_other (c : Cfg) (e : Engine) (idx : Nat)
    (success : Bool) (j : Nat) (hj : j ≠ idx) :
    getSlot (finalizeSlot c e idx success) j = getSlot e j := by
  have h : (e.slots.set idx ({} : Slot)).getD j {} = e.slots.getD j {} := by
    simp [List.getD, List.getElem?_set_ne (Ne.symm hj)]
  simp only [finalizeSlot]
  split
  · exact getSlot_set_other e idx j {} hj
  · split <;> exact h

theorem finalizeSlot_resp (c : Cfg) (e : Engine) (idx : Nat) (success : Bool)
    (hresp : RespOK e) : RespOK (finalizeSlot c e idx success) := by
  simp only [finalizeSlot]
  split
  · exact hresp
  · have hentry : RespEntryOK (if success then cleanResponseText (getSlot e idx).response
        else "[ERROR] ".data ++
          (if (getSlot e idx).error_msg = [] then "Unknown error".data
           else (getSlot e idx).error_msg)) := by
      split
      · exact Or.inr (Or.inl ⟨_, rfl⟩)
      · exact respEntry_err _
    split <;> exact respEntry_set e.final_responses _ _ hresp hentry

theorem processSlotSample_resp (c : Cfg) (start n : Nat) (e : Engine) (idx : Nat)
    (hresp : RespOK e) : RespOK (processSlotSample c start n e idx) := by
  simp only [processSlotSample]
  split
  · exact hresp
  · split
    · exact hresp
    · split
      · exact finalizeSlot_resp c _ idx true hresp
      · exact hresp

theorem foldProcess_resp (c : Cfg) (start n : Nat) :
    ∀ (ws : List Nat) (e : Engine), RespOK e →
      RespOK (ws.foldl (processSlotSample c start n) e) := by
  intro ws
  induction ws with
  | nil => intro e h; exact h
  | cons w ws ih =>
      intro e h
      exact ih _ (processSlotSample_resp c start n e w h)

/-- Sampling leaves untouched every slot whose batch row lies outside the
decoded window. -/
theorem processSlotSample_out (c : Cfg) (start n : Nat) (e : Engine) (idx j : Nat)
    (hj : (getSlot e j).i_batch < (start : Int) ∨
      ((start : Int) + (n : Int)) ≤ (getSlot e j).i_batch) :
    getSlot (processSlotSample c start n e idx) j = getSlot e j := by
  by_cases hje : j = idx
  · subst hje
    simp only [processSlotSample]
    by_cases hg1 : ¬(getSlot e j).active = true ∨ (getSlot e j).failed = true
    · rw [if_pos hg1]
    · rw [if_neg hg1, if_pos hj]
  · simp only [processSlotSample]
    by_cases hg1 : ¬(getSlot e idx).active = true ∨ (getSlot e idx).failed = true
    · rw [if_pos hg1]
    · rw [if_neg hg1]
      by_cases hg2 : (getSlot e idx).i_batch < (start : Int) ∨
          ((start : Int) + (n : Int)) ≤ (getSlot e idx).i_batch
      · rw [if_pos hg2]
      · rw [if_neg hg2]
        split <;>
          first
          | exact (finalizeSlot_getSlot_other c _ idx true j hje).trans
              (getSlot_set_other e idx j _ hje)
          | exact getSlot_set_other e idx j _ hje

theorem foldProcess_out (c : Cfg) (start n : Nat) :
    ∀ (ws : List Nat) (e : Engine) (j : Nat),
      ((getSlot e j).i_batch < (start : Int) ∨
        ((start : Int) + (n : Int)) ≤ (getSlot e j).i_batch) →
      getSlot (ws.foldl (processSlotSample c start n) e) j = getSlot e j := by
  intro ws
  induction ws with
  | nil => intro e j _; rfl
  | cons w ws ih =>
      intro e j hj
      have h1 := processSlotSample_out c start n e w j hj
      simp only [List.foldl]
      rw [ih _ j (by rw [h1]; exact hj), h1]

/-! ## The generation chunk loop preserves the invariants (towards C4) -/

theorem foldl_memAdd_ne (l : List BatchRow) :
    ∀ (m : Nat → Nat) (q : Nat),
      l.foldl (fun acc row => memAdd acc row.seq 1) m q ≠ m q →
      ∃ row ∈ l, row.seq = q := by
  induction l with
  | nil => intro m q h; exact absurd rfl h
  | cons r l ih =>
      intro m q h
      by_cases hq : r.seq = q
      · exact ⟨r, List.mem_cons_self r l, hq⟩
      · have hstep : memAdd m r.seq 1 q = m q :=
          memSet_ne _ _ _ _ (fun habs => hq habs.symm)
        simp only [List.foldl] at h
        rcases ih (memAdd m r.seq 1) q (fun habs => h (habs.trans hstep)) with
          ⟨row, hrow, hseq⟩
        exact ⟨row, List.mem_cons_of_mem r hrow, hseq⟩

theorem window_index {α : Type} (l : List α) (start n : Nat) (x : α)
    (hx : x ∈ (l.drop start).take n) :
    ∃ k, start ≤ k ∧ k < start + n ∧ l[k]? = some x := by
  rcases List.mem_iff_getElem?.mp hx with ⟨j, hj⟩
  have hjn : j < n := by
    by_contra hge
    rw [List.getElem?_eq_none (by rw [List.length_take]; omega)] at hj
    cases hj
  rw [List.getElem?_take, if_pos hjn, List.getElem?_drop] at hj
  exact ⟨start + j, by omega, by omega, hj⟩

/-- Every batch row at or past `start` belongs to an active slot whose
`i_batch` is the row's position. -/
def RowsOK (c : Cfg) (rows : List BatchRow) (start : Nat) (e : Engine) : Prop :=
  ∀ k row, start ≤ k → rows[k]? = some row →
    ∃ i, i < seqCapacity c ∧ (getSlot e i).active = true ∧
      (getSlot e i).i_batch = (k : Int) ∧ row.seq = (getSlot e i).seq_id

/-- One successful decode window: the KV rows appear under window seq-ids, the
window's slots are sampled, and the invariants survive. -/
theorem getSlot_oob (e : Engine) (i : Nat) (h : e.slots.length ≤ i) :
    getSlot e i = {} := by
  simp [getSlot, List.getD, List.getElem?_eq_none h]

theorem setSlot_preserve_ov (c : Cfg) (e : Engine) (idx : Nat) (s : Slot)
    (hidx : idx < e.slots.length)
    (hact : s.active = (getSlot e idx).active)
    (hgi : s.global_index = (getSlot e idx).global_index)
    (hov : OvState c e) : OvState c (setSlotE e idx s) := by
  obtain ⟨hc1, hc2⟩ := hov
  constructor
  · intro i hiS hact2
    by_cases hie : i = idx
    · subst hie
      rw [getSlot_set_same e i s hidx] at hact2 ⊢
      rw [hgi]
      exact hc1 i hiS (hact.symm.trans hact2)
    · rw [getSlot_set_other e idx i s hie] at hact2 ⊢
      exact hc1 i hiS hact2
  · exact hc2

theorem finalizeSlot_ov (c : Cfg) (e : Engine) (idx : Nat) (success : Bool)
    (hlen : e.slots.length = seqCapacity c)
    (hov : OvState c e) : OvState c (finalizeSlot c e idx success) := by
  obtain ⟨hc1, hc2⟩ := hov
  simp only [finalizeSlot]
  split
  case isTrue hact =>
    constructor
    · intro i hiS hact2
      by_cases hie : i = idx
      · subst hie
        have hidx' : i < e.slots.length := by omega
        rw [getSlot_set_same e i {} hidx'] at hact2
        cases hact2
      · rw [getSlot_set_other e idx i {} hie] at hact2 ⊢
        exact hc1 i hiS hact2
    · intro g hg hovg
      exact hc2 g hg hovg
  case isFalse hact =>
    have hact' : (getSlot e idx).active = true := by simpa using hact
    have hidx' : idx < e.slots.length := by
      by_contra hge
      rw [getSlot_oob e idx (by omega)] at hact'
      cases hact'
    have hiS : idx < seqCapacity c := by omega
    have hgi := hc1 idx hiS hact'
    have hclause1 : ∀ i, i < seqCapacity c →
        ((e.slots.set idx ({} : Slot)).getD i {}).active = true →
        ((e.slots.set idx ({} : Slot)).getD i {}).global_index.toNat <
          e.next_prompt_idx ∧
        ¬(((c.prompts.getD
            ((e.slots.set idx ({} : Slot)).getD i {}).global_index.toNat
              []).length : Int) > (c.n_ctx : Int) - 64) := by
      intro i hiS2 hact2
      by_cases hie : i = idx
      · subst hie
        rw [getD_set_self2 _ _ _ _ hidx'] at hact2
        cases hact2
      · rw [getD_set_ne2 _ _ _ _ _ hie] at hact2 ⊢
        exact hc1 i hiS2 hact2
    have hclause2 : ∀ (v : Str) (g : Nat), g < e.next_prompt_idx →
        ((c.prompts.getD g []).length : Int) > (c.n_ctx : Int) - 64 →
        (e.final_responses.set (getSlot e idx).global_index.toNat v).getD g [] =
          ovSentinel := by
      intro v g hg hovg
      have hne : g ≠ (getSlot e idx).global_index.toNat := by
        intro habs
        rw [habs] at hovg
        exact hgi.2 hovg
      rw [getD_set_ne2 _ _ _ _ _ hne]
      exact hc2 g hg hovg
    split <;>
      exact ⟨fun i hiS2 hact2 => hclause1 i hiS2 hact2,
        fun g hg hovg => hclause2 _ g hg hovg⟩

theorem finalizeSlot_count (c : Cfg) (e : Engine) (idx : Nat) (success : Bool)
    (hcore : EngCore c e) :
    (finalizeSlot c e idx success).next_prompt_idx = e.next_prompt_idx ∧
    (e.next_prompt_idx < c.prompts.length →
      e.active_clients + e.pending.length ≤
        (finalizeSlot c e idx success).active_clients +
          (finalizeSlot c e idx success).pending.length) := by
  simp only [finalizeSlot]
  split
  case isTrue hact => exact ⟨rfl, fun _ => Nat.le_refl _⟩
  case isFalse hact =>
    have hact' : (getSlot e idx).active = true := by simpa using hact
    have hidx' : idx < e.slots.length := by
      by_contra hge
      rw [getSlot_oob e idx (by omega)] at hact'
      cases hact'
    have hpos : 1 ≤ e.active_clients := by
      rw [hcore.2.1]
      exact countActive_pos e.slots idx hidx' (by simpa [getSlot] using hact')
    split
    case isTrue hneeds =>
      refine ⟨rfl, fun _ => ?_⟩
      show e.active_clients + e.pending.length ≤
        (e.active_clients - 1) + (e.pending ++ [idx]).length
      rw [List.length_append]
      simp only [List.length_cons, List.length_nil]
      omega
    case isFalse hneeds =>
      exact ⟨rfl, fun hlt => absurd hlt hneeds⟩

theorem processSlotSample_ov (c : Cfg) (start n : Nat) (e : Engine) (idx : Nat)
    (hlen : e.slots.length = seqCapacity c) (hov : OvState c e) :
    OvState c (processSlotSample c start n e idx) := by
  simp only [processSlotSample]
  split
  case isTrue hg1 => exact hov
  case isFalse hg1 =>
    have hact' : (getSlot e idx).active = true := by
      rcases Bool.eq_false_or_eq_true (getSlot e idx).active with hb | hb
      · exact hb
      · exact absurd (Or.inl (by simp [hb])) hg1
    have hidx' : idx < e.slots.length := by
      by_contra hge
      rw [getSlot_oob e idx (by omega)] at hact'
      cases hact'
    split
    case isTrue hg2 => exact hov
    case isFalse hg2 =>
      split
      case isTrue hst =>
        refine finalizeSlot_ov c _ idx true ?_
          (setSlot_preserve_ov c e idx _ hidx' rfl rfl hov)
        show (e.slots.set idx _).length = seqCapacity c
        rw [List.length_set]
        exact hlen
      case isFalse hst =>
        exact setSlot_preserve_ov c e idx _ hidx' rfl rfl hov

theorem processSlotSample_count (c : Cfg) (start n : Nat) (e : Engine) (idx : Nat)
    (hcore : EngCore c e) (hpend : PendingOK c e) :
    (processSlotSample c start n e idx).next_prompt_idx = e.next_prompt_idx ∧
    (e.next_prompt_idx < c.prompts.length →
      e.active_clients + e.pending.length ≤
        (processSlotSample c start n e idx).active_clients +
          (processSlotSample c start n e idx).pending.length) := by
  simp only [processSlotSample]
  split
  case isTrue hg1 => exact ⟨rfl, fun _ => Nat.le_refl _⟩
  case isFalse hg1 =>
    have hact' : (getSlot e idx).active = true := by
      rcases Bool.eq_false_or_eq_true (getSlot e idx).active with hb | hb
      · exact hb
      · exact absurd (Or.inl (by simp [hb])) hg1
    have hfail' : (getSlot e idx).failed = false := by
      rcases Bool.eq_false_or_eq_true (getSlot e idx).failed with hb | hb
      · exact absurd (Or.inr hb) hg1
      · exact hb
    have hidx' : idx < e.slots.length := by
      by_contra hge
      rw [getSlot_oob e idx (by omega)] at hact'
      cases hact'
    split
    case isTrue hg2 => exact ⟨rfl, fun _ => Nat.le_refl _⟩
    case isFalse hg2 =>
      split
      case isTrue hst =>
        have hsp := setSlot_preserve c e idx
          { getSlot e idx with
            response := (slotAccept c.vocab c.max_tokens
              (c.streams (getSlot e idx).global_index.toNat
                (getSlot e idx).n_decoded)
              ⟨(getSlot e idx).response, (getSlot e idx).n_decoded, false⟩).response
            sampled := c.streams (getSlot e idx).global_index.toNat
              (getSlot e idx).n_decoded
            n_decoded := (slotAccept c.vocab c.max_tokens
              (c.streams (getSlot e idx).global_index.toNat
                (getSlot e idx).n_decoded)
              ⟨(getSlot e idx).response, (getSlot e idx).n_decoded, false⟩).n_decoded
            i_batch := -1 } hcore hpend hidx' ⟨rfl, rfl, rfl⟩
        have hfc := finalizeSlot_count c _ idx true hsp.1
        exact ⟨hfc.1, hfc.2⟩
      case isFalse hst =>
        exact ⟨rfl, fun _ => Nat.le_refl _⟩

theorem foldProcess_ov (c : Cfg) (start n : Nat) :
    ∀ (ws : List Nat) (e : Engine), EngCore c e → PendingOK c e →
      OvState c e → OvState c (ws.foldl (processSlotSample c start n) e) := by
  intro ws
  induction ws with
  | nil => intro e _ _ h; exact h
  | cons w ws ih =>
      intro e h1 h2 hov
      have hp := processSlotSample_inv c start n e w h1 h2
      exact ih _ hp.1 hp.2.1 (processSlotSample_ov c start n e w h1.1 hov)

theorem foldProcess_count (c : Cfg) (start n : Nat) :
    ∀ (ws : List Nat) (e : Engine), EngCore c e → PendingOK c e →
      (ws.foldl (processSlotSample c start n) e).next_prompt_idx =
        e.next_prompt_idx ∧
      (e.next_prompt_idx < c.prompts.length →
        e.active_clients + e.pending.length ≤
          (ws.foldl (processSlotSample c start n) e).active_clients +
            (ws.foldl (processSlotSample c start n) e).pending.length) := by
  intro ws
  induction ws with
  | nil => intro e _ _; exact ⟨rfl, fun _ => Nat.le_refl _⟩
  | cons w ws ih =>
      intro e h1 h2
      have hp := processSlotSample_inv c start n e w h1 h2
      have hc := processSlotSample_count c start n e w h1 h2
      have hr := ih _ hp.1 hp.2.1
      simp only [List.foldl]
      refine ⟨hr.1.trans hc.1, ?_⟩
      intro hlt
      exact le_trans (hc.2 hlt) (hr.2 (by rw [hc.1]; exact hlt))

theorem genChunk_success_core (c : Cfg) (rows : List BatchRow) (bs : List Nat)
    (start n : Nat) (e eb : Engine)
    (hcore : EngCore c e) (hpend : PendingOK c e) (hrows : RowsOK c rows start e)
    (hbslots : eb.slots = e.slots) (hbact : eb.active_clients = e.active_clients)
    (hbpend : eb.pending = e.pending) (hbpfx : eb.prefix_ready = e.prefix_ready)
    (hbfr : eb.final_responses = e.final_responses)
    (hbnext : eb.next_prompt_idx = e.next_prompt_idx)
    (hbmem : ∀ q, eb.mem q ≠ e.mem q → ∃ row ∈ (rows.drop start).take n, row.seq = q) :
    EngCore c (bs.foldl (processSlotSample c start n) eb) ∧
    PendingOK c (bs.foldl (processSlotSample c start n) eb) ∧
    (bs.foldl (processSlotSample c start n) eb).prefix_ready = e.prefix_ready ∧
    (bs.foldl (processSlotSample c start n) eb).final_responses.length =
      e.final_responses.length ∧
    (RespOK e → RespOK (bs.foldl (processSlotSample c start n) eb)) ∧
    RowsOK c rows (start + n) (bs.foldl (processSlotSample c start n) eb) ∧
    (bs.foldl (processSlotSample c start n) eb).next_prompt_idx =
      e.next_prompt_idx ∧
    (e.next_prompt_idx < c.prompts.length →
      e.active_clients + e.pending.length ≤
        (bs.foldl (processSlotSample c start n) eb).active_clients +
          (bs.foldl (processSlotSample c start n) eb).pending.length) ∧
    (OvState c e → OvState c (bs.foldl (processSlotSample c start n) eb)) := by
  have hg : ∀ i, getSlot eb i = getSlot e i := by
    intro i
    simp only [getSlot]
    rw [hbslots]
  have hcoreb : EngCore c eb := by
    refine ⟨hbslots ▸ hcore.1, ?_, ?_, ?_⟩
    · rw [hbact, hbslots]
      exact hcore.2.1
    · intro i hiS hia
      rw [hg i] at hia ⊢
      exact hcore.2.2.1 i hiS hia
    · intro q hq
      by_cases hne : eb.mem q = e.mem q
      · rw [hne] at hq
        rcases hcore.2.2.2 q hq with h0 | ⟨i, hiS, hia, his⟩
        · left
          rw [hbpfx]
          exact h0
        · right
          exact ⟨i, hiS, by rw [hg i]; exact hia, by rw [hg i]; exact his⟩
      · rcases hbmem q hne with ⟨row, hrm, hrq⟩
        rcases window_index rows start n row hrm with ⟨k, hk1, hk2, hkr⟩
        rcases hrows k row hk1 hkr with ⟨i, hiS, hact, hib, hseq⟩
        right
        refine ⟨i, hiS, by rw [hg i]; exact hact, ?_⟩
        rw [hg i, ← hseq]
        exact hrq
  have hpendb : PendingOK c eb := by
    constructor
    · rw [hbpend]
      exact hpend.1
    · intro m hm
      rw [hbpend] at hm
      exact ⟨(hpend.2 m hm).1, by rw [hg m]; exact (hpend.2 m hm).2⟩
  have hf := foldProcess_inv c start n bs eb hcoreb hpendb
  have hfc := foldProcess_count c start n bs eb hcoreb hpendb
  refine ⟨hf.1, hf.2.1, hf.2.2.1.trans hbpfx,
    hf.2.2.2.2.2.trans (by rw [hbfr]), ?_, ?_, hfc.1.trans hbnext, ?_, ?_⟩
  case refine_3 =>
    intro hlt
    have h0 := hfc.2 (by rw [hbnext]; exact hlt)
    have h1 : e.active_clients + e.pending.length =
        eb.active_clients + eb.pending.length := by rw [hbact, hbpend]
    omega
  case refine_4 =>
    intro hov
    refine foldProcess_ov c start n bs eb hcoreb hpendb ⟨?_, ?_⟩
    · intro i hiS hact
      rw [hg i] at hact ⊢
      rw [hbnext]
      exact hov.1 i hiS hact
    · intro g hgt hovg
      rw [hbfr]
      refine hov.2 g ?_ hovg
      rw [hbnext] at hgt
      exact hgt
  · intro hresp
    exact foldProcess_resp c start n bs eb (fun k => by rw [hbfr]; exact hresp k)
  · intro k row hk hkr
    rcases hrows k row (by omega) hkr with ⟨i, hiS, hact, hib, hseq⟩
    have hout : getSlot (bs.foldl (processSlotSample c start n) eb) i = getSlot e i := by
      rw [foldProcess_out c start n bs eb i ?_, hg i]
      right
      rw [hg i, hib]
      push_cast
      omega
    exact ⟨i, hiS, by rw [hout]; exact hact, by rw [hout]; exact hib,
      by rw [hout]; exact hseq⟩

set_option maxHeartbeats 1000000 in
theorem genChunkLoop_inv (c : Cfg) (rows : List BatchRow) (bs : List Nat) :
    ∀ (fuel start cap : Nat) (e : Engine),
      EngCore c e → PendingOK c e → RowsOK c rows start e →
      EngCore c (genChunkLoop c rows bs fuel start cap e).2.1 ∧
      PendingOK c (genChunkLoop c rows bs fuel start cap e).2.1 ∧
      (genChunkLoop c rows bs fuel start cap e).2.1.prefix_ready = e.prefix_ready ∧
      (genChunkLoop c rows bs fuel start cap e).2.1.final_responses.length =
        e.final_responses.length ∧
      (RespOK e → RespOK (genChunkLoop c rows bs fuel start cap e).2.1) ∧
      (genChunkLoop c rows bs fuel start cap e).2.1.next_prompt_idx =
        e.next_prompt_idx ∧
      (e.next_prompt_idx < c.prompts.length →
        e.active_clients + e.pending.length ≤
          (genChunkLoop c rows bs fuel start cap e).2.1.active_clients +
            (genChunkLoop c rows bs fuel start cap e).2.1.pending.length) ∧
      (OvState c e → OvState c (genChunkLoop c rows bs fuel start cap e).2.1) := by
  intro fuel
  induction fuel with
  | zero =>
      intro start cap e h1 h2 _
      exact ⟨h1, h2, rfl, rfl, fun h => h, rfl, fun _ => Nat.le_refl _, fun h => h⟩
  | succ fuel ih =>
      intro start cap e h1 h2 hrows
      have hsucc : ∀ e2 : Engine,
          (EngCore c e2 ∧ PendingOK c e2 ∧ e2.prefix_ready = e.prefix_ready ∧
            e2.final_responses.length = e.final_responses.length ∧
            (RespOK e → RespOK e2) ∧
            RowsOK c rows (start + min (max 1 cap) (rows.length - start)) e2 ∧
            e2.next_prompt_idx = e.next_prompt_idx ∧
            (e.next_prompt_idx < c.prompts.length →
              e.active_clients + e.pending.length ≤
                e2.active_clients + e2.pending.length) ∧
            (OvState c e → OvState c e2)) →
          EngCore c (genChunkLoop c rows bs fuel
            (start + min (max 1 cap) (rows.length - start)) cap e2).2.1 ∧
          PendingOK c (genChunkLoop c rows bs fuel
            (start + min (max 1 cap) (rows.length - start)) cap e2).2.1 ∧
          (genChunkLoop c rows bs fuel
            (start + min (max 1 cap) (rows.length - start)) cap e2).2.1.prefix_ready =
            e.prefix_ready ∧
          (genChunkLoop c rows bs fuel
            (start + min (max 1 cap) (rows.length - start)) cap
              e2).2.1.final_responses.length = e.final_responses.length ∧
          (RespOK e → RespOK (genChunkLoop c rows bs fuel
            (start + min (max 1 cap) (rows.length - start)) cap e2).2.1) ∧
          (genChunkLoop c rows bs fuel
            (start + min (max 1 cap) (rows.length - start)) cap
              e2).2.1.next_prompt_idx = e.next_prompt_idx ∧
          (e.next_prompt_idx < c.prompts.length →
            e.active_clients + e.pending.length ≤
              (genChunkLoop c rows bs fuel
                (start + min (max 1 cap) (rows.length - start)) cap
                  e2).2.1.active_clients +
                (genChunkLoop c rows bs fuel
                  (start + min (max 1 cap) (rows.length - start)) cap
                    e2).2.1.pending.length) ∧
          (OvState c e → OvState c (genChunkLoop c rows bs fuel
            (start + min (max 1 cap) (rows.length - start)) cap e2).2.1) := by
        intro e2 h
        obtain ⟨a1, a2, a3, a4, a5, a6, a7, a8, a9⟩ := h
        have hr := ih (start + min (max 1 cap) (rows.length - start)) cap e2 a1 a2 a6
        refine ⟨hr.1, hr.2.1, hr.2.2.1.trans a3, hr.2.2.2.1.trans a4,
          fun hresp => hr.2.2.2.2.1 (a5 hresp), hr.2.2.2.2.2.1.trans a7, ?_,
          fun hov => hr.2.2.2.2.2.2.2 (a9 hov)⟩
        intro hlt
        refine le_trans (a8 hlt) (hr.2.2.2.2.2.2.1 ?_)
        rw [a7]
        exact hlt
      simp only [genChunkLoop]
      split
      case isFalse =>
        exact ⟨h1, h2, rfl, rfl, fun h => h, rfl, fun _ => Nat.le_refl _,
          fun h => h⟩
      case isTrue hlt =>
        split
        case isTrue hret =>
          exact hsucc _ (genChunk_success_core c rows bs start _ e _ h1 h2 hrows
            rfl rfl rfl rfl rfl rfl (fun q hq => foldl_memAdd_ne _ _ q hq))
        case isFalse hret =>
          split
          case isTrue hretry =>
            exact ih start (max 1 (cap / 2)) _ h1 h2 hrows
          case isFalse hretry =>
            exact ⟨h1, h2, rfl, rfl, fun h => h, rfl, fun _ => Nat.le_refl _,
              fun h => h⟩

/-! ## Batch assembly (towards C4) -/

/-- Invariant of the assembly scan: every accumulated batch row belongs to an
already-visited active slot that records the row's position in `i_batch`. -/
def AsmInv (c : Cfg) (i : Nat) (e : Engine) (rows : List BatchRow) : Prop :=
  ∀ (k : Nat) (row : BatchRow), rows[k]? = some row →
    ∃ o, o < i ∧ o < seqCapacity c ∧ (getSlot e o).active = true ∧
      (getSlot e o).i_batch = (k : Int) ∧ row.seq = (getSlot e o).seq_id

set_option maxHeartbeats 1000000 in
theorem assembleAux_inv (c : Cfg) :
    ∀ (k i : Nat) (e : Engine) (rows : List BatchRow) (bs : List Nat),
      EngCore c e → PendingOK c e → AsmInv c i e rows →
      EngCore c (assembleAux c k i e rows bs).1 ∧
      PendingOK c (assembleAux c k i e rows bs).1 ∧
      (assembleAux c k i e rows bs).1.pending = e.pending ∧
      (assembleAux c k i e rows bs).1.prefix_ready = e.prefix_ready ∧
      (assembleAux c k i e rows bs).1.mem = e.mem ∧
      (assembleAux c k i e rows bs).1.final_responses = e.final_responses ∧
      (assembleAux c k i e rows bs).1.active_clients = e.active_clients ∧
      (∀ j, (getSlot (assembleAux c k i e rows bs).1 j).active = (getSlot e j).active ∧
        (getSlot (assembleAux c k i e rows bs).1 j).failed = (getSlot e j).failed ∧
        (getSlot (assembleAux c k i e rows bs).1 j).seq_id = (getSlot e j).seq_id ∧
        (getSlot (assembleAux c k i e rows bs).1 j).global_index =
          (getSlot e j).global_index) ∧
      AsmInv c (i + k) (assembleAux c k i e rows bs).1
        (assembleAux c k i e rows bs).2.1 ∧
      (∃ ext, (assembleAux c k i e rows bs).2.1 = rows ++ ext ∧
        (ext = [] → ∀ j, i ≤ j → j < i + k →
          ¬((getSlot e j).active = true ∧ (getSlot e j).failed = false))) ∧
      (assembleAux c k i e rows bs).1.next_prompt_idx = e.next_prompt_idx := by
  intro k
  induction k with
  | zero =>
      intro i e rows bs hcore hpend hasm
      refine ⟨hcore, hpend, rfl, rfl, rfl, rfl, rfl,
        fun j => ⟨rfl, rfl, rfl, rfl⟩,
        hasm, ⟨[], (List.append_nil rows).symm, ?_⟩, rfl⟩
      intro _ j hj1 hj2
      omega
  | succ k ih =>
      intro i e rows bs hcore hpend hasm
      have hasm' : AsmInv c (i + 1) e rows := by
        intro k0 row0 hk0
        rcases hasm k0 row0 hk0 with ⟨o, ho1, ho2, ho3, ho4, ho5⟩
        exact ⟨o, by omega, ho2, ho3, ho4, ho5⟩
      have hstep : ∀ (e1 : Engine) (rows1 : List BatchRow) (bs1 : List Nat),
          EngCore c e1 → PendingOK c e1 → AsmInv c (i + 1) e1 rows1 →
          e1.pending = e.pending → e1.prefix_ready = e.prefix_ready →
          e1.mem = e.mem → e1.final_responses = e.final_responses →
          e1.active_clients = e.active_clients →
          (∀ j, (getSlot e1 j).active = (getSlot e j).active ∧
            (getSlot e1 j).failed = (getSlot e j).failed ∧
            (getSlot e1 j).seq_id = (getSlot e j).seq_id ∧
            (getSlot e1 j).global_index = (getSlot e j).global_index) →
          e1.next_prompt_idx = e.next_prompt_idx →
          (∃ ext1, rows1 = rows ++ ext1 ∧ (ext1 = [] → ∀ j, i ≤ j → j < i + 1 →
            ¬((getSlot e j).active = true ∧ (getSlot e j).failed = false))) →
          EngCore c (assembleAux c k (i + 1) e1 rows1 bs1).1 ∧
          PendingOK c (assembleAux c k (i + 1) e1 rows1 bs1).1 ∧
          (assembleAux c k (i + 1) e1 rows1 bs1).1.pending = e.pending ∧
          (assembleAux c k (i + 1) e1 rows1 bs1).1.prefix_ready = e.prefix_ready ∧
          (assembleAux c k (i + 1) e1 rows1 bs1).1.mem = e.mem ∧
          (assembleAux c k (i + 1) e1 rows1 bs1).1.final_responses =
            e.final_responses ∧
          (assembleAux c k (i + 1) e1 rows1 bs1).1.active_clients =
            e.active_clients ∧
          (∀ j, (getSlot (assembleAux c k (i + 1) e1 rows1 bs1).1 j).active =
              (getSlot e j).active ∧
            (getSlot (assembleAux c k (i + 1) e1 rows1 bs1).1 j).failed =
              (getSlot e j).failed ∧
            (getSlot (assembleAux c k (i + 1) e1 rows1 bs1).1 j).seq_id =
              (getSlot e j).seq_id ∧
            (getSlot (assembleAux c k (i + 1) e1 rows1 bs1).1 j).global_index =
              (getSlot e j).global_index) ∧
          AsmInv c (i + (k + 1)) (assembleAux c k (i + 1) e1 rows1 bs1).1
            (assembleAux c k (i + 1) e1 rows1 bs1).2.1 ∧
          (∃ ext, (assembleAux c k (i + 1) e1 rows1 bs1).2.1 = rows ++ ext ∧
            (ext = [] → ∀ j, i ≤ j → j < i + (k + 1) →
              ¬((getSlot e j).active = true ∧ (getSlot e j).failed = false))) ∧
          (assembleAux c k (i + 1) e1 rows1 bs1).1.next_prompt_idx =
            e.next_prompt_idx := by
        intro e1 rows1 bs1 b1 b2 b3 r1 r2 r3 r4 r5 r6 r7 x
        have hr := ih (i + 1) e1 rows1 bs1 b1 b2 b3
        have heq : i + 1 + k = i + (k + 1) := by omega
        refine ⟨hr.1, hr.2.1, hr.2.2.1.trans r1, hr.2.2.2.1.trans r2,
          hr.2.2.2.2.1.trans r3, hr.2.2.2.2.2.1.trans r4,
          hr.2.2.2.2.2.2.1.trans r5, ?_, heq ▸ hr.2.2.2.2.2.2.2.2.1, ?_,
          hr.2.2.2.2.2.2.2.2.2.2.trans r7⟩
        · intro j
          exact ⟨(hr.2.2.2.2.2.2.2.1 j).1.trans (r6 j).1,
            (hr.2.2.2.2.2.2.2.1 j).2.1.trans (r6 j).2.1,
            (hr.2.2.2.2.2.2.2.1 j).2.2.1.trans (r6 j).2.2.1,
            (hr.2.2.2.2.2.2.2.1 j).2.2.2.trans (r6 j).2.2.2⟩
        · obtain ⟨ext1, hx1, hx2⟩ := x
          obtain ⟨ext2, hy1, hy2⟩ := hr.2.2.2.2.2.2.2.2.2.1
          refine ⟨ext1 ++ ext2, by rw [hy1, hx1, List.append_assoc], ?_⟩
          intro hz j hj1 hj2
          have hz1 : ext1 = [] := by
            cases hx : ext1
            · rfl
            · rw [hx] at hz
              cases hz
          have hz2 : ext2 = [] := by
            rw [hz1] at hz
            simpa using hz
          by_cases hji : j < i + 1
          · exact hx2 hz1 j hj1 hji
          · have hne := hy2 hz2 j (by omega) (by omega)
            intro hc
            exact hne ⟨(r6 j).1.symm ▸ hc.1, (r6 j).2.1.symm ▸ hc.2⟩
      simp only [assembleAux]
      split
      case isTrue hguard =>
        have hidx' : i < e.slots.length := by
          by_contra hge
          rw [getSlot_oob e i (by omega)] at hguard
          exact absurd hguard.1 (by decide)
        have hiS : i < seqCapacity c := by rw [← hcore.1]; exact hidx'
        apply hstep
        · exact (setSlot_preserve c e i _ hcore hpend hidx'
            ⟨by split <;> rfl, by split <;> rfl, by split <;> rfl⟩).1
        · exact (setSlot_preserve c e i _ hcore hpend hidx'
            ⟨by split <;> rfl, by split <;> rfl, by split <;> rfl⟩).2
        · intro k0 row0 hk0
          by_cases hkL : k0 < rows.length
          · rw [List.getElem?_append, if_pos hkL] at hk0
            rcases hasm k0 row0 hk0 with ⟨o, ho1, ho2, ho3, ho4, ho5⟩
            refine ⟨o, by omega, ho2, ?_, ?_, ?_⟩ <;>
              rw [getSlot_set_other e i o _ (by omega : o ≠ i)]
            · exact ho3
            · exact ho4
            · exact ho5
          · rw [List.getElem?_append, if_neg (by omega)] at hk0
            have hk0' : k0 = rows.length := by
              by_contra hne
              have : 1 ≤ k0 - rows.length := by omega
              rw [List.getElem?_eq_none (by simpa using this)] at hk0
              cases hk0
            subst hk0'
            simp only [Nat.sub_self, List.getElem?_cons_zero] at hk0
            refine ⟨i, by omega, hiS, ?_, ?_, ?_⟩ <;>
              rw [getSlot_set_same e i _ hidx']
            · show (if (getSlot e i).n_decoded = 0 ∧ (getSlot e i).full_tokens ≠ []
                  then { getSlot e i with
                         sampled := (getSlot e i).full_tokens.getLastD 0 }
                  else getSlot e i).active = true
              split
              · exact hguard.1
              · exact hguard.1
            · obtain rfl := Option.some.inj hk0
              rfl
        · rfl
        · rfl
        · rfl
        · rfl
        · rfl
        · intro j
          by_cases hji : j = i
          · subst hji
            rw [getSlot_set_same e j _ hidx']
            exact ⟨by split <;> rfl, by split <;> rfl, by split <;> rfl,
              by split <;> rfl⟩
          · rw [getSlot_set_other e i j _ hji]
            exact ⟨rfl, rfl, rfl, rfl⟩
        · rfl
        · exact ⟨[_], rfl, fun habs => absurd habs (List.cons_ne_nil _ _)⟩
      case isFalse hguard =>
        apply hstep e rows bs hcore hpend hasm' rfl rfl rfl rfl rfl
          (fun j => ⟨rfl, rfl, rfl, rfl⟩) rfl
        refine ⟨[], (List.append_nil rows).symm, ?_⟩
        intro _ j hj1 hj2
        have hji : j = i := by omega
        subst hji
        intro hc
        exact hguard ⟨hc.1, by simp [hc.2]⟩

/-! ## The deferred-reassignment pass and the main loop (towards C4/C5) -/

theorem foldAssign_inv (c : Cfg) :
    ∀ (P : List Nat) (e : Engine), P.Nodup → EngCore c e → PendingSetOK c e P →
      e.final_responses.length = c.prompts.length →
      EngCore c (P.foldl (fun acc idx => (assignNextPrompt c acc idx).2) e) ∧
      (P.foldl (fun acc idx => (assignNextPrompt c acc idx).2) e).pending =
        e.pending ∧
      (P.foldl (fun acc idx => (assignNextPrompt c acc idx).2) e).prefix_ready =
        e.prefix_ready ∧
      (P.foldl (fun acc idx =>
        (assignNextPrompt c acc idx).2) e).final_responses.length =
        e.final_responses.length ∧
      (RespOK e →
        RespOK (P.foldl (fun acc idx => (assignNextPrompt c acc idx).2) e)) ∧
      e.next_prompt_idx ≤
        (P.foldl (fun acc idx =>
          (assignNextPrompt c acc idx).2) e).next_prompt_idx ∧
      e.active_clients ≤
        (P.foldl (fun acc idx =>
          (assignNextPrompt c acc idx).2) e).active_clients ∧
      (OvState c e →
        OvState c (P.foldl (fun acc idx => (assignNextPrompt c acc idx).2) e)) ∧
      (P ≠ [] →
        0 < (P.foldl (fun acc idx =>
          (assignNextPrompt c acc idx).2) e).active_clients ∨
        c.prompts.length ≤
          (P.foldl (fun acc idx =>
            (assignNextPrompt c acc idx).2) e).next_prompt_idx) := by
  intro P
  induction P with
  | nil =>
      intro e _ h1 _ _
      exact ⟨h1, rfl, rfl, rfl, fun h => h, Nat.le_refl _, Nat.le_refl _,
        fun h => h, fun habs => absurd rfl habs⟩
  | cons p P ih =>
      intro e hnd h1 hP hflen
      have hpS : p < seqCapacity c := (hP p (List.mem_cons_self p P)).1
      have hin : (getSlot e p).active = false := (hP p (List.mem_cons_self p P)).2
      have hpP : p ∉ P := (List.nodup_cons.mp hnd).1
      have ha := assignNextPrompt_inv c e p P h1
        (fun m hm => hP m (List.mem_cons_of_mem p hm)) hpS hin hpP hflen
      have hr := ih _ (List.nodup_cons.mp hnd).2 ha.1 ha.2.1
        (ha.2.2.2.2.2.1.trans hflen)
      have hlenp : p < e.slots.length := by rw [h1.1]; exact hpS
      simp only [List.foldl]
      refine ⟨hr.1, hr.2.1.trans ha.2.2.1, hr.2.2.1.trans ha.2.2.2.1,
        hr.2.2.2.1.trans ha.2.2.2.2.2.1,
        fun hresp => hr.2.2.2.2.1 (ha.2.2.2.2.2.2.1 hresp),
        le_trans ha.2.2.2.2.2.2.2.1 hr.2.2.2.2.2.1,
        le_trans ha.2.2.2.2.2.2.2.2.1 hr.2.2.2.2.2.2.1,
        fun hov => hr.2.2.2.2.2.2.2.1 (ha.2.2.2.2.2.2.2.2.2 hov), ?_⟩
      intro _
      rcases Bool.eq_false_or_eq_true (assignNextPrompt c e p).1 with hb | hb
      · left
        have hactp := (assignNextPrompt_flags c e p hlenp).1 hb
        have hpos : 0 < (assignNextPrompt c e p).2.active_clients := by
          rw [ha.1.2.1]
          exact countActive_pos _ p (by rw [ha.1.1]; exact hpS) hactp
        exact lt_of_lt_of_le hpos hr.2.2.2.2.2.2.1
      · right
        have hnext := (assignNextPrompt_flags c e p hlenp).2 hb
        exact le_trans hnext hr.2.2.2.2.2.1

theorem processPending_inv (c : Cfg) (e : Engine)
    (hcore : EngCore c e) (hpend : PendingOK c e)
    (hflen : e.final_responses.length = c.prompts.length) :
    EngCore c (processPending c e) ∧ (processPending c e).pending = [] ∧
    (processPending c e).prefix_ready = e.prefix_ready ∧
    (processPending c e).final_responses.length = e.final_responses.length ∧
    (RespOK e → RespOK (processPending c e)) ∧
    e.next_prompt_idx ≤ (processPending c e).next_prompt_idx ∧
    e.active_clients ≤ (processPending c e).active_clients ∧
    (OvState c e → OvState c (processPending c e)) ∧
    (e.pending ≠ [] →
      0 < (processPending c e).active_clients ∨
      c.prompts.length ≤ (processPending c e).next_prompt_idx) := by
  have h := foldAssign_inv c e.pending e hpend.1 hcore hpend.2 hflen
  exact ⟨h.1, rfl, h.2.2.1, h.2.2.2.1, h.2.2.2.2.1, h.2.2.2.2.2.1,
    h.2.2.2.2.2.2.1, h.2.2.2.2.2.2.2.1, h.2.2.2.2.2.2.2.2⟩

theorem countActive_all_inactive (l : List Slot)
    (h : ∀ i, i < l.length → (l.getD i {}).active = false) :
    countActive l = 0 := by
  unfold countActive
  have hnil : l.filter (fun s => s.active) = [] := by
    apply List.filter_eq_nil.mpr
    intro x hx
    obtain ⟨⟨i, hi⟩, rfl⟩ := List.mem_iff_get.mp hx
    have hg : l.getD i {} = l.get ⟨i, hi⟩ := by
      simp [List.getD, List.getElem?_eq_getElem hi]
    have hia := h i hi
    rw [hg] at hia
    intro hcon
    have hcon' : (l.get ⟨i, hi⟩).active = true := by simpa using hcon
    rw [hia] at hcon'
    cases hcon'
  rw [hnil]
  rfl

set_option maxHeartbeats 1000000 in
theorem mainIter_inv (c : Cfg) (e : Engine)
    (hcore : EngCore c e) (hpend : e.pending = [])
    (hflen : e.final_responses.length = c.prompts.length) :
    EngCore c (mainIter c e).1 ∧ (mainIter c e).1.pending = [] ∧
    (mainIter c e).1.prefix_ready = e.prefix_ready ∧
    (mainIter c e).1.final_responses.length = e.final_responses.length ∧
    (RespOK e → RespOK (mainIter c e).1) ∧
    ((mainIter c e).2 = LoopExit.brk →
      ∀ i, i < seqCapacity c → (getSlot (mainIter c e).1 i).active = false) ∧
    (OvState c e → OvState c (mainIter c e).1) ∧
    (0 < (mainIter c e).1.active_clients ∨
      c.prompts.length ≤ (mainIter c e).1.next_prompt_idx) := by
  have h1 := ensureSlotsFilled_inv c e hcore hpend hflen
  have hpok1 : PendingOK c (ensureSlotsFilled c e) := by
    constructor
    · rw [h1.2.1]
      exact List.nodup_nil
    · intro m hm
      rw [h1.2.1] at hm
      exact absurd hm (List.not_mem_nil m)
  have h2 := assembleAux_inv c (seqCapacity c) 0 (ensureSlotsFilled c e) [] []
    h1.1 hpok1 (fun k row hk => by simp at hk)
  have hpok2 :
      PendingOK c
        (assembleAux c (seqCapacity c) 0 (ensureSlotsFilled c e) [] []).1 :=
    h2.2.1
  have hresp2 : RespOK e →
      RespOK (assembleAux c (seqCapacity c) 0 (ensureSlotsFilled c e) [] []).1 := by
    intro hresp k
    rw [h2.2.2.2.2.2.1]
    exact h1.2.2.2.2.1 hresp k
  have hov2 : OvState c (ensureSlotsFilled c e) →
      OvState c (assembleAux c (seqCapacity c) 0 (ensureSlotsFilled c e) [] []).1 := by
    intro hov
    constructor
    · intro i hiS hact
      rw [(h2.2.2.2.2.2.2.2.1 i).1] at hact
      rw [(h2.2.2.2.2.2.2.2.1 i).2.2.2, h2.2.2.2.2.2.2.2.2.2.2]
      exact hov.1 i hiS hact
    · intro g hgt hovg
      rw [h2.2.2.2.2.2.1]
      refine hov.2 g ?_ hovg
      rw [h2.2.2.2.2.2.2.2.2.2.2] at hgt
      exact hgt
  simp only [mainIter, assembleBatch]
  split
  case isTrue hrows =>
    refine ⟨h2.1, h2.2.2.1.trans h1.2.1, h2.2.2.2.1.trans h1.2.2.1,
      (congrArg List.length h2.2.2.2.2.2.1).trans h1.2.2.2.1, hresp2, ?_,
      fun hov => hov2 (h1.2.2.2.2.2.2.2.1 hov), ?_⟩
    case refine_2 =>
      rcases h1.2.2.2.2.2.2.2.2 with hc | hn
      · left
        rw [h2.2.2.2.2.2.2.1]
        exact hc
      · right
        rw [h2.2.2.2.2.2.2.2.2.2.2]
        exact Nat.not_lt.mp hn
    intro _ i hiS
    obtain ⟨ext, hx1, hx2⟩ := h2.2.2.2.2.2.2.2.2.2.1
    have hext : ext = [] := by
      have hlen : ext.length = 0 := by
        have := congrArg List.length hx1
        simp at this
        omega
      exact List.eq_nil_of_length_eq_zero hlen
    have hno := hx2 hext
    rcases Bool.eq_false_or_eq_true
      (getSlot (assembleAux c (seqCapacity c) 0
        (ensureSlotsFilled c e) [] []).1 i).active with hb | hb
    · exfalso
      have hb1 : (getSlot (ensureSlotsFilled c e) i).active = true :=
        ((h2.2.2.2.2.2.2.2.1 i).1).symm.trans hb
      have hfail : (getSlot (ensureSlotsFilled c e) i).failed = false :=
        (h1.1.2.2.1 i hiS hb1).1
      exact (hno i (by omega) (by omega)) ⟨hb1, hfail⟩
    · exact hb
  case isFalse hrows =>
    have hrows0 : RowsOK c
        (assembleAux c (seqCapacity c) 0 (ensureSlotsFilled c e) [] []).2.1 0
        (assembleAux c (seqCapacity c) 0 (ensureSlotsFilled c e) [] []).1 := by
      intro k row _ hk
      rcases h2.2.2.2.2.2.2.2.2.1 k row hk with ⟨o, _, ho2, ho3, ho4, ho5⟩
      exact ⟨o, ho2, ho3, ho4, ho5⟩
    have hg := genChunkLoop_inv c
      (assembleAux c (seqCapacity c) 0 (ensureSlotsFilled c e) [] []).2.1
      (assembleAux c (seqCapacity c) 0 (ensureSlotsFilled c e) [] []).2.2
      ((assembleAux c (seqCapacity c) 0
        (ensureSlotsFilled c e) [] []).2.1.length + batchCapInit c + 1)
      0 (batchCapInit c)
      (assembleAux c (seqCapacity c) 0 (ensureSlotsFilled c e) [] []).1
      h2.1 hpok2 hrows0
    have hp := processPending_inv c _ hg.1 hg.2.1
      (hg.2.2.2.1.trans ((h2.2.2.2.2.2.1 ▸ (h1.2.2.2.1.trans hflen) :
        (assembleAux c (seqCapacity c) 0 (ensureSlotsFilled c e) [] []).1.final_responses.length =
          c.prompts.length)))
    have hcommon :
        EngCore c (processPending c (genChunkLoop c
          (assembleAux c (seqCapacity c) 0 (ensureSlotsFilled c e) [] []).2.1
          (assembleAux c (seqCapacity c) 0 (ensureSlotsFilled c e) [] []).2.2
          ((assembleAux c (seqCapacity c) 0
            (ensureSlotsFilled c e) [] []).2.1.length + batchCapInit c + 1)
          0 (batchCapInit c)
          (assembleAux c (seqCapacity c) 0
            (ensureSlotsFilled c e) [] []).1).2.1) ∧
        (processPending c (genChunkLoop c
          (assembleAux c (seqCapacity c) 0 (ensureSlotsFilled c e) [] []).2.1
          (assembleAux c (seqCapacity c) 0 (ensureSlotsFilled c e) [] []).2.2
          ((assembleAux c (seqCapacity c) 0
            (ensureSlotsFilled c e) [] []).2.1.length + batchCapInit c + 1)
          0 (batchCapInit c)
          (assembleAux c (seqCapacity c) 0
            (ensureSlotsFilled c e) [] []).1).2.1).pending = [] ∧
        (processPending c (genChunkLoop c
          (assembleAux c (seqCapacity c) 0 (ensureSlotsFilled c e) [] []).2.1
          (assembleAux c (seqCapacity c) 0 (ensureSlotsFilled c e) [] []).2.2
          ((assembleAux c (seqCapacity c) 0
            (ensureSlotsFilled c e) [] []).2.1.length + batchCapInit c + 1)
          0 (batchCapInit c)
          (assembleAux c (seqCapacity c) 0
            (ensureSlotsFilled c e) [] []).1).2.1).prefix_ready =
          e.prefix_ready ∧
        (processPending c (genChunkLoop c
          (assembleAux c (seqCapacity c) 0 (ensureSlotsFilled c e) [] []).2.1
          (assembleAux c (seqCapacity c) 0 (ensureSlotsFilled c e) [] []).2.2
          ((assembleAux c (seqCapacity c) 0
            (ensureSlotsFilled c e) [] []).2.1.length + batchCapInit c + 1)
          0 (batchCapInit c)
          (assembleAux c (seqCapacity c) 0
            (ensureSlotsFilled c e) [] []).1).2.1).final_responses.length =
          e.final_responses.length ∧
        (RespOK e → RespOK (processPending c (genChunkLoop c
          (assembleAux c (seqCapacity c) 0 (ensureSlotsFilled c e) [] []).2.1
          (assembleAux c (seqCapacity c) 0 (ensureSlotsFilled c e) [] []).2.2
          ((assembleAux c (seqCapacity c) 0
            (ensureSlotsFilled c e) [] []).2.1.length + batchCapInit c + 1)
          0 (batchCapInit c)
          (assembleAux c (seqCapacity c) 0
            (ensureSlotsFilled c e) [] []).1).2.1)) ∧
        (OvState c e → OvState c (processPending c (genChunkLoop c
          (assembleAux c (seqCapacity c) 0 (ensureSlotsFilled c e) [] []).2.1
          (assembleAux c (seqCapacity c) 0 (ensureSlotsFilled c e) [] []).2.2
          ((assembleAux c (seqCapacity c) 0
            (ensureSlotsFilled c e) [] []).2.1.length + batchCapInit c + 1)
          0 (batchCapInit c)
          (assembleAux c (seqCapacity c) 0
            (ensureSlotsFilled c e) [] []).1).2.1)) ∧
        (0 < (processPending c (genChunkLoop c
          (assembleAux c (seqCapacity c) 0 (ensureSlotsFilled c e) [] []).2.1
          (assembleAux c (seqCapacity c) 0 (ensureSlotsFilled c e) [] []).2.2
          ((assembleAux c (seqCapacity c) 0
            (ensureSlotsFilled c e) [] []).2.1.length + batchCapInit c + 1)
          0 (batchCapInit c)
          (assembleAux c (seqCapacity c) 0
            (ensureSlotsFilled c e) [] []).1).2.1).active_clients ∨
          c.prompts.length ≤ (processPending c (genChunkLoop c
          (assembleAux c (seqCapacity c) 0 (ensureSlotsFilled c e) [] []).2.1
          (assembleAux c (seqCapacity c) 0 (ensureSlotsFilled c e) [] []).2.2
          ((assembleAux c (seqCapacity c) 0
            (ensureSlotsFilled c e) [] []).2.1.length + batchCapInit c + 1)
          0 (batchCapInit c)
          (assembleAux c (seqCapacity c) 0
            (ensureSlotsFilled c e) [] []).1).2.1).next_prompt_idx) := by
      refine ⟨hp.1, hp.2.1,
        hp.2.2.1.trans (hg.2.2.1.trans (h2.2.2.2.1.trans h1.2.2.1)),
        hp.2.2.2.1.trans (hg.2.2.2.1.trans
          ((congrArg List.length h2.2.2.2.2.2.1).trans h1.2.2.2.1)), ?_, ?_, ?_⟩
      case refine_2 =>
        intro hov
        exact hp.2.2.2.2.2.2.2.1
          (hg.2.2.2.2.2.2.2 (hov2 (h1.2.2.2.2.2.2.2.1 hov)))
      case refine_3 =>
        rcases h1.2.2.2.2.2.2.2.2 with hc | hn
        · by_cases hlt : (assembleAux c (seqCapacity c) 0
              (ensureSlotsFilled c e) [] []).1.next_prompt_idx <
              c.prompts.length
          · have hpl0 : (assembleAux c (seqCapacity c) 0
                (ensureSlotsFilled c e) [] []).1.pending.length = 0 := by
              rw [h2.2.2.1.trans h1.2.1]
              rfl
            have hineq := hg.2.2.2.2.2.2.1 hlt
            have hcA : 0 < (assembleAux c (seqCapacity c) 0
                (ensureSlotsFilled c e) [] []).1.active_clients := by
              rw [h2.2.2.2.2.2.2.1]
              exact hc
            by_cases hgp : (genChunkLoop c
          (assembleAux c (seqCapacity c) 0 (ensureSlotsFilled c e) [] []).2.1
          (assembleAux c (seqCapacity c) 0 (ensureSlotsFilled c e) [] []).2.2
          ((assembleAux c (seqCapacity c) 0
            (ensureSlotsFilled c e) [] []).2.1.length + batchCapInit c + 1)
          0 (batchCapInit c)
          (assembleAux c (seqCapacity c) 0
            (ensureSlotsFilled c e) [] []).1).2.1.pending = []
            · left
              have hgp0 : (genChunkLoop c
          (assembleAux c (seqCapacity c) 0 (ensureSlotsFilled c e) [] []).2.1
          (assembleAux c (seqCapacity c) 0 (ensureSlotsFilled c e) [] []).2.2
          ((assembleAux c (seqCapacity c) 0
            (ensureSlotsFilled c e) [] []).2.1.length + batchCapInit c + 1)
          0 (batchCapInit c)
          (assembleAux c (seqCapacity c) 0
            (ensureSlotsFilled c e) [] []).1).2.1.pending.length = 0 := by
                rw [hgp]
                rfl
              refine lt_of_lt_of_le ?_ hp.2.2.2.2.2.2.1
              omega
            · exact hp.2.2.2.2.2.2.2.2 hgp
          · right
            refine le_trans ?_ hp.2.2.2.2.2.1
            rw [hg.2.2.2.2.2.1]
            exact Nat.not_lt.mp hlt
        · right
          refine le_trans ?_ hp.2.2.2.2.2.1
          rw [hg.2.2.2.2.2.1, h2.2.2.2.2.2.2.2.2.2.2]
          exact Nat.not_lt.mp hn
      intro hresp
      exact hp.2.2.2.2.1 (hg.2.2.2.2.1 (hresp2 hresp))
    split
    · refine ⟨hcommon.1, hcommon.2.1, hcommon.2.2.1, hcommon.2.2.2.1,
        hcommon.2.2.2.2.1, ?_, hcommon.2.2.2.2.2.1, hcommon.2.2.2.2.2.2⟩
      intro habs
      cases habs
    · refine ⟨hcommon.1, hcommon.2.1, hcommon.2.2.1, hcommon.2.2.2.1,
        hcommon.2.2.2.2.1, ?_, hcommon.2.2.2.2.2.1, hcommon.2.2.2.2.2.2⟩
      intro habs
      cases habs

theorem mainLoop_inv (c : Cfg) :
    ∀ (fuel : Nat) (e : Engine), EngCore c e → e.pending = [] →
      e.final_responses.length = c.prompts.length →
      (0 < e.active_clients ∨ c.prompts.length ≤ e.next_prompt_idx) →
      ∀ (e3 : Engine) (fatal : Bool), mainLoop c fuel e = some (e3, fatal) →
      EngCore c e3 ∧ e3.final_responses.length = e.final_responses.length ∧
      (RespOK e → RespOK e3) ∧
      (fatal = false → ∀ i, i < seqCapacity c → (getSlot e3 i).active = false) ∧
      (OvState c e → OvState c e3) ∧
      (fatal = false → c.prompts.length ≤ e3.next_prompt_idx) := by
  intro fuel
  induction fuel with
  | zero => intro e _ _ _ _ e3 fatal h; cases h
  | succ fuel ih =>
      intro e hcore hpend hflen hnd e3 fatal h
      simp only [mainLoop] at h
      split at h
      case isFalse hact =>
        cases h
        refine ⟨hcore, rfl, fun h => h, ?_, fun hov => hov, ?_⟩
        case refine_2 =>
          intro _
          rcases hnd with hc | hn
          · exact absurd hc hact
          · exact hn
        intro _ i hiS
        have hall := countActive_zero e.slots (by
          have := hcore.2.1
          omega)
        by_cases hi' : i < e.slots.length
        · have hmem : e.slots.getD i {} ∈ e.slots := by
            have hgg : e.slots.getD i {} = e.slots.get ⟨i, hi'⟩ := by
              simp [List.getD, List.getElem?_eq_getElem hi']
            rw [hgg]
            exact List.get_mem e.slots i hi'
          exact hall _ hmem
        · rw [getSlot_oob e i (by omega)]
      case isTrue hact =>
        have hm := mainIter_inv c e hcore hpend hflen
        rcases hexit : (mainIter c e).2 with _ | _ | _ <;> rw [hexit] at h
        · have hr := ih (mainIter c e).1 hm.1 hm.2.1 (hm.2.2.2.1.trans hflen)
            hm.2.2.2.2.2.2.2 e3 fatal h
          exact ⟨hr.1, hr.2.1.trans hm.2.2.2.1,
            fun hresp => hr.2.2.1 (hm.2.2.2.2.1 hresp), hr.2.2.2.1,
            fun hov => hr.2.2.2.2.1 (hm.2.2.2.2.2.2.1 hov), hr.2.2.2.2.2⟩
        · cases h
          refine ⟨hm.1, hm.2.2.2.1, hm.2.2.2.2.1, fun _ => hm.2.2.2.2.2.1 hexit,
            hm.2.2.2.2.2.2.1, ?_⟩
          intro _
          have hcount0 : (mainIter c e).1.active_clients = 0 := by
            rw [hm.1.2.1]
            apply countActive_all_inactive
            intro i hi
            exact hm.2.2.2.2.2.1 hexit i (by rw [← hm.1.1]; exact hi)
          rcases hm.2.2.2.2.2.2.2 with hc | hn
          · rw [hcount0] at hc
            exact absurd hc (by omega)
          · exact hn
        · cases h
          refine ⟨hm.1, hm.2.2.2.1, hm.2.2.2.2.1, ?_, hm.2.2.2.2.2.2.1, ?_⟩
          · intro habs
            cases habs
          · intro habs
            cases habs

/-! ## Top-level postconditions of `localllm_generate_parallel` (C4/C5) -/

theorem getD_replicate {α : Type} (n i : Nat) (a d : α) :
    (List.replicate n a).getD i d = if i < n then a else d := by
  rw [List.getD, List.get?_eq_getElem?, List.getElem?_replicate]
  by_cases h : i < n
  · rw [if_pos h, if_pos h]
    rfl
  · rw [if_neg h, if_neg h]
    rfl

theorem initEngine_slot_fact (c : Cfg) (e : Engine)
    (hsl : e.slots = List.replicate (seqCapacity c) ({} : Slot)) :
    ∀ i, getSlot e i = ({} : Slot) := by
  intro i
  simp only [getSlot, hsl]
  rw [getD_replicate]
  split <;> rfl

set_option maxHeartbeats 1000000 in
theorem parallel_ov_post (c : Cfg) (fuel : Nat) (mem0 : Nat → Nat)
    (m : Nat → Nat) (out : List Str)
    (h : localllm_generate_parallel c fuel mem0 = some (m, Except.ok out)) :
    ∀ g, g < c.prompts.length →
      ((c.prompts.getD g []).length : Int) > (c.n_ctx : Int) - 64 →
      out.getD g [] = ovSentinel := by
  intro g hg hovg
  simp only [localllm_generate_parallel] at h
  rw [if_neg (by omega : ¬c.prompts.length = 0)] at h
  obtain ⟨e1, hE1eq⟩ : ∃ x : Engine,
      (if 0 < computeSharedLen c.prompts then
        if (submitChunks c.dec (computeSharedLen c.prompts + batchCapInit c + 1)
            (computeSharedLen c.prompts) 0 (batchCapInit c) 0 0).ok = true then
          { mem := memAdd memClear 0 (submitChunks c.dec
              (computeSharedLen c.prompts + batchCapInit c + 1)
              (computeSharedLen c.prompts) 0 (batchCapInit c) 0 0).progress
            final_responses := List.replicate c.prompts.length []
            slots := List.replicate (seqCapacity c) {}
            next_prompt_idx := 0
            active_clients := 0
            pending := []
            calls := (submitChunks c.dec
              (computeSharedLen c.prompts + batchCapInit c + 1)
              (computeSharedLen c.prompts) 0 (batchCapInit c) 0 0).calls
            miss := (submitChunks c.dec
              (computeSharedLen c.prompts + batchCapInit c + 1)
              (computeSharedLen c.prompts) 0 (batchCapInit c) 0 0).miss
            n_total_prompt := 0
            n_total_gen := 0
            prefix_ready := true
            shared_len := computeSharedLen c.prompts }
        else
          { mem := memClear
            final_responses := List.replicate c.prompts.length []
            slots := List.replicate (seqCapacity c) {}
            next_prompt_idx := 0
            active_clients := 0
            pending := []
            calls := (submitChunks c.dec
              (computeSharedLen c.prompts + batchCapInit c + 1)
              (computeSharedLen c.prompts) 0 (batchCapInit c) 0 0).calls
            miss := (submitChunks c.dec
              (computeSharedLen c.prompts + batchCapInit c + 1)
              (computeSharedLen c.prompts) 0 (batchCapInit c) 0 0).miss
            n_total_prompt := 0
            n_total_gen := 0
            prefix_ready := false
            shared_len := computeSharedLen c.prompts }
      else
        { mem := memClear
          final_responses := List.replicate c.prompts.length []
          slots := List.replicate (seqCapacity c) {}
          next_prompt_idx := 0
          active_clients := 0
          pending := []
          calls := 0
          miss := 0
          n_total_prompt := 0
          n_total_gen := 0
          prefix_ready := false
          shared_len := computeSharedLen c.prompts }) = x := ⟨_, rfl⟩
  rw [hE1eq] at h
  have hfacts : EngCore c e1 ∧ e1.pending = [] ∧
      e1.final_responses.length = c.prompts.length ∧
      e1.slots = List.replicate (seqCapacity c) ({} : Slot) ∧
      e1.next_prompt_idx = 0 := by
    rw [← hE1eq]
    refine ⟨⟨?_, ?_, ?_, ?_⟩, ?_, ?_, ?_, ?_⟩
    · split <;> (try split) <;> exact List.length_replicate _ _
    · split <;> (try split) <;> exact (countActive_replicate _).symm
    · split <;> (try split) <;>
        (intro i hiS hia
         rw [initEngine_slot_fact c _ rfl i] at hia
         cases hia)
    · split
      · split
        · intro q hq
          by_cases hq0 : q = 0
          · subst hq0
            exact Or.inl ⟨rfl, rfl⟩
          · exact absurd ((memSet_ne memClear 0 _ q hq0).trans rfl) hq
        · intro q hq
          exact absurd rfl hq
      · intro q hq
        exact absurd rfl hq
    · split <;> (try split) <;> rfl
    · split <;> (try split) <;> exact List.length_replicate _ _
    · split <;> (try split) <;> rfl
    · split <;> (try split) <;> rfl
  have hov1 : OvState c e1 := by
    constructor
    · intro i hiS hact
      rw [initEngine_slot_fact c e1 hfacts.2.2.2.1 i] at hact
      cases hact
    · intro g2 hgt _
      rw [hfacts.2.2.2.2] at hgt
      exact absurd hgt (by omega)
  have h2 := ensureSlotsFilled_inv c e1 hfacts.1 hfacts.2.1 hfacts.2.2.1
  split at h
  · cases h
  · rename_i e3 fatal heq
    have hinv := mainLoop_inv c fuel (ensureSlotsFilled c e1) h2.1 h2.2.1
      (h2.2.2.2.1.trans hfacts.2.2.1)
      (by
        rcases h2.2.2.2.2.2.2.2.2 with hc | hn
        · exact Or.inl hc
        · exact Or.inr (Nat.not_lt.mp hn)) e3 fatal heq
    split at h
    · exfalso
      have hp := Option.some.inj h
      have hc2 := congrArg Prod.snd hp
      simp at hc2
    · rename_i hfat
      have hp := Option.some.inj h
      have hout : e3.final_responses = out := by
        have := congrArg Prod.snd hp
        simpa using this
      have hf : fatal = false := by
        cases fatal
        · rfl
        · exact absurd rfl hfat
      have hovE3 := hinv.2.2.2.2.1 (h2.2.2.2.2.2.2.2.1 hov1)
      have hnext := hinv.2.2.2.2.2 hf
      have hres := hovE3.2 g (lt_of_lt_of_le hg hnext) hovg
      rw [hout] at hres
      exact hres

set_option maxHeartbeats 1000000 in
theorem parallel_postconditions (c : Cfg) (fuel : Nat) (mem0 : Nat → Nat)
    (m : Nat → Nat) (r : Except Str (List Str))
    (hne : ¬c.prompts.length = 0)
    (h : localllm_generate_parallel c fuel mem0 = some (m, r)) :
    (∀ s, m s = 0) ∧
    (∀ out, r = Except.ok out → out.length = c.prompts.length ∧
      ∀ k, RespEntryOK (out.getD k [])) ∧
    (∀ msg, r = Except.error msg → msg ≠ []) := by
  simp only [localllm_generate_parallel] at h
  rw [if_neg hne] at h
  obtain ⟨e1, hE1eq⟩ : ∃ x : Engine,
      (if 0 < computeSharedLen c.prompts then
        if (submitChunks c.dec (computeSharedLen c.prompts + batchCapInit c + 1)
            (computeSharedLen c.prompts) 0 (batchCapInit c) 0 0).ok = true then
          { mem := memAdd memClear 0 (submitChunks c.dec
              (computeSharedLen c.prompts + batchCapInit c + 1)
              (computeSharedLen c.prompts) 0 (batchCapInit c) 0 0).progress
            final_responses := List.replicate c.prompts.length []
            slots := List.replicate (seqCapacity c) {}
            next_prompt_idx := 0
            active_clients := 0
            pending := []
            calls := (submitChunks c.dec
              (computeSharedLen c.prompts + batchCapInit c + 1)
              (computeSharedLen c.prompts) 0 (batchCapInit c) 0 0).calls
            miss := (submitChunks c.dec
              (computeSharedLen c.prompts + batchCapInit c + 1)
              (computeSharedLen c.prompts) 0 (batchCapInit c) 0 0).miss
            n_total_prompt := 0
            n_total_gen := 0
            prefix_ready := true
            shared_len := computeSharedLen c.prompts }
        else
          { mem := memClear
            final_responses := List.replicate c.prompts.length []
            slots := List.replicate (seqCapacity c) {}
            next_prompt_idx := 0
            active_clients := 0
            pending := []
            calls := (submitChunks c.dec
              (computeSharedLen c.prompts + batchCapInit c + 1)
              (computeSharedLen c.prompts) 0 (batchCapInit c) 0 0).calls
            miss := (submitChunks c.dec
              (computeSharedLen c.prompts + batchCapInit c + 1)
              (computeSharedLen c.prompts) 0 (batchCapInit c) 0 0).miss
            n_total_prompt := 0
            n_total_gen := 0
            prefix_ready := false
            shared_len := computeSharedLen c.prompts }
      else
        { mem := memClear
          final_responses := List.replicate c.prompts.length []
          slots := List.replicate (seqCapacity c) {}
          next_prompt_idx := 0
          active_clients := 0
          pending := []
          calls := 0
          miss := 0
          n_total_prompt := 0
          n_total_gen := 0
          prefix_ready := false
          shared_len := computeSharedLen c.prompts }) = x := ⟨_, rfl⟩
  rw [hE1eq] at h
  have hfacts : EngCore c e1 ∧ e1.pending = [] ∧ RespOK e1 ∧
      e1.final_responses.length = c.prompts.length := by
    rw [← hE1eq]
    refine ⟨⟨?_, ?_, ?_, ?_⟩, ?_, ?_, ?_⟩
    · split <;> (try split) <;> exact List.length_replicate _ _
    · split <;> (try split) <;> exact (countActive_replicate _).symm
    · split <;> (try split) <;>
        (intro i hiS hia
         rw [initEngine_slot_fact c _ rfl i] at hia
         cases hia)
    · split
      · split
        · intro q hq
          by_cases hq0 : q = 0
          · subst hq0
            exact Or.inl ⟨rfl, rfl⟩
          · exact absurd ((memSet_ne memClear 0 _ q hq0).trans rfl) hq
        · intro q hq
          exact absurd rfl hq
      · intro q hq
        exact absurd rfl hq
    · split <;> (try split) <;> rfl
    · split <;> (try split) <;>
        (intro k
         show RespEntryOK ((List.replicate c.prompts.length ([] : Str)).getD k [])
         rw [getD_replicate]
         split <;> exact Or.inl rfl)
    · split <;> (try split) <;> exact List.length_replicate _ _
  have h2 := ensureSlotsFilled_inv c e1 hfacts.1 hfacts.2.1 hfacts.2.2.2
  split at h
  · cases h
  · rename_i e3 fatal heq
    have hinv := mainLoop_inv c fuel (ensureSlotsFilled c e1) h2.1 h2.2.1
      (h2.2.2.2.1.trans hfacts.2.2.2)
      (by
        rcases h2.2.2.2.2.2.2.2.2 with hc | hn
        · exact Or.inl hc
        · exact Or.inr (Nat.not_lt.mp hn)) e3 fatal heq
    split at h
    · cases h
      refine ⟨fun s => rfl, ?_, ?_⟩
      · intro out habs
        cases habs
      · intro msg hmsg
        cases hmsg
        exact fun habs => absurd habs (by decide)
    · rename_i hfatneg
      cases h
      have hf : fatal = false := by
        cases fatal
        · rfl
        · exact absurd rfl hfatneg
      have hnoact := hinv.2.2.2.1 hf
      have hmemz : ∀ s, s ≠ 0 → e3.mem s = 0 := by
        intro s hs
        by_contra hne2
        rcases hinv.1.2.2.2 s hne2 with ⟨h0, _⟩ | ⟨i, hiS, hia, _⟩
        · exact hs h0
        · rw [hnoact i hiS] at hia
          cases hia
      refine ⟨?_, ?_, ?_⟩
      · intro s
        split
        · by_cases hs : s = 0
          · subst hs
            exact memSet_self _ _ _
          · rw [seqRm, memSet_ne _ _ _ _ hs]
            exact hmemz s hs
        · rename_i hpr
          by_cases hs : s = 0
          · subst hs
            by_contra hne2
            rcases hinv.1.2.2.2 0 hne2 with ⟨_, hpr2⟩ | ⟨i, hiS, hia, _⟩
            · exact hpr hpr2
            · rw [hnoact i hiS] at hia
              cases hia
          · exact hmemz s hs
      · intro out hok
        cases hok
        exact ⟨hinv.2.1.trans (h2.2.2.2.1.trans hfacts.2.2.2),
          fun k => hinv.2.2.1 (h2.2.2.2.2.1 hfacts.2.2.1) k⟩
      · intro msg habs
        cases habs

/-! ## Claim C4: KV memory on return -/

/-- C4 (counterexample): for the empty prompt vector the argument check fails
before any KV operation, so the memory the context held at call time — here a
row under seq-id 1 — survives the return. -/
theorem C4_counterexample :
    ∃ p : (Nat → Nat) × Except Str (List Str),
      localllm_generate_parallel { cfgC1 with prompts := [] } 1
        (fun _ => 1) = some p ∧ p.1 1 = 1 ∧ (1 : Nat) ≠ 0 :=
  ⟨_, rfl, rfl, by decide⟩

/-- C4 (amended): for every non-empty prompt vector, whenever
`localllm_generate_parallel` returns — with the result vector or with the
fatal decode error — the KV memory it hands back is empty at every seq-id. -/
theorem C4_amended (c : Cfg) (fuel : Nat) (mem0 : Nat → Nat)
    (m : Nat → Nat) (r : Except Str (List Str))
    (hne : c.prompts ≠ [])
    (h : localllm_generate_parallel c fuel mem0 = some (m, r)) :
    ∀ s, m s = 0 :=
  (parallel_postconditions c fuel mem0 m r
    (fun h0 => hne (List.eq_nil_of_length_eq_zero h0)) h).1

theorem C4_witness :
    ∃ (m : Nat → Nat) (r : Except Str (List Str)),
      localllm_generate_parallel cfgC1 12 memClear = some (m, r) ∧
      m 0 = 0 ∧ m 1 = 0 ∧ m 2 = 0 := by
  refine ⟨_, _, rfl, ?_, ?_, ?_⟩
  · exact C4_amended cfgC1 12 memClear _ _ (by decide) rfl 0
  · exact C4_amended cfgC1 12 memClear _ _ (by decide) rfl 1
  · exact C4_amended cfgC1 12 memClear _ _ (by decide) rfl 2

/-! ## Claim C5: shape of the user-visible results -/

/-- C5: when `localllm_generate_parallel` returns the result vector, it holds
exactly `n_prompts` strings, indexed by the caller's prompt order, and every
entry is either still the initial empty string, the cleaner's output for a
finished slot, or an `"[ERROR] "`-prefixed sentinel; when it returns an
error, it carries a non-empty message and no result strings. -/
theorem C5_results_shape (c : Cfg) (fuel : Nat) (mem0 : Nat → Nat)
    (m : Nat → Nat) (r : Except Str (List Str))
    (h : localllm_generate_parallel c fuel mem0 = some (m, r)) :
    (∀ out, r = Except.ok out → out.length = c.prompts.length ∧
      ∀ k, RespEntryOK (out.getD k [])) ∧
    (∀ msg, r = Except.error msg → msg ≠ []) := by
  by_cases hne : c.prompts.length = 0
  · unfold localllm_generate_parallel at h
    rw [if_pos hne] at h
    cases h
    refine ⟨?_, ?_⟩
    · intro out habs
      cases habs
    · intro msg hmsg
      cases hmsg
      exact fun habs => absurd habs (by decide)
  · exact (parallel_postconditions c fuel mem0 m r hne h).2

theorem C5_witness :
    ∃ (m : Nat → Nat),
      localllm_generate_parallel cfgC2 12 memClear =
        some (m, Except.ok ["A".data]) ∧
      (["A".data] : List Str).length = cfgC2.prompts.length ∧
      ∀ k, RespEntryOK ((["A".data] : List Str).getD k []) := by
  refine ⟨_, rfl, ?_⟩
  exact (C5_results_shape cfgC2 12 memClear _ _ rfl).1 ["A".data] rfl

theorem C9_witness :
    (slotAccept testVocab 100 7 ⟨"AAAAAA".data, 6, false⟩).stopped = true ∧
    (slotAccept testVocab 100 7 ⟨"AAAAAA".data, 6, false⟩).response =
      "AAAAAA".data ++ testVocab.piece 7 :=
  C9_amended.1 testVocab 100 7 ⟨"AAAAAA".data, 6, false⟩
    (by decide) (by decide) (by decide) (by decide) (by decide)

/-! ## Flag facts of prompt admission (towards C7) -/

/-! ## Claim C7: the context-overflow guard at slot assignment -/

/-- C7: a prompt that tokenises to strictly more than `n_ctx - 64` tokens is
rejected at slot assignment.  In any successful parallel run its result entry
is exactly the overflow sentinel `"[ERROR] Prompt too long for context size"`
— an error message mentioning the context size — and the rejection step
rewrites nothing but that prompt's entry and the next-prompt counter, so the
outputs of all other prompts in the call are unaffected by the rejection. -/
theorem C7_overflow_guard (c : Cfg) (fuel : Nat) (mem0 : Nat → Nat)
    (m : Nat → Nat) (out : List Str) (g : Nat)
    (h : localllm_generate_parallel c fuel mem0 = some (m, Except.ok out))
    (hg : g < c.prompts.length)
    (hov : ((c.prompts.getD g []).length : Int) > (c.n_ctx : Int) - 64) :
    out.getD g [] = ovSentinel ∧
    (∃ pre, pre ++ "context size".data = out.getD g []) ∧
    (∀ (fuel2 : Nat) (e : Engine) (idx : Nat), e.next_prompt_idx = g →
      assignAux c (fuel2 + 1) e idx =
        assignAux c fuel2
          { e with
            next_prompt_idx := g + 1
            final_responses := e.final_responses.set g ovSentinel } idx) := by
  have hs := parallel_ov_post c fuel mem0 m out h g hg hov
  refine ⟨hs, ⟨"[ERROR] Prompt too long for ".data, ?_⟩, ?_⟩
  · rw [hs]
    decide
  · intro fuel2 e idx hnext
    subst hnext
    simp only [assignAux]
    rw [if_pos hg, if_pos hov]
    rfl

/-- Witness for C7: with `n_ctx = 64` the one-token prompt exceeds the
`n_ctx - 64` budget and its (only) result entry is the overflow sentinel. -/
theorem C7_witness :
    ∃ m out, localllm_generate_parallel cfgC7 12 memClear =
        some (m, Except.ok out) ∧ out.getD 0 [] = ovSentinel := by
  refine ⟨_, _, rfl, ?_⟩
  exact (C7_overflow_guard cfgC7 12 memClear _ _ 0 rfl (by decide)
    (by decide)).1

/-! ## Claim C3: one-element parallel call versus the single-prompt API -/

/-- C3 (counterexample): with matching parameters and the same sampler stream,
the one-element parallel call and the single-prompt `localllm_generate`
disagree: the generated piece `" hi"` is returned verbatim by the single-prompt
path but whitespace-trimmed to `"hi"` by the parallel path's output cleaner. -/
theorem C3_counterexample :
    ∃ p t, localllm_generate_parallel cfgC3 12 memClear = some p ∧
      localllm_generate cfgC3.vocab cfgC3.dec (cfgC3.streams 0)
        (cfgC3.prompts.getD 0 []) cfgC3.max_tokens = Except.ok t ∧
      p.2 = Except.ok ["hi".data] ∧ t = " hi".data ∧
      ("hi".data : Str) ≠ " hi".data :=
  ⟨_, _, rfl, rfl, rfl, rfl, by decide⟩

/-- C3 (amended): a one-element parallel call yields exactly one entry, and
that entry is never the raw slot text: it is empty, the image of the output
cleaner `clean_response_text`, or an `"[ERROR] "`-prefixed sentinel; on the
concrete scenario the parallel entry is precisely `clean_response_text`
applied to the single-prompt output, and differs from that raw output. -/
theorem C3_amended (c : Cfg) (fuel : Nat) (mem0 : Nat → Nat)
    (m : Nat → Nat) (out : List Str) (p : List Tok)
    (hp : c.prompts = [p])
    (h : localllm_generate_parallel c fuel mem0 = some (m, Except.ok out)) :
    (out.length = 1 ∧ RespEntryOK (out.getD 0 [])) ∧
    (∃ t m2 out2,
      localllm_generate cfgC3.vocab cfgC3.dec (cfgC3.streams 0)
        (cfgC3.prompts.getD 0 []) cfgC3.max_tokens = Except.ok t ∧
      localllm_generate_parallel cfgC3 12 memClear =
        some (m2, Except.ok out2) ∧
      out2.getD 0 [] = cleanResponseText t ∧
      out2.getD 0 [] ≠ t) := by
  have hne : ¬c.prompts.length = 0 := by rw [hp]; simp
  have hpp := parallel_postconditions c fuel mem0 m (Except.ok out) hne h
  have hres := hpp.2.1 out rfl
  refine ⟨⟨by rw [hres.1, hp]; rfl, hres.2 0⟩, ?_⟩
  refine ⟨_, _, _, rfl, rfl, ?_, ?_⟩
  · rfl
  · decide

/-- Witness for C3 (amended) at the concrete scenario configuration. -/
theorem C3_witness :
    ∃ m out, localllm_generate_parallel cfgC3 12 memClear =
        some (m, Except.ok out) ∧ out.length = 1 ∧
      RespEntryOK (out.getD 0 []) := by
  refine ⟨_, _, rfl, ?_, ?_⟩
  · exact ((C3_amended cfgC3 12 memClear _ _ [5] rfl rfl).1).1
  · exact ((C3_amended cfgC3 12 memClear _ _ [5] rfl rfl).1).2

end LocalLLM
